import Mathlib

/-!
# A shallow embedding of the nyx assembler / virtual-machine core

This file embeds, in Lean 4, the parts of the `nyx` toolchain (a Rust
assembler plus bytecode virtual machine) needed to settle the claims of the
specification against the implementation: the multi-width register file
(`src/vm/register.rs`), the flat byte memory (`src/vm/memory.rs`), the VM
loader and interpreter (`src/vm/mod.rs`), the compiler back end
(`src/compiler/mod.rs`, `src/compiler/bytecode.rs`), and the preprocessor's
constant folding (`src/preprocessor/mod.rs`).

Modelling conventions:

* Rust machine integers (`u8`, `u16`, `u32`, `u64`, `usize`, `i64`) are
  `Nat` / `Int` with explicit reductions modulo `2 ^ w` where the source
  truncates; `usize` is 64-bit.
* IEEE 754 floating point is out of scope for the claims below.  Every
  floating-point operation the source performs (arithmetic, comparison, and
  the numeric `as` casts between floats and integers) is abstracted into a
  `FloatModel` record of total functions on bit patterns; float values are
  carried as their raw IEEE bit patterns.  Every theorem is universally
  quantified over the record, so nothing below depends on a particular
  floating-point implementation.
* `Vec<u8>` buffers are `List Nat` of byte values; `HashMap` tables are
  association lists (insertion prepends, lookup takes the first match, which
  matches `HashMap::insert` overwrite semantics; iteration in `drain` order
  is modelled as insertion order).
* Rust `Result` is `Except`; a Rust panic (slice out of bounds, integer
  division by zero, division overflow) is modelled as a dedicated `panic`
  error constructor, kept distinct from the structured error enums.
* Error enums keep the source's constructor names and semantically relevant
  payloads; the purely diagnostic `src`/`span` payloads are dropped.
* `src/compiler/opcode.rs` is absent from the provided sources (only its
  uses survive).  The `Opcode` enumeration is therefore modelled from the
  spec; see its doc comment.
-/

namespace Nyx

/-! ## Byte-level utilities -/

/-- Little-endian byte list of `v`, `k` bytes (`to_le_bytes` after the
source's `as uN` truncation, which the callers perform explicitly). -/
def leBytes : Nat → Nat → List Nat
  | 0, _ => []
  | k + 1, v => v % 256 :: leBytes k (v / 256)

/-- Little-endian recomposition (`uN::from_le_bytes`). -/
def fromLeBytes : List Nat → Nat
  | [] => 0
  | b :: bs => b + 256 * fromLeBytes bs

/-- Two's-complement interpretation of a 64-bit pattern (Rust `as i64`). -/
def toI64 (n : Nat) : Int :=
  if n < 2 ^ 63 then (n : Int) else (n : Int) - 2 ^ 64

/-- The 64-bit pattern of an `i64` (Rust `as u64`; also the `i64 → uN`
truncating casts after a further `% 2 ^ w`). -/
def u64OfInt (x : Int) : Nat := (x % (2 ^ 64 : Int)).toNat

/-- Wrapping two's-complement 64-bit signed arithmetic result. -/
def wrap64 (x : Int) : Int := toI64 (u64OfInt x)

/-- Truncating cast of an `i64` value to a `k`-byte little-endian byte list
(the compiler's `(v as uN).to_le_bytes()` patterns). -/
def leBytesOfInt (k : Nat) (v : Int) : List Nat := leBytes k (u64OfInt v)

theorem leBytes_length (k v : Nat) : (leBytes k v).length = k := by
  induction k generalizing v with
  | zero => rfl
  | succ k ih => simp [leBytes, ih]

theorem fromLeBytes_leBytes (k v : Nat) :
    fromLeBytes (leBytes k v) = v % 2 ^ (8 * k) := by
  induction k generalizing v with
  | zero => simp [leBytes, fromLeBytes, Nat.mod_one]
  | succ k ih =>
      have h : 2 ^ (8 * (k + 1)) = 256 * 2 ^ (8 * k) := by
        rw [Nat.mul_succ, Nat.pow_add]; ring
      simp only [leBytes, fromLeBytes, ih, h, Nat.mod_mul]

/-! ## The abstract floating-point layer -/

/-- All floating-point behaviour of the source, abstracted over IEEE 754 bit
patterns (`Nat` below `2 ^ 32` resp. `2 ^ 64`).  The fields are, in order:
the four `f32`/`f64` arithmetic operators, the IEEE `==`/`<` comparisons,
the Rust numeric casts integer→float (`intToF32`/`intToF64`, covering all
source integer widths), float→float (`f32toF64`, `f64toF32`), and the
saturating float→integer casts (`f32castU bits w` / `f64castU bits w` is the
Rust `x as uN` for the `w`-bit unsigned target).  No theorem in this file
depends on the values of these fields. -/
structure FloatModel where
  f32add : Nat → Nat → Nat
  f32sub : Nat → Nat → Nat
  f32mul : Nat → Nat → Nat
  f32div : Nat → Nat → Nat
  f64add : Nat → Nat → Nat
  f64sub : Nat → Nat → Nat
  f64mul : Nat → Nat → Nat
  f64div : Nat → Nat → Nat
  f32eq : Nat → Nat → Bool
  f32lt : Nat → Nat → Bool
  f64eq : Nat → Nat → Bool
  f64lt : Nat → Nat → Bool
  intToF32 : Int → Nat
  intToF64 : Int → Nat
  f32toF64 : Nat → Nat
  f64toF32 : Nat → Nat
  f32castU : Nat → Nat → Nat
  f64castU : Nat → Nat → Nat

/-- A degenerate instantiation of the abstract floating-point layer, used
only to instantiate universally quantified theorems at concrete inputs. -/
def floats0 : FloatModel where
  f32add := fun _ _ => 0
  f32sub := fun _ _ => 0
  f32mul := fun _ _ => 0
  f32div := fun _ _ => 0
  f64add := fun _ _ => 0
  f64sub := fun _ _ => 0
  f64mul := fun _ _ => 0
  f64div := fun _ _ => 0
  f32eq := fun _ _ => false
  f32lt := fun _ _ => false
  f64eq := fun _ _ => false
  f64lt := fun _ _ => false
  intToF32 := fun _ => 0
  intToF64 := fun _ => 0
  f32toF64 := fun _ => 0
  f64toF32 := fun _ => 0
  f32castU := fun _ _ => 0
  f64castU := fun _ _ => 0

/-! ## `DataSize` (`src/parser/immediate.rs`) -/

inductive DataSize where
  | byte | word | dword | qword | float | double
deriving DecidableEq, Repr

namespace DataSize

/-- `DataSize::size_in_bytes`. -/
def sizeInBytes : DataSize → Nat
  | .byte => 1
  | .word => 2
  | .dword => 4
  | .qword => 8
  | .float => 4
  | .double => 8

/-- `impl Into<u8> for DataSize` (`self as u8`). -/
def toByte : DataSize → Nat
  | .byte => 0
  | .word => 1
  | .dword => 2
  | .qword => 3
  | .float => 4
  | .double => 5

/-- `impl TryFrom<u8> for DataSize`. -/
def ofByte? : Nat → Option DataSize
  | 0 => some .byte
  | 1 => some .word
  | 2 => some .dword
  | 3 => some .qword
  | 4 => some .float
  | 5 => some .double
  | _ => none

end DataSize

/-! ## Registers (`src/vm/register.rs`) -/

inductive PhysicalRegisterType where
  | generalPurpose | floatingPoint | special
deriving DecidableEq, Repr

inductive RegisterView where
  | byte | word | dword | qword | float | double
deriving DecidableEq, Repr

inductive Register where
  | B0 | W0 | D0 | Q0 | FF0 | DD0
  | B1 | W1 | D1 | Q1 | FF1 | DD1
  | B2 | W2 | D2 | Q2 | FF2 | DD2
  | B3 | W3 | D3 | Q3 | FF3 | DD3
  | B4 | W4 | D4 | Q4 | FF4 | DD4
  | B5 | W5 | D5 | Q5 | FF5 | DD5
  | B6 | W6 | D6 | Q6 | FF6 | DD6
  | B7 | W7 | D7 | Q7 | FF7 | DD7
  | B8 | W8 | D8 | Q8 | FF8 | DD8
  | B9 | W9 | D9 | Q9 | FF9 | DD9
  | B10 | W10 | D10 | Q10 | FF10 | DD10
  | B11 | W11 | D11 | Q11 | FF11 | DD11
  | B12 | W12 | D12 | Q12 | FF12 | DD12
  | B13 | W13 | D13 | Q13 | FF13 | DD13
  | B14 | W14 | D14 | Q14 | FF14 | DD14
  | B15 | W15 | D15 | Q15 | FF15 | DD15
  | IP | SP | BP
deriving DecidableEq, Repr

namespace Register

/-- `Register::physical_info` from `src/vm/register.rs`: the (file, physical index, view)
of each architectural register.  `FFi` selects float-array index `i` and `DDi` index
`16 + i` (the source's `FPRi` / `DPRi` constants into the single 32-slot `fpr` array). -/
def physicalInfo : Register → PhysicalRegisterType × Nat × RegisterView
  | .B0 => (.generalPurpose, 0, .byte)
  | .W0 => (.generalPurpose, 0, .word)
  | .D0 => (.generalPurpose, 0, .dword)
  | .Q0 => (.generalPurpose, 0, .qword)
  | .FF0 => (.floatingPoint, 0, .float)
  | .DD0 => (.floatingPoint, 16, .double)
  | .B1 => (.generalPurpose, 1, .byte)
  | .W1 => (.generalPurpose, 1, .word)
  | .D1 => (.generalPurpose, 1, .dword)
  | .Q1 => (.generalPurpose, 1, .qword)
  | .FF1 => (.floatingPoint, 1, .float)
  | .DD1 => (.floatingPoint, 17, .double)
  | .B2 => (.generalPurpose, 2, .byte)
  | .W2 => (.generalPurpose, 2, .word)
  | .D2 => (.generalPurpose, 2, .dword)
  | .Q2 => (.generalPurpose, 2, .qword)
  | .FF2 => (.floatingPoint, 2, .float)
  | .DD2 => (.floatingPoint, 18, .double)
  | .B3 => (.generalPurpose, 3, .byte)
  | .W3 => (.generalPurpose, 3, .word)
  | .D3 => (.generalPurpose, 3, .dword)
  | .Q3 => (.generalPurpose, 3, .qword)
  | .FF3 => (.floatingPoint, 3, .float)
  | .DD3 => (.floatingPoint, 19, .double)
  | .B4 => (.generalPurpose, 4, .byte)
  | .W4 => (.generalPurpose, 4, .word)
  | .D4 => (.generalPurpose, 4, .dword)
  | .Q4 => (.generalPurpose, 4, .qword)
  | .FF4 => (.floatingPoint, 4, .float)
  | .DD4 => (.floatingPoint, 20, .double)
  | .B5 => (.generalPurpose, 5, .byte)
  | .W5 => (.generalPurpose, 5, .word)
  | .D5 => (.generalPurpose, 5, .dword)
  | .Q5 => (.generalPurpose, 5, .qword)
  | .FF5 => (.floatingPoint, 5, .float)
  | .DD5 => (.floatingPoint, 21, .double)
  | .B6 => (.generalPurpose, 6, .byte)
  | .W6 => (.generalPurpose, 6, .word)
  | .D6 => (.generalPurpose, 6, .dword)
  | .Q6 => (.generalPurpose, 6, .qword)
  | .FF6 => (.floatingPoint, 6, .float)
  | .DD6 => (.floatingPoint, 22, .double)
  | .B7 => (.generalPurpose, 7, .byte)
  | .W7 => (.generalPurpose, 7, .word)
  | .D7 => (.generalPurpose, 7, .dword)
  | .Q7 => (.generalPurpose, 7, .qword)
  | .FF7 => (.floatingPoint, 7, .float)
  | .DD7 => (.floatingPoint, 23, .double)
  | .B8 => (.generalPurpose, 8, .byte)
  | .W8 => (.generalPurpose, 8, .word)
  | .D8 => (.generalPurpose, 8, .dword)
  | .Q8 => (.generalPurpose, 8, .qword)
  | .FF8 => (.floatingPoint, 8, .float)
  | .DD8 => (.floatingPoint, 24, .double)
  | .B9 => (.generalPurpose, 9, .byte)
  | .W9 => (.generalPurpose, 9, .word)
  | .D9 => (.generalPurpose, 9, .dword)
  | .Q9 => (.generalPurpose, 9, .qword)
  | .FF9 => (.floatingPoint, 9, .float)
  | .DD9 => (.floatingPoint, 25, .double)
  | .B10 => (.generalPurpose, 10, .byte)
  | .W10 => (.generalPurpose, 10, .word)
  | .D10 => (.generalPurpose, 10, .dword)
  | .Q10 => (.generalPurpose, 10, .qword)
  | .FF10 => (.floatingPoint, 10, .float)
  | .DD10 => (.floatingPoint, 26, .double)
  | .B11 => (.generalPurpose, 11, .byte)
  | .W11 => (.generalPurpose, 11, .word)
  | .D11 => (.generalPurpose, 11, .dword)
  | .Q11 => (.generalPurpose, 11, .qword)
  | .FF11 => (.floatingPoint, 11, .float)
  | .DD11 => (.floatingPoint, 27, .double)
  | .B12 => (.generalPurpose, 12, .byte)
  | .W12 => (.generalPurpose, 12, .word)
  | .D12 => (.generalPurpose, 12, .dword)
  | .Q12 => (.generalPurpose, 12, .qword)
  | .FF12 => (.floatingPoint, 12, .float)
  | .DD12 => (.floatingPoint, 28, .double)
  | .B13 => (.generalPurpose, 13, .byte)
  | .W13 => (.generalPurpose, 13, .word)
  | .D13 => (.generalPurpose, 13, .dword)
  | .Q13 => (.generalPurpose, 13, .qword)
  | .FF13 => (.floatingPoint, 13, .float)
  | .DD13 => (.floatingPoint, 29, .double)
  | .B14 => (.generalPurpose, 14, .byte)
  | .W14 => (.generalPurpose, 14, .word)
  | .D14 => (.generalPurpose, 14, .dword)
  | .Q14 => (.generalPurpose, 14, .qword)
  | .FF14 => (.floatingPoint, 14, .float)
  | .DD14 => (.floatingPoint, 30, .double)
  | .B15 => (.generalPurpose, 15, .byte)
  | .W15 => (.generalPurpose, 15, .word)
  | .D15 => (.generalPurpose, 15, .dword)
  | .Q15 => (.generalPurpose, 15, .qword)
  | .FF15 => (.floatingPoint, 15, .float)
  | .DD15 => (.floatingPoint, 31, .double)
  | .IP => (.special, 0, .qword)
  | .SP => (.special, 1, .qword)
  | .BP => (.special, 2, .qword)

/-- `impl Into<u8> for Register` (`self as u8`): the declaration ordinal, 0x00..0x62. -/
def toByte : Register → Nat
  | .B0 => 0
  | .W0 => 1
  | .D0 => 2
  | .Q0 => 3
  | .FF0 => 4
  | .DD0 => 5
  | .B1 => 6
  | .W1 => 7
  | .D1 => 8
  | .Q1 => 9
  | .FF1 => 10
  | .DD1 => 11
  | .B2 => 12
  | .W2 => 13
  | .D2 => 14
  | .Q2 => 15
  | .FF2 => 16
  | .DD2 => 17
  | .B3 => 18
  | .W3 => 19
  | .D3 => 20
  | .Q3 => 21
  | .FF3 => 22
  | .DD3 => 23
  | .B4 => 24
  | .W4 => 25
  | .D4 => 26
  | .Q4 => 27
  | .FF4 => 28
  | .DD4 => 29
  | .B5 => 30
  | .W5 => 31
  | .D5 => 32
  | .Q5 => 33
  | .FF5 => 34
  | .DD5 => 35
  | .B6 => 36
  | .W6 => 37
  | .D6 => 38
  | .Q6 => 39
  | .FF6 => 40
  | .DD6 => 41
  | .B7 => 42
  | .W7 => 43
  | .D7 => 44
  | .Q7 => 45
  | .FF7 => 46
  | .DD7 => 47
  | .B8 => 48
  | .W8 => 49
  | .D8 => 50
  | .Q8 => 51
  | .FF8 => 52
  | .DD8 => 53
  | .B9 => 54
  | .W9 => 55
  | .D9 => 56
  | .Q9 => 57
  | .FF9 => 58
  | .DD9 => 59
  | .B10 => 60
  | .W10 => 61
  | .D10 => 62
  | .Q10 => 63
  | .FF10 => 64
  | .DD10 => 65
  | .B11 => 66
  | .W11 => 67
  | .D11 => 68
  | .Q11 => 69
  | .FF11 => 70
  | .DD11 => 71
  | .B12 => 72
  | .W12 => 73
  | .D12 => 74
  | .Q12 => 75
  | .FF12 => 76
  | .DD12 => 77
  | .B13 => 78
  | .W13 => 79
  | .D13 => 80
  | .Q13 => 81
  | .FF13 => 82
  | .DD13 => 83
  | .B14 => 84
  | .W14 => 85
  | .D14 => 86
  | .Q14 => 87
  | .FF14 => 88
  | .DD14 => 89
  | .B15 => 90
  | .W15 => 91
  | .D15 => 92
  | .Q15 => 93
  | .FF15 => 94
  | .DD15 => 95
  | .IP => 96
  | .SP => 97
  | .BP => 98

/-- `impl TryFrom<u8> for Register` from `src/vm/register.rs`. -/
def ofByte? : Nat → Option Register
  | 0 => some .B0
  | 1 => some .W0
  | 2 => some .D0
  | 3 => some .Q0
  | 4 => some .FF0
  | 5 => some .DD0
  | 6 => some .B1
  | 7 => some .W1
  | 8 => some .D1
  | 9 => some .Q1
  | 10 => some .FF1
  | 11 => some .DD1
  | 12 => some .B2
  | 13 => some .W2
  | 14 => some .D2
  | 15 => some .Q2
  | 16 => some .FF2
  | 17 => some .DD2
  | 18 => some .B3
  | 19 => some .W3
  | 20 => some .D3
  | 21 => some .Q3
  | 22 => some .FF3
  | 23 => some .DD3
  | 24 => some .B4
  | 25 => some .W4
  | 26 => some .D4
  | 27 => some .Q4
  | 28 => some .FF4
  | 29 => some .DD4
  | 30 => some .B5
  | 31 => some .W5
  | 32 => some .D5
  | 33 => some .Q5
  | 34 => some .FF5
  | 35 => some .DD5
  | 36 => some .B6
  | 37 => some .W6
  | 38 => some .D6
  | 39 => some .Q6
  | 40 => some .FF6
  | 41 => some .DD6
  | 42 => some .B7
  | 43 => some .W7
  | 44 => some .D7
  | 45 => some .Q7
  | 46 => some .FF7
  | 47 => some .DD7
  | 48 => some .B8
  | 49 => some .W8
  | 50 => some .D8
  | 51 => some .Q8
  | 52 => some .FF8
  | 53 => some .DD8
  | 54 => some .B9
  | 55 => some .W9
  | 56 => some .D9
  | 57 => some .Q9
  | 58 => some .FF9
  | 59 => some .DD9
  | 60 => some .B10
  | 61 => some .W10
  | 62 => some .D10
  | 63 => some .Q10
  | 64 => some .FF10
  | 65 => some .DD10
  | 66 => some .B11
  | 67 => some .W11
  | 68 => some .D11
  | 69 => some .Q11
  | 70 => some .FF11
  | 71 => some .DD11
  | 72 => some .B12
  | 73 => some .W12
  | 74 => some .D12
  | 75 => some .Q12
  | 76 => some .FF12
  | 77 => some .DD12
  | 78 => some .B13
  | 79 => some .W13
  | 80 => some .D13
  | 81 => some .Q13
  | 82 => some .FF13
  | 83 => some .DD13
  | 84 => some .B14
  | 85 => some .W14
  | 86 => some .D14
  | 87 => some .Q14
  | 88 => some .FF14
  | 89 => some .DD14
  | 90 => some .B15
  | 91 => some .W15
  | 92 => some .D15
  | 93 => some .Q15
  | 94 => some .FF15
  | 95 => some .DD15
  | 96 => some .IP
  | 97 => some .SP
  | 98 => some .BP
  | _ => none

end Register

/-- `impl From<Register> for DataSize` from `src/parser/immediate.rs`. -/
def DataSize.ofRegister : Register → DataSize
  | .B0 | .B1 | .B2 | .B3 | .B4 | .B5 | .B6 | .B7 | .B8 | .B9 | .B10 | .B11 | .B12 | .B13 | .B14 | .B15 => .byte
  | .W0 | .W1 | .W2 | .W3 | .W4 | .W5 | .W6 | .W7 | .W8 | .W9 | .W10 | .W11 | .W12 | .W13 | .W14 | .W15 => .word
  | .D0 | .D1 | .D2 | .D3 | .D4 | .D5 | .D6 | .D7 | .D8 | .D9 | .D10 | .D11 | .D12 | .D13 | .D14 | .D15 => .dword
  | .Q0 | .Q1 | .Q2 | .Q3 | .Q4 | .Q5 | .Q6 | .Q7 | .Q8 | .Q9 | .Q10 | .Q11 | .Q12 | .Q13 | .Q14 | .Q15 | .IP | .SP | .BP => .qword
  | .FF0 | .FF1 | .FF2 | .FF3 | .FF4 | .FF5 | .FF6 | .FF7 | .FF8 | .FF9 | .FF10 | .FF11 | .FF12 | .FF13 | .FF14 | .FF15 => .float
  | .DD0 | .DD1 | .DD2 | .DD3 | .DD4 | .DD5 | .DD6 | .DD7 | .DD8 | .DD9 | .DD10 | .DD11 | .DD12 | .DD13 | .DD14 | .DD15 => .double

/-! ## `Immediate` (`src/parser/immediate.rs`)

Payloads are the raw machine representation: `Nat` byte patterns for the
integer widths and IEEE bit patterns for `float`/`double`.  `WF` records the
width bounds the Rust types carry. -/

inductive Immediate where
  | byte (v : Nat)
  | word (v : Nat)
  | dword (v : Nat)
  | qword (v : Nat)
  | float (bits : Nat)
  | double (bits : Nat)
deriving DecidableEq, Repr

namespace Immediate

/-- The width bounds guaranteed by the source's `u8`/`u16`/`u32`/`u64`/
`f32`/`f64` payload types. -/
def WF : Immediate → Prop
  | .byte v => v < 2 ^ 8
  | .word v => v < 2 ^ 16
  | .dword v => v < 2 ^ 32
  | .qword v => v < 2 ^ 64
  | .float bits => bits < 2 ^ 32
  | .double bits => bits < 2 ^ 64

instance (imm : Immediate) : Decidable imm.WF := by
  cases imm <;> simp only [WF] <;> infer_instance

/-- `Immediate::as_u8` (integer arms truncate, float arms are the Rust
saturating cast). -/
def asU8 (F : FloatModel) : Immediate → Nat
  | .byte v => v
  | .word v => v % 2 ^ 8
  | .dword v => v % 2 ^ 8
  | .qword v => v % 2 ^ 8
  | .float b => F.f32castU b 8
  | .double b => F.f64castU b 8

/-- `Immediate::as_u16`. -/
def asU16 (F : FloatModel) : Immediate → Nat
  | .byte v => v
  | .word v => v
  | .dword v => v % 2 ^ 16
  | .qword v => v % 2 ^ 16
  | .float b => F.f32castU b 16
  | .double b => F.f64castU b 16

/-- `Immediate::as_u32`. -/
def asU32 (F : FloatModel) : Immediate → Nat
  | .byte v => v
  | .word v => v
  | .dword v => v
  | .qword v => v % 2 ^ 32
  | .float b => F.f32castU b 32
  | .double b => F.f64castU b 32

/-- `Immediate::as_u64`. -/
def asU64 (F : FloatModel) : Immediate → Nat
  | .byte v => v
  | .word v => v
  | .dword v => v
  | .qword v => v
  | .float b => F.f32castU b 64
  | .double b => F.f64castU b 64

/-- `Immediate::as_usize` (`usize` is 64-bit). -/
def asUsize (F : FloatModel) : Immediate → Nat
  | .byte v => v
  | .word v => v
  | .dword v => v
  | .qword v => v
  | .float b => F.f32castU b 64
  | .double b => F.f64castU b 64

/-- `Immediate::as_f32` (result is an `f32` bit pattern). -/
def asF32 (F : FloatModel) : Immediate → Nat
  | .byte v => F.intToF32 v
  | .word v => F.intToF32 v
  | .dword v => F.intToF32 v
  | .qword v => F.intToF32 v
  | .float b => b
  | .double b => F.f64toF32 b

/-- `Immediate::as_f64` (result is an `f64` bit pattern). -/
def asF64 (F : FloatModel) : Immediate → Nat
  | .byte v => F.intToF64 v
  | .word v => F.intToF64 v
  | .dword v => F.intToF64 v
  | .qword v => F.intToF64 v
  | .float b => F.f32toF64 b
  | .double b => b

/-- `Immediate::size`. -/
def size : Immediate → DataSize
  | .byte _ => .byte
  | .word _ => .word
  | .dword _ => .dword
  | .qword _ => .qword
  | .float _ => .float
  | .double _ => .double

/-- Variant discriminant, in declaration order (what the derived
`PartialOrd` compares first). -/
def disc : Immediate → Nat
  | .byte _ => 0
  | .word _ => 1
  | .dword _ => 2
  | .qword _ => 3
  | .float _ => 4
  | .double _ => 5

/-- The derived `PartialEq`: equal variants with equal payloads (float
payloads via IEEE `==`). -/
def beqImm (F : FloatModel) : Immediate → Immediate → Bool
  | .byte a, .byte b => a == b
  | .word a, .word b => a == b
  | .dword a, .dword b => a == b
  | .qword a, .qword b => a == b
  | .float a, .float b => F.f32eq a b
  | .double a, .double b => F.f64eq a b
  | _, _ => false

/-- The derived `PartialOrd`'s `<`: discriminants first, then payloads
(float payloads via IEEE `<`, which is false on NaN). -/
def bltImm (F : FloatModel) (x y : Immediate) : Bool :=
  if x.disc < y.disc then true
  else if y.disc < x.disc then false
  else match x, y with
    | .byte a, .byte b => a < b
    | .word a, .word b => a < b
    | .dword a, .dword b => a < b
    | .qword a, .qword b => a < b
    | .float a, .float b => F.f32lt a b
    | .double a, .double b => F.f64lt a b
    | _, _ => false

end Immediate

/-! ## The register file (`src/vm/register.rs`, `struct Registers`) -/

structure Registers where
  gpr : List Nat
  fpr : List Nat
  special : List Nat
deriving DecidableEq, Repr

namespace Registers

/-- `Registers::new`. -/
def new : Registers :=
  ⟨List.replicate 16 0, List.replicate 32 0, List.replicate 3 0⟩

/-- `Registers::get`.  The `unreachable!` arms of the source (views that
`physical_info` never produces for the file in question) are given the
dummy value `.qword 0`. -/
def get (regs : Registers) (r : Register) : Immediate :=
  match r.physicalInfo with
  | (.generalPurpose, i, view) =>
      let v := regs.gpr.getD i 0
      match view with
      | .byte => .byte (v % 2 ^ 8)
      | .word => .word (v % 2 ^ 16)
      | .dword => .dword (v % 2 ^ 32)
      | .qword => .qword v
      | _ => .qword 0
  | (.floatingPoint, i, view) =>
      let bits := regs.fpr.getD i 0
      match view with
      | .float => .float (bits % 2 ^ 32)
      | .double => .double bits
      | _ => .qword 0
  | (.special, i, _) => .qword (regs.special.getD i 0)

/-- `Registers::set`.  The source returns `Result` but every conversion it
uses is infallible, so the model is a total function.  Byte/word views merge
into the old slot through the source's literal masks; the dword view
zero-extends; float/double store `to_bits`. -/
def set (F : FloatModel) (regs : Registers) (r : Register) (imm : Immediate) :
    Registers :=
  match r.physicalInfo with
  | (.generalPurpose, i, view) =>
      match view with
      | .byte =>
          let merged := (regs.gpr.getD i 0 &&& 0xFFFFFFFFFFFFFF00) ||| imm.asU8 F
          { regs with gpr := regs.gpr.set i merged }
      | .word =>
          let merged := (regs.gpr.getD i 0 &&& 0xFFFFFFFFFFFF0000) ||| imm.asU16 F
          { regs with gpr := regs.gpr.set i merged }
      | .dword => { regs with gpr := regs.gpr.set i (imm.asU32 F) }
      | .qword => { regs with gpr := regs.gpr.set i (imm.asU64 F) }
      | _ => regs
  | (.floatingPoint, i, view) =>
      match view with
      | .float => { regs with fpr := regs.fpr.set i (imm.asF32 F) }
      | .double => { regs with fpr := regs.fpr.set i (imm.asF64 F) }
      | _ => regs
  | (.special, i, view) =>
      match view with
      | .qword => { regs with special := regs.special.set i (imm.asUsize F) }
      | _ => regs

/-- `Registers::ip`. -/
def ip (regs : Registers) : Nat := regs.special.getD 0 0

/-- `Registers::set_ip`. -/
def setIp (regs : Registers) (v : Nat) : Registers :=
  { regs with special := regs.special.set 0 v }

/-- `Registers::sp`. -/
def sp (regs : Registers) : Nat := regs.special.getD 1 0

/-- `Registers::set_sp`. -/
def setSp (regs : Registers) (v : Nat) : Registers :=
  { regs with special := regs.special.set 1 v }

/-- `Registers::bp`. -/
def bp (regs : Registers) : Nat := regs.special.getD 2 0

/-- `Registers::set_bp`. -/
def setBp (regs : Registers) (v : Nat) : Registers :=
  { regs with special := regs.special.set 2 v }

end Registers

/-! ## The VM error enumeration (`src/vm/mod.rs`, `enum Error`)

Constructor names and semantic payloads follow the source; diagnostic
`src`/`span` payloads are dropped.  `panic` is not a source constructor: it
marks places where the Rust code would panic (integer division by zero). -/

inductive VMError where
  | invalidOpcode (b : Nat)
  | unhandledOpcode (b : Nat)
  | invalidRegister (b : Nat)
  | invalidDataSize (b : Nat)
  | unknownAddressingVariant (b : Nat)
  | instructionPointerOutOfBounds (addr : Nat)
  | stackOverflow
  | stackUnderflow
  | unknownSyscall (idx : Nat)
  | ioError
  | programTooSmall (len : Nat)
  | invalidEntryPoint (entryPoint : Nat) (programSize : Nat)
  | programTooLarge (programSize : Nat) (memorySize : Nat)
  | unimplemented
  | panic (msg : String)
deriving DecidableEq, Repr

/-! ## Memory (`src/vm/memory.rs`) -/

/-- `k` bytes of `l` starting at `addr` (an in-bounds Rust slice
`l[addr..addr+k]`). -/
def sliceBytes (l : List Nat) (addr k : Nat) : List Nat :=
  (l.drop addr).take k

/-- Overwrite `l[addr .. addr + bs.length]` with `bs`
(`copy_from_slice`; callers establish `addr + bs.length ≤ l.length`). -/
def writeBytesAt (l : List Nat) (addr : Nat) (bs : List Nat) : List Nat :=
  l.take addr ++ bs ++ l.drop (addr + bs.length)

structure Memory where
  storage : List Nat
deriving DecidableEq, Repr

namespace Memory

/-- `Memory::new`. -/
def new (size : Nat) : Memory := ⟨List.replicate size 0⟩

/-- `Memory::len`. -/
def len (mem : Memory) : Nat := mem.storage.length

/-- `Memory::read`: bounds-checked little-endian load; float sizes load the
bit pattern (`from_le_bytes`).  The source's `addr + k` is `usize`
arithmetic: in a release build it wraps, so for `addr ≥ 2^64 - k` the
wrapped end offset can pass the `> len` check and the subsequent slice
indexing panics (start past end); in a debug build the addition itself
panics.  The wrap is modelled by `% 2 ^ 64` in the guard and the crash by
the `panic` error. -/
def read (mem : Memory) (addr : Nat) (size : DataSize) :
    Except VMError Immediate :=
  match size with
  | .byte =>
      if (addr + 1) % 2 ^ 64 > mem.storage.length then
        .error (.instructionPointerOutOfBounds addr)
      else if addr + 1 ≤ mem.storage.length then .ok (.byte (mem.storage.getD addr 0))
      else .error (.panic "slice index out of range")
  | .word =>
      if (addr + 2) % 2 ^ 64 > mem.storage.length then
        .error (.instructionPointerOutOfBounds addr)
      else if addr + 2 ≤ mem.storage.length then .ok (.word (fromLeBytes (sliceBytes mem.storage addr 2)))
      else .error (.panic "slice index out of range")
  | .dword =>
      if (addr + 4) % 2 ^ 64 > mem.storage.length then
        .error (.instructionPointerOutOfBounds addr)
      else if addr + 4 ≤ mem.storage.length then .ok (.dword (fromLeBytes (sliceBytes mem.storage addr 4)))
      else .error (.panic "slice index out of range")
  | .qword =>
      if (addr + 8) % 2 ^ 64 > mem.storage.length then
        .error (.instructionPointerOutOfBounds addr)
      else if addr + 8 ≤ mem.storage.length then .ok (.qword (fromLeBytes (sliceBytes mem.storage addr 8)))
      else .error (.panic "slice index out of range")
  | .float =>
      if (addr + 4) % 2 ^ 64 > mem.storage.length then
        .error (.instructionPointerOutOfBounds addr)
      else if addr + 4 ≤ mem.storage.length then .ok (.float (fromLeBytes (sliceBytes mem.storage addr 4)))
      else .error (.panic "slice index out of range")
  | .double =>
      if (addr + 8) % 2 ^ 64 > mem.storage.length then
        .error (.instructionPointerOutOfBounds addr)
      else if addr + 8 ≤ mem.storage.length then .ok (.double (fromLeBytes (sliceBytes mem.storage addr 8)))
      else .error (.panic "slice index out of range")

/-- `Memory::write`: bounds-checked little-endian store of the converted
value, with the same wrapping-`usize` guard (and slice-indexing panic on
wrap-around) as `Memory.read`. -/
def write (F : FloatModel) (mem : Memory) (addr : Nat) (value : Immediate)
    (size : DataSize) : Except VMError Memory :=
  match size with
  | .byte =>
      if (addr + 1) % 2 ^ 64 > mem.storage.length then
        .error (.instructionPointerOutOfBounds addr)
      else if addr + 1 ≤ mem.storage.length then .ok ⟨mem.storage.set addr (value.asU8 F)⟩
      else .error (.panic "slice index out of range")
  | .word =>
      if (addr + 2) % 2 ^ 64 > mem.storage.length then
        .error (.instructionPointerOutOfBounds addr)
      else if addr + 2 ≤ mem.storage.length then .ok ⟨writeBytesAt mem.storage addr (leBytes 2 (value.asU16 F))⟩
      else .error (.panic "slice index out of range")
  | .dword =>
      if (addr + 4) % 2 ^ 64 > mem.storage.length then
        .error (.instructionPointerOutOfBounds addr)
      else if addr + 4 ≤ mem.storage.length then .ok ⟨writeBytesAt mem.storage addr (leBytes 4 (value.asU32 F))⟩
      else .error (.panic "slice index out of range")
  | .qword =>
      if (addr + 8) % 2 ^ 64 > mem.storage.length then
        .error (.instructionPointerOutOfBounds addr)
      else if addr + 8 ≤ mem.storage.length then .ok ⟨writeBytesAt mem.storage addr (leBytes 8 (value.asU64 F))⟩
      else .error (.panic "slice index out of range")
  | .float =>
      if (addr + 4) % 2 ^ 64 > mem.storage.length then
        .error (.instructionPointerOutOfBounds addr)
      else if addr + 4 ≤ mem.storage.length then .ok ⟨writeBytesAt mem.storage addr (leBytes 4 (value.asF32 F))⟩
      else .error (.panic "slice index out of range")
  | .double =>
      if (addr + 8) % 2 ^ 64 > mem.storage.length then
        .error (.instructionPointerOutOfBounds addr)
      else if addr + 8 ≤ mem.storage.length then .ok ⟨writeBytesAt mem.storage addr (leBytes 8 (value.asF64 F))⟩
      else .error (.panic "slice index out of range")

end Memory

/-! ## Flags (`src/vm/flags.rs`) -/

structure Flags where
  eq : Bool
  lt : Bool
deriving DecidableEq, Repr

/-- `Flags::new`. -/
def Flags.new : Flags := ⟨false, false⟩

/-! ## Opcodes -/

/-- Modelled from the spec: `src/compiler/opcode.rs` is missing from the
provided sources (the `compiler` module declares `pub mod opcode;` but the
file is absent; only the uses in `src/compiler/mod.rs` and `src/vm/mod.rs`
survive).  The spec (§4.2, §6.1) fixes only that the opcode set is a closed
enumeration encoded as a single byte, re-decoded by the VM exactly as the
compiler emits it.  The constructors below are every opcode the surviving
code names; byte values are taken to be the declaration ordinals (the Rust
`as u8` of a plain enum).  Every theorem below depends only on
`ofByte? (toByte op) = some op`, never on a particular byte value. -/
inductive Opcode where
  | Nop | MovRegReg | MovRegImm | Ldr | Str
  | PushReg | PushImm | PushAddr | PopReg | PopAddr
  | AddRegRegReg | AddRegRegImm | SubRegRegReg | SubRegRegImm | MulRegRegReg
  | MulRegRegImm | DivRegRegReg | DivRegRegImm | AndRegRegReg | AndRegRegImm
  | OrRegRegReg | OrRegRegImm | XorRegRegReg | XorRegRegImm | ShlRegRegReg
  | ShlRegRegImm | ShrRegRegReg | ShrRegRegImm | CmpRegImm | CmpRegReg
  | JmpImm | JmpReg | JeqImm | JeqReg | JneImm
  | JneReg | JltImm | JltReg | JgtImm | JgtReg
  | JleImm | JleReg | JgeImm | JgeReg | CallImm
  | CallReg | Inc | Dec | Ret | Syscall
  | Hlt
deriving DecidableEq, Repr

namespace Opcode

/-- Modelled from the spec: the one-byte encoding (declaration ordinal). -/
def toByte : Opcode → Nat
  | .Nop => 0
  | .MovRegReg => 1
  | .MovRegImm => 2
  | .Ldr => 3
  | .Str => 4
  | .PushReg => 5
  | .PushImm => 6
  | .PushAddr => 7
  | .PopReg => 8
  | .PopAddr => 9
  | .AddRegRegReg => 10
  | .AddRegRegImm => 11
  | .SubRegRegReg => 12
  | .SubRegRegImm => 13
  | .MulRegRegReg => 14
  | .MulRegRegImm => 15
  | .DivRegRegReg => 16
  | .DivRegRegImm => 17
  | .AndRegRegReg => 18
  | .AndRegRegImm => 19
  | .OrRegRegReg => 20
  | .OrRegRegImm => 21
  | .XorRegRegReg => 22
  | .XorRegRegImm => 23
  | .ShlRegRegReg => 24
  | .ShlRegRegImm => 25
  | .ShrRegRegReg => 26
  | .ShrRegRegImm => 27
  | .CmpRegImm => 28
  | .CmpRegReg => 29
  | .JmpImm => 30
  | .JmpReg => 31
  | .JeqImm => 32
  | .JeqReg => 33
  | .JneImm => 34
  | .JneReg => 35
  | .JltImm => 36
  | .JltReg => 37
  | .JgtImm => 38
  | .JgtReg => 39
  | .JleImm => 40
  | .JleReg => 41
  | .JgeImm => 42
  | .JgeReg => 43
  | .CallImm => 44
  | .CallReg => 45
  | .Inc => 46
  | .Dec => 47
  | .Ret => 48
  | .Syscall => 49
  | .Hlt => 50

/-- Modelled from the spec: `Opcode::try_from(u8)`, the decoder inverse to
`toByte`. -/
def ofByte? : Nat → Option Opcode
  | 0 => some .Nop
  | 1 => some .MovRegReg
  | 2 => some .MovRegImm
  | 3 => some .Ldr
  | 4 => some .Str
  | 5 => some .PushReg
  | 6 => some .PushImm
  | 7 => some .PushAddr
  | 8 => some .PopReg
  | 9 => some .PopAddr
  | 10 => some .AddRegRegReg
  | 11 => some .AddRegRegImm
  | 12 => some .SubRegRegReg
  | 13 => some .SubRegRegImm
  | 14 => some .MulRegRegReg
  | 15 => some .MulRegRegImm
  | 16 => some .DivRegRegReg
  | 17 => some .DivRegRegImm
  | 18 => some .AndRegRegReg
  | 19 => some .AndRegRegImm
  | 20 => some .OrRegRegReg
  | 21 => some .OrRegRegImm
  | 22 => some .XorRegRegReg
  | 23 => some .XorRegRegImm
  | 24 => some .ShlRegRegReg
  | 25 => some .ShlRegRegImm
  | 26 => some .ShrRegRegReg
  | 27 => some .ShrRegRegImm
  | 28 => some .CmpRegImm
  | 29 => some .CmpRegReg
  | 30 => some .JmpImm
  | 31 => some .JmpReg
  | 32 => some .JeqImm
  | 33 => some .JeqReg
  | 34 => some .JneImm
  | 35 => some .JneReg
  | 36 => some .JltImm
  | 37 => some .JltReg
  | 38 => some .JgtImm
  | 39 => some .JgtReg
  | 40 => some .JleImm
  | 41 => some .JleReg
  | 42 => some .JgeImm
  | 43 => some .JgeReg
  | 44 => some .CallImm
  | 45 => some .CallReg
  | 46 => some .Inc
  | 47 => some .Dec
  | 48 => some .Ret
  | 49 => some .Syscall
  | 50 => some .Hlt
  | _ => none

end Opcode

/-! ## The virtual machine (`src/vm/mod.rs`) -/

structure VM where
  regs : Registers
  mem : Memory
  flags : Flags
  halted : Bool
deriving DecidableEq, Repr

namespace VM

/-- `VM::new`, the loader: 8-byte little-endian entry point header, bounds
checks in source order, then zeroed memory with the code copied to its
front, `SP = mem_size`, `BP = 0`, `IP = entry_point`, flags cleared.  (The
source also installs the host syscall table; host syscalls are passed to
`step` as a parameter instead.) -/
def new (program : List Nat) (memSize : Nat) : Except VMError VM :=
  if program.length < 8 then .error (.programTooSmall program.length)
  else
    let entryPoint := fromLeBytes (program.take 8)
    let programData := program.drop 8
    if entryPoint ≥ programData.length then
      .error (.invalidEntryPoint entryPoint programData.length)
    else if programData.length > memSize then
      .error (.programTooLarge programData.length memSize)
    else
      let regs := ((Registers.new.setSp memSize).setBp 0).setIp entryPoint
      let mem : Memory := ⟨programData ++ List.replicate (memSize - programData.length) 0⟩
      .ok { regs := regs, mem := mem, flags := Flags.new, halted := false }

/-- `VM::read_byte`: fetch one byte at `IP`, advance `IP`. -/
def readByte (vm : VM) : Except VMError (Nat × VM) :=
  let ip := vm.regs.ip
  if ip ≥ vm.mem.storage.length then .error (.instructionPointerOutOfBounds ip)
  else .ok (vm.mem.storage.getD ip 0, { vm with regs := vm.regs.setIp (ip + 1) })

/-- The shared shape of `VM::read_word` / `read_dword` / `read_qword` (and,
bit-pattern-wise, `read_float` / `read_double`): `k` bytes little-endian at
`IP`, advancing `IP` by `k`, `InstructionPointerOutOfBounds` when
`IP + k` would pass the end of memory. -/
def readChunk (k : Nat) (vm : VM) : Except VMError (Nat × VM) :=
  let ip := vm.regs.ip
  if ip + k > vm.mem.storage.length then
    .error (.instructionPointerOutOfBounds ip)
  else
    .ok (fromLeBytes (sliceBytes vm.mem.storage ip k),
      { vm with regs := vm.regs.setIp (ip + k) })

/-- `VM::read_register`. -/
def readRegister (vm : VM) : Except VMError (Register × VM) := do
  let (b, vm) ← vm.readByte
  match Register.ofByte? b with
  | some r => .ok (r, vm)
  | none => .error (.invalidRegister b)

/-- `VM::read_data_size`. -/
def readDataSize (vm : VM) : Except VMError (DataSize × VM) := do
  let (b, vm) ← vm.readByte
  match DataSize.ofByte? b with
  | some s => .ok (s, vm)
  | none => .error (.invalidDataSize b)

/-- The `match DataSize::from(dest) { .. read_byte / read_word / .. }`
immediate-operand fetch the source repeats in `MovRegImm`, `PushImm`,
`CmpRegImm` and the `*_imm` macros. -/
def readImm (vm : VM) (size : DataSize) : Except VMError (Immediate × VM) :=
  match size with
  | .byte => do let (v, vm) ← vm.readByte; .ok (.byte v, vm)
  | .word => do let (v, vm) ← vm.readChunk 2; .ok (.word v, vm)
  | .dword => do let (v, vm) ← vm.readChunk 4; .ok (.dword v, vm)
  | .qword => do let (v, vm) ← vm.readChunk 8; .ok (.qword v, vm)
  | .float => do let (v, vm) ← vm.readChunk 4; .ok (.float v, vm)
  | .double => do let (v, vm) ← vm.readChunk 8; .ok (.double v, vm)

/-- The memory-operand decode the source repeats in `Ldr`, `Str`,
`PushAddr`, `PopAddr`: a 1-byte addressing variant, a register or literal
base, an 8-byte offset; the effective address is `(base + offset) as usize`
(wrapping 64-bit addition). -/
def readAddrOperand (F : FloatModel) (vm : VM) : Except VMError (Nat × VM) := do
  let (variant, vm) ← vm.readByte
  if variant = 0 then do
    let (src, vm) ← vm.readRegister
    let base := (vm.regs.get src).asU64 F
    let (offset, vm) ← vm.readChunk 8
    .ok ((base + offset) % 2 ^ 64, vm)
  else if variant = 1 then do
    let (base, vm) ← vm.readChunk 8
    let (offset, vm) ← vm.readChunk 8
    .ok ((base + offset) % 2 ^ 64, vm)
  else .error (.unknownAddressingVariant variant)

/-- `VM::push`: requires `SP ≥ width` (else `StackOverflow`), decrements
`SP` by the operand width, writes at the new `SP`. -/
def push (F : FloatModel) (vm : VM) (value : Immediate) : Except VMError VM :=
  let sizeBytes := value.size.sizeInBytes
  let currentSp := vm.regs.sp
  if currentSp < sizeBytes then .error .stackOverflow
  else
    let newSp := currentSp - sizeBytes
    let vm := { vm with regs := vm.regs.setSp newSp }
    (Memory.write F vm.mem newSp value value.size).map fun m => { vm with mem := m }

/-- `VM::pop`: requires `SP + width ≤ memory.len()` (else `StackUnderflow`),
reads at `SP`, advances `SP` by the width. -/
def pop (vm : VM) (size : DataSize) :
    Except VMError (Immediate × VM) :=
  let currentSp := vm.regs.sp
  if currentSp + size.sizeInBytes > vm.mem.storage.length then
    .error .stackUnderflow
  else do
    let value ← vm.mem.read currentSp size
    .ok (value, { vm with regs := vm.regs.setSp (currentSp + size.sizeInBytes) })

/-- The `PushReg` operand conversion: re-read the register value at the
pushed size (`Immediate::Byte(self.regs.get(src).as_u8()?)`, ..). -/
def immAtSize (F : FloatModel) (size : DataSize) (val : Immediate) : Immediate :=
  match size with
  | .byte => .byte (val.asU8 F)
  | .word => .word (val.asU16 F)
  | .dword => .dword (val.asU32 F)
  | .qword => .qword (val.asU64 F)
  | .float => .float (val.asF32 F)
  | .double => .double (val.asF64 F)

end VM

/-! ### Integer arithmetic kernels of the `binary_arithmetic_op!` macros

`wrapping_add` / `wrapping_sub` / `wrapping_mul` on the `w`-bit unsigned
type; `wrapping_div` is plain unsigned division and panics on a zero
divisor. -/

def wAdd (w a b : Nat) : Except VMError Nat := .ok ((a + b) % 2 ^ w)

def wSub (w a b : Nat) : Except VMError Nat :=
  .ok ((((a : Int) - (b : Int)) % ((2 : Int) ^ w)).toNat)

def wMul (w a b : Nat) : Except VMError Nat := .ok (a * b % 2 ^ w)

def wDiv (_w a b : Nat) : Except VMError Nat :=
  if b = 0 then .error (.panic "attempt to divide by zero") else .ok (a / b)

/-- Shift kernels of the `shift_op!` macros: the amount is pre-masked by the
caller; `<<` then truncates to the width, `>>` is logical. -/
def wShl (w a k : Nat) : Nat := a * 2 ^ k % 2 ^ w

def wShr (_w a k : Nat) : Nat := a / 2 ^ k

namespace VM

/-- `binary_arithmetic_op!` (`src/vm/macros.rs`): three registers; the
width is the destination's. -/
def binArithReg (F : FloatModel) (iop : Nat → Nat → Nat → Except VMError Nat)
    (fop32 fop64 : Nat → Nat → Nat) (vm : VM) : Except VMError VM := do
  let (dest, vm) ← vm.readRegister
  let (lhs, vm) ← vm.readRegister
  let (rhs, vm) ← vm.readRegister
  let lhsVal := vm.regs.get lhs
  let rhsVal := vm.regs.get rhs
  let result ← match DataSize.ofRegister dest with
    | .byte => (iop 8 (lhsVal.asU8 F) (rhsVal.asU8 F)).map .byte
    | .word => (iop 16 (lhsVal.asU16 F) (rhsVal.asU16 F)).map .word
    | .dword => (iop 32 (lhsVal.asU32 F) (rhsVal.asU32 F)).map .dword
    | .qword => (iop 64 (lhsVal.asU64 F) (rhsVal.asU64 F)).map .qword
    | .float => .ok (.float (fop32 (lhsVal.asF32 F) (rhsVal.asF32 F)))
    | .double => .ok (.double (fop64 (lhsVal.asF64 F) (rhsVal.asF64 F)))
  .ok { vm with regs := vm.regs.set F dest result }

/-- `binary_arithmetic_op_imm!`: two registers and an immediate of the
destination's size. -/
def binArithImm (F : FloatModel) (iop : Nat → Nat → Nat → Except VMError Nat)
    (fop32 fop64 : Nat → Nat → Nat) (vm : VM) : Except VMError VM := do
  let (dest, vm) ← vm.readRegister
  let (lhs, vm) ← vm.readRegister
  let lhsVal := vm.regs.get lhs
  let (rhsVal, vm) ← vm.readImm (DataSize.ofRegister dest)
  let result ← match DataSize.ofRegister dest with
    | .byte => (iop 8 (lhsVal.asU8 F) (rhsVal.asU8 F)).map .byte
    | .word => (iop 16 (lhsVal.asU16 F) (rhsVal.asU16 F)).map .word
    | .dword => (iop 32 (lhsVal.asU32 F) (rhsVal.asU32 F)).map .dword
    | .qword => (iop 64 (lhsVal.asU64 F) (rhsVal.asU64 F)).map .qword
    | .float => .ok (.float (fop32 (lhsVal.asF32 F) (rhsVal.asF32 F)))
    | .double => .ok (.double (fop64 (lhsVal.asF64 F) (rhsVal.asF64 F)))
  .ok { vm with regs := vm.regs.set F dest result }

/-- `binary_bitwise_op!`: integer widths only; float/double destinations
raise `InvalidDataSize(size as u8)`. -/
def binBitwiseReg (F : FloatModel) (op : Nat → Nat → Nat) (vm : VM) :
    Except VMError VM := do
  let (dest, vm) ← vm.readRegister
  let (lhs, vm) ← vm.readRegister
  let (rhs, vm) ← vm.readRegister
  let lhsVal := vm.regs.get lhs
  let rhsVal := vm.regs.get rhs
  let result ← match DataSize.ofRegister dest with
    | .byte => .ok (Immediate.byte (op (lhsVal.asU8 F) (rhsVal.asU8 F)))
    | .word => .ok (Immediate.word (op (lhsVal.asU16 F) (rhsVal.asU16 F)))
    | .dword => .ok (Immediate.dword (op (lhsVal.asU32 F) (rhsVal.asU32 F)))
    | .qword => .ok (Immediate.qword (op (lhsVal.asU64 F) (rhsVal.asU64 F)))
    | s => .error (.invalidDataSize s.toByte)
  .ok { vm with regs := vm.regs.set F dest result }

/-- `binary_bitwise_op_imm!`: the immediate fetch itself already rejects
float/double destinations. -/
def binBitwiseImm (F : FloatModel) (op : Nat → Nat → Nat) (vm : VM) :
    Except VMError VM := do
  let (dest, vm) ← vm.readRegister
  let (lhs, vm) ← vm.readRegister
  let lhsVal := vm.regs.get lhs
  let (rhsVal, vm) ← match DataSize.ofRegister dest with
    | .byte => do let (v, vm) ← vm.readByte; pure (Immediate.byte v, vm)
    | .word => do let (v, vm) ← vm.readChunk 2; pure (Immediate.word v, vm)
    | .dword => do let (v, vm) ← vm.readChunk 4; pure (Immediate.dword v, vm)
    | .qword => do let (v, vm) ← vm.readChunk 8; pure (Immediate.qword v, vm)
    | s => .error (.invalidDataSize s.toByte)
  let result ← match DataSize.ofRegister dest with
    | .byte => .ok (Immediate.byte (op (lhsVal.asU8 F) (rhsVal.asU8 F)))
    | .word => .ok (Immediate.word (op (lhsVal.asU16 F) (rhsVal.asU16 F)))
    | .dword => .ok (Immediate.dword (op (lhsVal.asU32 F) (rhsVal.asU32 F)))
    | .qword => .ok (Immediate.qword (op (lhsVal.asU64 F) (rhsVal.asU64 F)))
    | s => .error (.invalidDataSize s.toByte)
  .ok { vm with regs := vm.regs.set F dest result }

/-- `shift_op!`: the shift amount is masked to the low `log2(width)` bits. -/
def shiftReg (F : FloatModel) (sop : Nat → Nat → Nat → Nat) (vm : VM) :
    Except VMError VM := do
  let (dest, vm) ← vm.readRegister
  let (lhs, vm) ← vm.readRegister
  let (rhs, vm) ← vm.readRegister
  let lhsVal := vm.regs.get lhs
  let rhsVal := vm.regs.get rhs
  let result ← match DataSize.ofRegister dest with
    | .byte => .ok (Immediate.byte (sop 8 (lhsVal.asU8 F) (rhsVal.asU8 F &&& 7)))
    | .word => .ok (Immediate.word (sop 16 (lhsVal.asU16 F) (rhsVal.asU16 F &&& 15)))
    | .dword => .ok (Immediate.dword (sop 32 (lhsVal.asU32 F) (rhsVal.asU32 F &&& 31)))
    | .qword => .ok (Immediate.qword (sop 64 (lhsVal.asU64 F) (rhsVal.asU64 F &&& 63)))
    | s => .error (.invalidDataSize s.toByte)
  .ok { vm with regs := vm.regs.set F dest result }

/-- `shift_op_imm!`. -/
def shiftImm (F : FloatModel) (sop : Nat → Nat → Nat → Nat) (vm : VM) :
    Except VMError VM := do
  let (dest, vm) ← vm.readRegister
  let (lhs, vm) ← vm.readRegister
  let lhsVal := vm.regs.get lhs
  let (rhsVal, vm) ← match DataSize.ofRegister dest with
    | .byte => do let (v, vm) ← vm.readByte; pure (Immediate.byte v, vm)
    | .word => do let (v, vm) ← vm.readChunk 2; pure (Immediate.word v, vm)
    | .dword => do let (v, vm) ← vm.readChunk 4; pure (Immediate.dword v, vm)
    | .qword => do let (v, vm) ← vm.readChunk 8; pure (Immediate.qword v, vm)
    | s => .error (.invalidDataSize s.toByte)
  let result ← match DataSize.ofRegister dest with
    | .byte => .ok (Immediate.byte (sop 8 (lhsVal.asU8 F) (rhsVal.asU8 F &&& 7)))
    | .word => .ok (Immediate.word (sop 16 (lhsVal.asU16 F) (rhsVal.asU16 F &&& 15)))
    | .dword => .ok (Immediate.dword (sop 32 (lhsVal.asU32 F) (rhsVal.asU32 F &&& 31)))
    | .qword => .ok (Immediate.qword (sop 64 (lhsVal.asU64 F) (rhsVal.asU64 F &&& 63)))
    | s => .error (.invalidDataSize s.toByte)
  .ok { vm with regs := vm.regs.set F dest result }

end VM

namespace VM

/-- `VM::step` (`src/vm/mod.rs`): fetch the opcode byte at `IP`, decode,
dispatch.  The host syscall table (`collect_syscalls`) is a parameter
`sys`; everything else follows the source arm by arm, with the
`binary_*`/`shift_*` macros expanded through the helpers above. -/
def step (F : FloatModel) (sys : Nat → Option (VM → Except VMError VM))
    (vm : VM) : Except VMError VM :=
  if vm.halted then .ok vm
  else do
    let (b, vm) ← vm.readByte
    match Opcode.ofByte? b with
    | none => .error (.invalidOpcode b)
    | some opcode =>
      match opcode with
      | .Nop => .ok vm
      | .MovRegReg => do
          let (dest, vm) ← vm.readRegister
          let (src, vm) ← vm.readRegister
          .ok { vm with regs := vm.regs.set F dest (vm.regs.get src) }
      | .MovRegImm => do
          let (dest, vm) ← vm.readRegister
          let (src, vm) ← vm.readImm (DataSize.ofRegister dest)
          .ok { vm with regs := vm.regs.set F dest src }
      | .Ldr => do
          let (dest, vm) ← vm.readRegister
          let (addr, vm) ← vm.readAddrOperand F
          let imm ← vm.mem.read addr (DataSize.ofRegister dest)
          .ok { vm with regs := vm.regs.set F dest imm }
      | .Str => do
          let (src, vm) ← vm.readRegister
          let value := vm.regs.get src
          let (addr, vm) ← vm.readAddrOperand F
          (Memory.write F vm.mem addr value (DataSize.ofRegister src)).map
            fun m => { vm with mem := m }
      | .PushReg => do
          let (size, vm) ← vm.readDataSize
          let (src, vm) ← vm.readRegister
          vm.push F (immAtSize F size (vm.regs.get src))
      | .PushImm => do
          let (size, vm) ← vm.readDataSize
          let (imm, vm) ← vm.readImm size
          vm.push F imm
      | .PushAddr => do
          let (size, vm) ← vm.readDataSize
          let (addr, vm) ← vm.readAddrOperand F
          let value ← vm.mem.read addr size
          vm.push F value
      | .PopReg => do
          let (size, vm) ← vm.readDataSize
          let (dest, vm) ← vm.readRegister
          let (value, vm) ← vm.pop size
          .ok { vm with regs := vm.regs.set F dest value }
      | .PopAddr => do
          let (size, vm) ← vm.readDataSize
          let (addr, vm) ← vm.readAddrOperand F
          let (value, vm) ← vm.pop size
          (Memory.write F vm.mem addr value size).map fun m => { vm with mem := m }
      | .AddRegRegReg => vm.binArithReg F wAdd F.f32add F.f64add
      | .AddRegRegImm => vm.binArithImm F wAdd F.f32add F.f64add
      | .SubRegRegReg => vm.binArithReg F wSub F.f32sub F.f64sub
      | .SubRegRegImm => vm.binArithImm F wSub F.f32sub F.f64sub
      | .MulRegRegReg => vm.binArithReg F wMul F.f32mul F.f64mul
      | .MulRegRegImm => vm.binArithImm F wMul F.f32mul F.f64mul
      | .DivRegRegReg => vm.binArithReg F wDiv F.f32div F.f64div
      | .DivRegRegImm => vm.binArithImm F wDiv F.f32div F.f64div
      | .AndRegRegReg => vm.binBitwiseReg F Nat.land
      | .AndRegRegImm => vm.binBitwiseImm F Nat.land
      | .OrRegRegReg => vm.binBitwiseReg F Nat.lor
      | .OrRegRegImm => vm.binBitwiseImm F Nat.lor
      | .XorRegRegReg => vm.binBitwiseReg F Nat.xor
      | .XorRegRegImm => vm.binBitwiseImm F Nat.xor
      | .ShlRegRegReg => vm.shiftReg F wShl
      | .ShlRegRegImm => vm.shiftImm F wShl
      | .ShrRegRegReg => vm.shiftReg F wShr
      | .ShrRegRegImm => vm.shiftImm F wShr
      | .CmpRegImm => do
          let (reg, vm) ← vm.readRegister
          let lhs := vm.regs.get reg
          let (rhs, vm) ← vm.readImm (DataSize.ofRegister reg)
          .ok { vm with flags := ⟨Immediate.beqImm F lhs rhs, Immediate.bltImm F lhs rhs⟩ }
      | .CmpRegReg => do
          let (reg, vm) ← vm.readRegister
          let lhs := vm.regs.get reg
          let (reg2, vm) ← vm.readRegister
          let rhs := vm.regs.get reg2
          .ok { vm with flags := ⟨Immediate.beqImm F lhs rhs, Immediate.bltImm F lhs rhs⟩ }
      | .JmpImm => do
          let (addr, vm) ← vm.readChunk 8
          .ok { vm with regs := vm.regs.setIp addr }
      | .JmpReg => do
          let (reg, vm) ← vm.readRegister
          let addr := (vm.regs.get reg).asUsize F
          .ok { vm with regs := vm.regs.setIp addr }
      | .JeqImm => do
          let (addr, vm) ← vm.readChunk 8
          if vm.flags.eq then .ok { vm with regs := vm.regs.setIp addr } else .ok vm
      | .JeqReg => do
          let (reg, vm) ← vm.readRegister
          let addr := (vm.regs.get reg).asUsize F
          if vm.flags.eq then .ok { vm with regs := vm.regs.setIp addr } else .ok vm
      | .JneImm => do
          let (addr, vm) ← vm.readChunk 8
          if !vm.flags.eq then .ok { vm with regs := vm.regs.setIp addr } else .ok vm
      | .JneReg => do
          let (reg, vm) ← vm.readRegister
          let addr := (vm.regs.get reg).asUsize F
          if !vm.flags.eq then .ok { vm with regs := vm.regs.setIp addr } else .ok vm
      | .JltImm => do
          let (addr, vm) ← vm.readChunk 8
          if vm.flags.lt then .ok { vm with regs := vm.regs.setIp addr } else .ok vm
      | .JltReg => do
          let (reg, vm) ← vm.readRegister
          let addr := (vm.regs.get reg).asUsize F
          if vm.flags.lt then .ok { vm with regs := vm.regs.setIp addr } else .ok vm
      | .JgtImm => do
          let (addr, vm) ← vm.readChunk 8
          if !vm.flags.lt then .ok { vm with regs := vm.regs.setIp addr } else .ok vm
      | .JgtReg => do
          let (reg, vm) ← vm.readRegister
          let addr := (vm.regs.get reg).asUsize F
          if !vm.flags.lt then .ok { vm with regs := vm.regs.setIp addr } else .ok vm
      | .JleImm => do
          let (addr, vm) ← vm.readChunk 8
          if vm.flags.lt || vm.flags.eq then
            .ok { vm with regs := vm.regs.setIp addr }
          else .ok vm
      | .JleReg => do
          let (reg, vm) ← vm.readRegister
          let addr := (vm.regs.get reg).asUsize F
          if vm.flags.lt || vm.flags.eq then
            .ok { vm with regs := vm.regs.setIp addr }
          else .ok vm
      | .JgeImm => do
          let (addr, vm) ← vm.readChunk 8
          if !vm.flags.lt || vm.flags.eq then
            .ok { vm with regs := vm.regs.setIp addr }
          else .ok vm
      | .JgeReg => do
          let (reg, vm) ← vm.readRegister
          let addr := (vm.regs.get reg).asUsize F
          if !vm.flags.lt || vm.flags.eq then
            .ok { vm with regs := vm.regs.setIp addr }
          else .ok vm
      | .CallImm => do
          let (addr, vm) ← vm.readChunk 8
          let vm ← vm.push F (.qword vm.regs.ip)
          .ok { vm with regs := vm.regs.setIp addr }
      | .CallReg => do
          let (reg, vm) ← vm.readRegister
          let addr := (vm.regs.get reg).asUsize F
          let vm ← vm.push F (.qword vm.regs.ip)
          .ok { vm with regs := vm.regs.setIp addr }
      | .Inc => do
          let (reg, vm) ← vm.readRegister
          let newValue : Immediate :=
            match vm.regs.get reg with
            | .byte v => .byte ((v + 1) % 2 ^ 8)
            | .word v => .word ((v + 1) % 2 ^ 16)
            | .dword v => .dword ((v + 1) % 2 ^ 32)
            | .qword v => .qword ((v + 1) % 2 ^ 64)
            | .float bits => .float (F.f32add bits 0x3F800000)
            | .double bits => .double (F.f64add bits 0x3FF0000000000000)
          .ok { vm with regs := vm.regs.set F reg newValue }
      | .Dec => do
          let (reg, vm) ← vm.readRegister
          let newValue : Immediate :=
            match vm.regs.get reg with
            | .byte v => .byte ((v + (2 ^ 8 - 1)) % 2 ^ 8)
            | .word v => .word ((v + (2 ^ 16 - 1)) % 2 ^ 16)
            | .dword v => .dword ((v + (2 ^ 32 - 1)) % 2 ^ 32)
            | .qword v => .qword ((v + (2 ^ 64 - 1)) % 2 ^ 64)
            | .float bits => .float (F.f32sub bits 0x3F800000)
            | .double bits => .double (F.f64sub bits 0x3FF0000000000000)
          .ok { vm with regs := vm.regs.set F reg newValue }
      | .Ret => do
          let (value, vm) ← vm.pop .qword
          .ok { vm with regs := vm.regs.setIp (value.asUsize F) }
      | .Syscall => do
          let index := (vm.regs.get .Q15).asUsize F
          match sys index with
          | some f => f vm
          | none => .error (.unknownSyscall index)
      | .Hlt => .ok { vm with halted := true }

/-- `VM::run`, fuelled: `step` until `halted`.  Exhausted fuel returns the
state reached; theorems about `run` always conclude `halted = true`, which
fuel exhaustion cannot fabricate. -/
def run (F : FloatModel) (sys : Nat → Option (VM → Except VMError VM)) :
    Nat → VM → Except VMError VM
  | 0, vm => .ok vm
  | fuel + 1, vm =>
      if vm.halted then .ok vm
      else do
        let vm' ← vm.step F sys
        run F sys fuel vm'

end VM

/-! ## The AST (`src/span.rs`, `src/parser/ast.rs`)

Spans are carried exactly as in the source (they matter only for
diagnostics); `FloatLiteral` payloads are `f64` bit patterns, integer
literals are `i64` values. -/

structure Span where
  start : Nat
  stop : Nat
deriving DecidableEq, Repr

inductive BinaryOperator where
  | add | sub | mul | div | bitOr | bitAnd | bitXor
deriving DecidableEq, Repr

inductive SectionType where
  | text | data
deriving DecidableEq, Repr

inductive Expression where
  | identifier (name : String)
  | register (reg : Register)
  | integerLiteral (val : Int)
  | floatLiteral (bits : Nat)
  | stringLiteral (val : String)
  | dataSize (size : DataSize)
  | address (base : Expression) (offset : Option Expression)
  | binaryOp (lhs : Expression) (op : BinaryOperator) (rhs : Expression) (span : Span)
deriving Repr

/-- `Statement` from `src/parser/ast.rs`.  The Lean keywords `else`,
`section` and the name `Error` force the suffixed constructor names. -/
inductive Statement where
  | label (name : String) (span : Span)
  | errorDirective (expr : Expression) (span : Span)
  | define (key : Expression) (value : Expression) (span : Span)
  | include (path : Expression) (span : Span)
  | ifDef (expr : Expression) (span : Span)
  | ifNDef (expr : Expression) (span : Span)
  | elseDirective (span : Span)
  | endIf (span : Span)
  | sectionDirective (sectionType : SectionType) (span : Span)
  | entry (expr : Expression) (span : Span)
  | ascii (expr : Expression) (span : Span)
  | asciz (expr : Expression) (span : Span)
  | nop (span : Span)
  | mov (dest : Expression) (src : Expression) (span : Span)
  | ldr (dest : Expression) (src : Expression) (span : Span)
  | str (dest : Expression) (src : Expression) (span : Span)
  | push (size : Option Expression) (src : Expression) (span : Span)
  | pop (size : Option Expression) (dst : Expression) (span : Span)
  | add (dest : Expression) (lhs : Expression) (rhs : Expression) (span : Span)
  | sub (dest : Expression) (lhs : Expression) (rhs : Expression) (span : Span)
  | mul (dest : Expression) (lhs : Expression) (rhs : Expression) (span : Span)
  | div (dest : Expression) (lhs : Expression) (rhs : Expression) (span : Span)
  | and (dest : Expression) (lhs : Expression) (rhs : Expression) (span : Span)
  | or (dest : Expression) (lhs : Expression) (rhs : Expression) (span : Span)
  | xor (dest : Expression) (lhs : Expression) (rhs : Expression) (span : Span)
  | shl (dest : Expression) (lhs : Expression) (rhs : Expression) (span : Span)
  | shr (dest : Expression) (lhs : Expression) (rhs : Expression) (span : Span)
  | cmp (lhs : Expression) (rhs : Expression) (span : Span)
  | jmp (expr : Expression) (span : Span)
  | jne (expr : Expression) (span : Span)
  | jeq (expr : Expression) (span : Span)
  | jlt (expr : Expression) (span : Span)
  | jgt (expr : Expression) (span : Span)
  | jle (expr : Expression) (span : Span)
  | jge (expr : Expression) (span : Span)
  | call (expr : Expression) (span : Span)
  | ret (span : Span)
  | inc (expr : Expression) (span : Span)
  | dec (expr : Expression) (span : Span)
  | syscall (span : Span)
  | hlt (span : Span)
  | db (exprs : List Expression) (span : Span)
  | resb (expr : Expression) (span : Span)
deriving Repr


/-! ## The compiler back end (`src/compiler/bytecode.rs`, `src/compiler/mod.rs`) -/

inductive Section where
  | text | data
deriving DecidableEq, Repr

structure Bytecode where
  text : List Nat
  data : List Nat
deriving DecidableEq, Repr

/-- `enum Error` of `src/compiler/mod.rs`; the formatted diagnostic
payloads (`src`, `span`, `details`) are dropped, the discriminating `inst`
and `label` payloads kept.  `panic` marks a Rust panic (the unchecked slice
writes of `write_uN_at`). -/
inductive CompilerError where
  | invalidRegister (inst : String)
  | invalidDataSize (inst : String)
  | invalidOperands (inst : String)
  | undefinedLabel (label : String)
  | unsupportedOperation (inst : String)
  | fixupFailure (inst : String) (label : String)
  | invalidExpression (inst : String)
  | panic (msg : String)
deriving DecidableEq, Repr

namespace Bytecode

/-- `Bytecode::new` (capacities dropped). -/
def new : Bytecode := ⟨[], []⟩

/-- `Bytecode::len`. -/
def len (bc : Bytecode) : Section → Nat
  | .text => bc.text.length
  | .data => bc.data.length

/-- `Bytecode::push`. -/
def push (bc : Bytecode) (sec : Section) (value : Nat) : Bytecode :=
  match sec with
  | .text => { bc with text := bc.text ++ [value] }
  | .data => { bc with data := bc.data ++ [value] }

/-- `Bytecode::extend`. -/
def extend (bc : Bytecode) (sec : Section) (values : List Nat) : Bytecode :=
  match sec with
  | .text => { bc with text := bc.text ++ values }
  | .data => { bc with data := bc.data ++ values }

/-- The shared shape of `write_u8_at` / `write_u16_at` / `write_u32_at` /
`write_u64_at`: overwrite `k` bytes at `offset` with the little-endian
truncation of `value`.  The source's slice assignment panics when the range
leaves the buffer. -/
def writeLeAt (bc : Bytecode) (sec : Section) (offset k : Nat)
    (value : Nat) : Except CompilerError Bytecode :=
  match sec with
  | .text =>
      if offset + k ≤ bc.text.length then
        .ok { bc with text := writeBytesAt bc.text offset (leBytes k value) }
      else .error (.panic "slice index out of range")
  | .data =>
      if offset + k ≤ bc.data.length then
        .ok { bc with data := writeBytesAt bc.data offset (leBytes k value) }
      else .error (.panic "slice index out of range")

/-- `Bytecode::finalize`: `text || data`. -/
def finalize (bc : Bytecode) : List Nat := bc.text ++ bc.data

end Bytecode

/-- `enum Entry` of `src/compiler/mod.rs`. -/
inductive Entry where
  | address (addr : Nat)
  | fixupRef (label : String) (span : Span)
deriving DecidableEq, Repr

/-- One entry of the compiler's fixups table: key `(section, offset)`,
value `(requested size, label name)` (the stored span is diagnostic
only and dropped). -/
structure Fixup where
  sec : Section
  off : Nat
  size : DataSize
  label : String
deriving DecidableEq, Repr

/-- The mutable state of `struct Compiler` during `compile()` (the input
program and source text aside).  `labels` is the `HashMap` as an
association list with newest binding first; `fixups` is the fixups
`HashMap` in insertion order (its keys, fresh `(section, offset)` pairs,
never repeat). -/
structure CState where
  bytecode : Bytecode
  labels : List (String × Section × Nat)
  fixups : List Fixup
  currentSection : Section
  entry : Entry
deriving DecidableEq, Repr

/-- `Compiler::new`'s initial state: empty buffers, `current_section =
Text`, `entry = Address(0x00)`. -/
def initState : CState :=
  { bytecode := Bytecode.new, labels := [], fixups := [],
    currentSection := .text, entry := .address 0 }

/-- `HashMap::get` on the labels table (newest binding first). -/
def lookupLabel (labels : List (String × Section × Nat)) (name : String) :
    Option (Section × Nat) :=
  (labels.find? fun p => p.1 = name).map (·.2)

/-- The UTF-8 bytes of a string literal (`string.bytes()`). -/
def strBytes (s : String) : List Nat := s.toUTF8.toList.map (·.toNat)

/-- Rust `v as u8` on an `i64`. -/
def intCast8 (v : Int) : Nat := u64OfInt v % 2 ^ 8

namespace CState

/-- `self.bytecode.push(self.current_section, b)`. -/
def pushB (st : CState) (b : Nat) : CState :=
  { st with bytecode := st.bytecode.push st.currentSection b }

/-- `self.bytecode.extend(self.current_section, bs)`. -/
def extendB (st : CState) (bs : List Nat) : CState :=
  { st with bytecode := st.bytecode.extend st.currentSection bs }

/-- `self.bytecode.len(self.current_section)`. -/
def curLen (st : CState) : Nat := st.bytecode.len st.currentSection

/-- `self.fixups.insert((self.current_section, len), (size, label, span))`
at the current emission offset. -/
def addFixup (st : CState) (size : DataSize) (label : String) : CState :=
  { st with fixups := st.fixups ++ [⟨st.currentSection, st.curLen, size, label⟩] }

/-- The memory-operand emission block the source repeats verbatim inside
`compile_ldr_or_str`, `compile_push` (both with and without a size prefix)
and `compile_pop`: addressing-variant byte, base (with a QWord fixup for an
identifier base), 8-byte offset (zero when syntactically absent). -/
def emitAddr (st : CState) (base : Expression) (offset : Option Expression)
    (inst : String) : Except CompilerError CState :=
  match base, offset with
  | .register b, some (.integerLiteral o) =>
      .ok ((((st.pushB 0).pushB b.toByte).extendB (leBytesOfInt 8 o)))
  | .register b, none =>
      .ok ((((st.pushB 0).pushB b.toByte).extendB (leBytes 8 0)))
  | .integerLiteral b, some (.integerLiteral o) =>
      .ok (((st.pushB 1).extendB (leBytesOfInt 8 b)).extendB (leBytesOfInt 8 o))
  | .integerLiteral b, none =>
      .ok (((st.pushB 1).extendB (leBytesOfInt 8 b)).extendB (leBytes 8 0))
  | .identifier b, some (.integerLiteral o) =>
      .ok (((((st.pushB 1).addFixup .qword b).extendB (leBytes 8 0)).extendB
        (leBytesOfInt 8 o)))
  | .identifier b, none =>
      .ok (((((st.pushB 1).addFixup .qword b).extendB (leBytes 8 0)).extendB
        (leBytes 8 0)))
  | _, _ => .error (.invalidOperands inst)

end CState

/-- `Compiler::compile_mov`. -/
def compileMov (F : FloatModel) (st : CState) (lhs rhs : Expression) :
    Except CompilerError CState :=
  match lhs, rhs with
  | .register dest, .register src =>
      .ok (((st.pushB Opcode.MovRegReg.toByte).pushB dest.toByte).pushB src.toByte)
  | .register dest, .integerLiteral src =>
      let st := (st.pushB Opcode.MovRegImm.toByte).pushB dest.toByte
      match DataSize.ofRegister dest with
      | .byte => .ok (st.pushB (intCast8 src))
      | .word => .ok (st.extendB (leBytesOfInt 2 src))
      | .dword => .ok (st.extendB (leBytesOfInt 4 src))
      | .qword => .ok (st.extendB (leBytesOfInt 8 src))
      | _ => .error (.invalidDataSize "MOV")
  | .register dest, .floatLiteral src =>
      let st := (st.pushB Opcode.MovRegImm.toByte).pushB dest.toByte
      match DataSize.ofRegister dest with
      | .float => .ok (st.extendB (leBytes 4 (F.f64toF32 src)))
      | .double => .ok (st.extendB (leBytes 8 src))
      | _ => .error (.invalidDataSize "MOV")
  | .register dest, .identifier src =>
      let st := (st.pushB Opcode.MovRegImm.toByte).pushB dest.toByte
      let size := DataSize.ofRegister dest
      let st := st.addFixup size src
      match DataSize.ofRegister dest with
      | .byte => .ok (st.pushB 0)
      | .word => .ok (st.extendB (leBytes 2 0))
      | .dword => .ok (st.extendB (leBytes 4 0))
      | .qword => .ok (st.extendB (leBytes 8 0))
      | _ => .error (.invalidDataSize "MOV")
  | _, _ => .error (.invalidOperands "MOV")

/-- `Compiler::compile_ldr_or_str` (`opcode` is `Ldr` or `Str`). -/
def compileLdrOrStr (st : CState) (lhs rhs : Expression) (opcode : Opcode)
    (inst : String) : Except CompilerError CState :=
  match lhs, rhs with
  | .register reg, .address baseExpr offsetExpr =>
      ((st.pushB opcode.toByte).pushB reg.toByte).emitAddr baseExpr offsetExpr inst
  | _, _ => .error (.invalidOperands inst)

/-- `Compiler::compile_push`. -/
def compilePush (F : FloatModel) (st : CState) (ds : Option Expression)
    (expr : Expression) : Except CompilerError CState :=
  match ds, expr with
  | none, .register src =>
      .ok (((st.pushB Opcode.PushReg.toByte).pushB
        (DataSize.ofRegister src).toByte).pushB src.toByte)
  | some (.dataSize size), .register src =>
      .ok (((st.pushB Opcode.PushReg.toByte).pushB size.toByte).pushB src.toByte)
  | none, .address baseExpr offsetExpr =>
      (st.pushB Opcode.PushAddr.toByte).emitAddr baseExpr offsetExpr "PUSH"
  | some (.dataSize size), .integerLiteral src =>
      let st := (st.pushB Opcode.PushImm.toByte).pushB size.toByte
      match size with
      | .byte => .ok (st.pushB (intCast8 src))
      | .word => .ok (st.extendB (leBytesOfInt 2 src))
      | .dword => .ok (st.extendB (leBytesOfInt 4 src))
      | .qword => .ok (st.extendB (leBytesOfInt 8 src))
      | .float => .ok (st.extendB (leBytes 4 (F.intToF32 src)))
      | .double => .ok (st.extendB (leBytes 8 (F.intToF64 src)))
  | some (.dataSize size), .floatLiteral src =>
      let st := (st.pushB Opcode.PushImm.toByte).pushB size.toByte
      match size with
      | .float => .ok (st.extendB (leBytes 4 (F.f64toF32 src)))
      | .double => .ok (st.extendB (leBytes 8 src))
      | _ => .error (.invalidDataSize "PUSH")
  | some (.dataSize size), .identifier src =>
      let st := (st.pushB Opcode.PushImm.toByte).pushB size.toByte
      .ok ((st.addFixup size src).extendB (leBytes 8 0))
  | none, .identifier src =>
      let st := (st.pushB Opcode.PushImm.toByte).pushB DataSize.qword.toByte
      .ok ((st.addFixup .qword src).extendB (leBytes 8 0))
  | some (.dataSize size), .address baseExpr offsetExpr =>
      ((st.pushB Opcode.PushAddr.toByte).pushB size.toByte).emitAddr
        baseExpr offsetExpr "PUSH"
  | _, _ => .error (.invalidOperands "PUSH")

/-- `Compiler::compile_pop`. -/
def compilePop (st : CState) (ds : Option Expression) (expr : Expression) :
    Except CompilerError CState :=
  match ds, expr with
  | none, .register dest =>
      .ok (((st.pushB Opcode.PopReg.toByte).pushB
        (DataSize.ofRegister dest).toByte).pushB dest.toByte)
  | some (.dataSize size), .register dest =>
      .ok (((st.pushB Opcode.PopReg.toByte).pushB size.toByte).pushB dest.toByte)
  | some (.dataSize size), .address baseExpr offsetExpr =>
      ((st.pushB Opcode.PopAddr.toByte).pushB size.toByte).emitAddr
        baseExpr offsetExpr "POP"
  | _, _ => .error (.invalidOperands "POP")

/-- `Compiler::compile_arithmetic`; the source selects opcodes by the
mnemonic string, passed here with the two opcodes directly. -/
def compileArithmetic (F : FloatModel) (st : CState)
    (dest lhs rhs : Expression) (opRR opRI : Opcode) (inst : String) :
    Except CompilerError CState :=
  match dest with
  | .register destReg =>
      (match lhs, rhs with
      | .register lhsReg, .register rhsReg =>
          .ok ((((st.pushB opRR.toByte).pushB destReg.toByte).pushB
            lhsReg.toByte).pushB rhsReg.toByte)
      | .register lhsReg, .integerLiteral rhsVal =>
          let st := ((st.pushB opRI.toByte).pushB destReg.toByte).pushB lhsReg.toByte
          match DataSize.ofRegister destReg with
          | .byte => .ok (st.pushB (intCast8 rhsVal))
          | .word => .ok (st.extendB (leBytesOfInt 2 rhsVal))
          | .dword => .ok (st.extendB (leBytesOfInt 4 rhsVal))
          | .qword => .ok (st.extendB (leBytesOfInt 8 rhsVal))
          | .float => .ok (st.extendB (leBytes 4 (F.intToF32 rhsVal)))
          | .double => .ok (st.extendB (leBytes 8 (F.intToF64 rhsVal)))
      | .register lhsReg, .floatLiteral rhsVal =>
          let st := ((st.pushB opRI.toByte).pushB destReg.toByte).pushB lhsReg.toByte
          match DataSize.ofRegister destReg with
          | .float => .ok (st.extendB (leBytes 4 (F.f64toF32 rhsVal)))
          | .double => .ok (st.extendB (leBytes 8 rhsVal))
          | _ => .error (.invalidDataSize inst)
      | _, _ => .error (.invalidOperands inst))
  | _ => .error (.invalidOperands inst)

/-- `Compiler::compile_bitwise`: rejects float/double destinations and
operand registers with `InvalidOperands`. -/
def compileBitwise (st : CState) (dest lhs rhs : Expression)
    (opRR opRI : Opcode) (inst : String) : Except CompilerError CState :=
  match dest with
  | .register destReg =>
      (match DataSize.ofRegister destReg with
      | .float | .double => .error (.invalidOperands inst)
      | _ =>
        match lhs, rhs with
        | .register lhsReg, .register rhsReg =>
            (match DataSize.ofRegister lhsReg, DataSize.ofRegister rhsReg with
            | .float, _ | .double, _ | _, .float | _, .double =>
                .error (.invalidOperands inst)
            | _, _ =>
                .ok ((((st.pushB opRR.toByte).pushB destReg.toByte).pushB
                  lhsReg.toByte).pushB rhsReg.toByte))
        | .register lhsReg, .integerLiteral rhsVal =>
            (match DataSize.ofRegister lhsReg with
            | .float | .double => .error (.invalidOperands inst)
            | _ =>
              let st := ((st.pushB opRI.toByte).pushB destReg.toByte).pushB
                lhsReg.toByte
              match DataSize.ofRegister destReg with
              | .byte => .ok (st.pushB (intCast8 rhsVal))
              | .word => .ok (st.extendB (leBytesOfInt 2 rhsVal))
              | .dword => .ok (st.extendB (leBytesOfInt 4 rhsVal))
              | .qword => .ok (st.extendB (leBytesOfInt 8 rhsVal))
              | _ => .error (.invalidDataSize inst))
        | .register _, .floatLiteral _ => .error (.invalidOperands inst)
        | _, _ => .error (.invalidOperands inst))
  | _ => .error (.invalidOperands inst)

/-- `Compiler::compile_cmp`. -/
def compileCmp (F : FloatModel) (st : CState) (lhs rhs : Expression) :
    Except CompilerError CState :=
  match lhs, rhs with
  | .register lhsReg, .integerLiteral rhsImm =>
      let st := (st.pushB Opcode.CmpRegImm.toByte).pushB lhsReg.toByte
      (match DataSize.ofRegister lhsReg with
      | .byte => .ok (st.pushB (intCast8 rhsImm))
      | .word => .ok (st.extendB (leBytesOfInt 2 rhsImm))
      | .dword => .ok (st.extendB (leBytesOfInt 4 rhsImm))
      | .qword => .ok (st.extendB (leBytesOfInt 8 rhsImm))
      | .float => .ok (st.extendB (leBytes 4 (F.intToF32 rhsImm)))
      | .double => .ok (st.extendB (leBytes 8 (F.intToF64 rhsImm))))
  | .register lhsReg, .floatLiteral rhsImm =>
      let st := (st.pushB Opcode.CmpRegImm.toByte).pushB lhsReg.toByte
      (match DataSize.ofRegister lhsReg with
      | .float => .ok (st.extendB (leBytes 4 (F.f64toF32 rhsImm)))
      | .double => .ok (st.extendB (leBytes 8 rhsImm))
      | _ => .error (.invalidDataSize "CMP"))
  | .register lhsReg, .register rhsReg =>
      .ok (((st.pushB Opcode.CmpRegReg.toByte).pushB lhsReg.toByte).pushB
        rhsReg.toByte)
  | _, _ => .error (.invalidOperands "CMP")

/-- `Compiler::compile_jump` (the source selects `opImm`/`opReg` from the
mnemonic string). -/
def compileJump (st : CState) (expr : Expression) (opImm opReg : Opcode)
    (inst : String) : Except CompilerError CState :=
  match expr with
  | .integerLiteral src => .ok ((st.pushB opImm.toByte).extendB (leBytesOfInt 8 src))
  | .register src => .ok ((st.pushB opReg.toByte).pushB src.toByte)
  | .identifier src =>
      .ok (((st.pushB opImm.toByte).addFixup .qword src).extendB (leBytes 8 0))
  | _ => .error (.invalidOperands inst)

/-- `Compiler::compile_call`. -/
def compileCall (st : CState) (expr : Expression) : Except CompilerError CState :=
  match expr with
  | .integerLiteral src =>
      .ok ((st.pushB Opcode.CallImm.toByte).extendB (leBytesOfInt 8 src))
  | .register src => .ok ((st.pushB Opcode.CallReg.toByte).pushB src.toByte)
  | .identifier src =>
      .ok (((st.pushB Opcode.CallImm.toByte).addFixup .qword src).extendB
        (leBytes 8 0))
  | _ => .error (.invalidOperands "CALL")

/-- `Compiler::compile_inc_or_dec`. -/
def compileIncOrDec (st : CState) (expr : Expression) (opcode : Opcode)
    (inst : String) : Except CompilerError CState :=
  match expr with
  | .register src => .ok ((st.pushB opcode.toByte).pushB src.toByte)
  | _ => .error (.invalidOperands inst)

/-- The per-expression body of the `DB` loop inside `Compiler::compile`. -/
def dbStep (st : CState) (e : Expression) : Except CompilerError CState :=
  match e with
  | .integerLiteral v => .ok (st.pushB (intCast8 v))
  | .stringLiteral s => .ok (st.extendB (strBytes s))
  | _ => .error (.invalidExpression "DB")

/-- The per-statement arm of `Compiler::compile`'s main loop. -/
def compileStmt (F : FloatModel) (st : CState) (stmt : Statement) :
    Except CompilerError CState :=
  match stmt with
  | .sectionDirective sectionType _ =>
      .ok { st with currentSection :=
        match sectionType with | .text => Section.text | .data => Section.data }
  | .entry expr span =>
      (match expr with
      | .integerLiteral src => .ok { st with entry := .address (u64OfInt src) }
      | .identifier src => .ok { st with entry := .fixupRef src span }
      | _ => .error (.invalidOperands ".ENTRY"))
  | .ascii expr _ =>
      (match expr with
      | .stringLiteral s => .ok (st.extendB (strBytes s))
      | _ => .error (.invalidOperands ".ENTRY"))
  | .asciz expr _ =>
      (match expr with
      | .stringLiteral s => .ok ((st.extendB (strBytes s)).pushB 0)
      | _ => .error (.invalidOperands ".ENTRY"))
  | .label name _ =>
      .ok { st with labels := (name, st.currentSection, st.curLen) :: st.labels }
  | .nop _ => .ok (st.pushB Opcode.Nop.toByte)
  | .mov lhs rhs _ => compileMov F st lhs rhs
  | .ldr lhs rhs _ => compileLdrOrStr st lhs rhs .Ldr "LDR"
  | .str lhs rhs _ => compileLdrOrStr st lhs rhs .Str "STR"
  | .push ds expr _ => compilePush F st ds expr
  | .pop ds expr _ => compilePop st ds expr
  | .add dest lhs rhs _ =>
      compileArithmetic F st dest lhs rhs .AddRegRegReg .AddRegRegImm "ADD"
  | .sub dest lhs rhs _ =>
      compileArithmetic F st dest lhs rhs .SubRegRegReg .SubRegRegImm "SUB"
  | .mul dest lhs rhs _ =>
      compileArithmetic F st dest lhs rhs .MulRegRegReg .MulRegRegImm "MUL"
  | .div dest lhs rhs _ =>
      compileArithmetic F st dest lhs rhs .DivRegRegReg .DivRegRegImm "DIV"
  | .and dest lhs rhs _ =>
      compileBitwise st dest lhs rhs .AndRegRegReg .AndRegRegImm "AND"
  | .or dest lhs rhs _ =>
      compileBitwise st dest lhs rhs .OrRegRegReg .OrRegRegImm "OR"
  | .xor dest lhs rhs _ =>
      compileBitwise st dest lhs rhs .XorRegRegReg .XorRegRegImm "XOR"
  | .shl dest lhs rhs _ =>
      compileBitwise st dest lhs rhs .ShlRegRegReg .ShlRegRegImm "SHL"
  | .shr dest lhs rhs _ =>
      compileBitwise st dest lhs rhs .ShrRegRegReg .ShrRegRegImm "SHR"
  | .cmp lhs rhs _ => compileCmp F st lhs rhs
  | .jmp e _ => compileJump st e .JmpImm .JmpReg "JMP"
  | .jeq e _ => compileJump st e .JeqImm .JeqReg "JEQ"
  | .jne e _ => compileJump st e .JneImm .JneReg "JNE"
  | .jlt e _ => compileJump st e .JltImm .JltReg "JLT"
  | .jgt e _ => compileJump st e .JgtImm .JgtReg "JGT"
  | .jle e _ => compileJump st e .JleImm .JleReg "JLE"
  | .jge e _ => compileJump st e .JgeImm .JgeReg "JGE"
  | .call e _ => compileCall st e
  | .ret _ => .ok (st.pushB Opcode.Ret.toByte)
  | .inc e _ => compileIncOrDec st e .Inc "INC"
  | .dec e _ => compileIncOrDec st e .Dec "DEC"
  | .syscall _ => .ok (st.pushB Opcode.Syscall.toByte)
  | .hlt _ => .ok (st.pushB Opcode.Hlt.toByte)
  | .db exprs _ => exprs.foldlM dbStep st
  | .resb expr _ =>
      (match expr with
      | .integerLiteral v => .ok (st.extendB (List.replicate (u64OfInt v) 0))
      | _ => .error (.invalidExpression "RESB"))
  | .errorDirective _ _ | .define _ _ _ | .include _ _ | .ifDef _ _
  | .ifNDef _ _ | .elseDirective _ | .endIf _ =>
      .error (.unsupportedOperation "unhandled statement")

/-- The statement loop of `Compiler::compile` from the initial compiler
state. -/
def pass1 (F : FloatModel) (program : List Statement) :
    Except CompilerError CState :=
  program.foldlM (compileStmt F) initState

/-- One iteration of the fixup-resolution loop of `Compiler::compile`:
resolve the label (`UndefinedLabel` when absent), absolutise
(`text.len() + offset` for data-section labels), write little-endian at the
recorded offset in the recorded section with the size-appropriate writer;
float/double sizes are `InvalidDataSize`. -/
def resolveOne (labels : List (String × Section × Nat)) (bc : Bytecode)
    (fx : Fixup) : Except CompilerError Bytecode :=
  match lookupLabel labels fx.label with
  | none => .error (.undefinedLabel fx.label)
  | some (labelSection, labelPos) =>
      let absolutePos :=
        match labelSection with
        | .text => labelPos
        | .data => bc.len .text + labelPos
      match fx.size with
      | .byte => bc.writeLeAt fx.sec fx.off 1 absolutePos
      | .word => bc.writeLeAt fx.sec fx.off 2 absolutePos
      | .dword => bc.writeLeAt fx.sec fx.off 4 absolutePos
      | .qword => bc.writeLeAt fx.sec fx.off 8 absolutePos
      | _ => .error (.invalidDataSize "FIXUP")

/-- The fixup-resolution loop (`self.fixups.drain()`, modelled in insertion
order). -/
def resolveFixups (labels : List (String × Section × Nat)) (bc : Bytecode)
    (fixups : List Fixup) : Except CompilerError Bytecode :=
  fixups.foldlM (resolveOne labels) bc

/-- The entry-point resolution at the end of `Compiler::compile`. -/
def resolveEntry (labels : List (String × Section × Nat)) (bc : Bytecode) :
    Entry → Except CompilerError Nat
  | .address addr => .ok addr
  | .fixupRef label _ =>
      match lookupLabel labels label with
      | none => .error (.undefinedLabel label)
      | some (labelSection, labelPos) =>
          .ok (match labelSection with
            | .text => labelPos
            | .data => bc.len .text + labelPos)

/-- `Compiler::compile`: the statement loop, fixup resolution, entry
resolution, then `entry_point:u64 LE || text || data`. -/
def compile (F : FloatModel) (program : List Statement) :
    Except CompilerError (List Nat) := do
  let st ← pass1 F program
  let bc ← resolveFixups st.labels st.bytecode st.fixups
  let entry ← resolveEntry st.labels bc st.entry
  .ok (leBytes 8 entry ++ bc.finalize)

/-! ## The preprocessor's substitution and constant folding
(`src/preprocessor/mod.rs`) -/

/-- `enum Error` of `src/preprocessor/mod.rs` (diagnostic payloads
dropped); `panic` again marks Rust panics — `substitute_expr` folds integer
literals with the plain `+ - * / | & ^` operators, so a zero divisor (or
`i64::MIN / -1`) panics rather than returning an `Error`. -/
inductive PreprocError where
  | includeFileNotFound (file : String)
  | circularInclude (file : String)
  | includeReadError (file : String)
  | unmatchedIfdef
  | unmatchedIfndef
  | unmatchedElse
  | unmatchedEndif
  | invalidDefineKey
  | invalidIncludePath
  | invalidConditionalExpr
  | invalidOperatorForFloat (op : BinaryOperator)
  | userError (message : String)
  | panic (msg : String)
deriving DecidableEq, Repr

/-- `HashMap::get` on the definitions table. -/
def lookupDef (defs : List (String × Expression)) (name : String) :
    Option Expression :=
  (defs.find? fun p => p.1 = name).map (·.2)

/-- Rust `i64` bitwise or (two's complement). -/
def i64or (l r : Int) : Int := toI64 (u64OfInt l ||| u64OfInt r)

/-- Rust `i64` bitwise and. -/
def i64and (l r : Int) : Int := toI64 (u64OfInt l &&& u64OfInt r)

/-- Rust `i64` bitwise xor. -/
def i64xor (l r : Int) : Int := toI64 (u64OfInt l ^^^ u64OfInt r)

/-- The constant-folding tail of `Preprocessor::substitute_expr`'s
`BinaryOp` arm, on the two already-substituted sides.  Integer folding uses
the plain Rust operators: `+ - * | & ^` wrap in release builds (modelled as
wrapping), `/` panics on a zero divisor and on `i64::MIN / -1` in every
build profile; float sides fold only `+ - * /` and reject bitwise
operators; any other pair re-emits the unfolded node. -/
def foldBinaryOp (F : FloatModel) (op : BinaryOperator)
    (lhs rhs : Expression) (span : Span) : Except PreprocError Expression :=
  match lhs, rhs with
  | .integerLiteral l, .integerLiteral r =>
      (match op with
      | .add => .ok (.integerLiteral (wrap64 (l + r)))
      | .sub => .ok (.integerLiteral (wrap64 (l - r)))
      | .mul => .ok (.integerLiteral (wrap64 (l * r)))
      | .div =>
          if r = 0 then .error (.panic "attempt to divide by zero")
          else if l = -(2 ^ 63) ∧ r = -1 then
            .error (.panic "attempt to divide with overflow")
          else .ok (.integerLiteral (l.tdiv r))
      | .bitOr => .ok (.integerLiteral (i64or l r))
      | .bitAnd => .ok (.integerLiteral (i64and l r))
      | .bitXor => .ok (.integerLiteral (i64xor l r)))
  | .floatLiteral l, .floatLiteral r =>
      (match op with
      | .add => .ok (.floatLiteral (F.f64add l r))
      | .sub => .ok (.floatLiteral (F.f64sub l r))
      | .mul => .ok (.floatLiteral (F.f64mul l r))
      | .div => .ok (.floatLiteral (F.f64div l r))
      | _ => .error (.invalidOperatorForFloat op))
  | lhs, rhs => .ok (.binaryOp lhs op rhs span)

/-- One structural pass of `Preprocessor::substitute_expr`: the source
recurses structurally on the expression except in the identifier case,
where it restarts on the definition's replacement — that restart is the
`recur` parameter. -/
def substAux (F : FloatModel) (defs : List (String × Expression))
    (recur : Expression → Except PreprocError Expression) :
    Expression → Except PreprocError Expression
  | .identifier name =>
      (match lookupDef defs name with
      | some replacement => recur replacement
      | none => .ok (.identifier name))
  | .address base offsetOpt =>
      (match substAux F defs recur base with
      | .error e => .error e
      | .ok newBase =>
        match offsetOpt with
        | some offset =>
            (match substAux F defs recur offset with
            | .error e => .error e
            | .ok newOffset => .ok (.address newBase (some newOffset)))
        | none => .ok (.address newBase none))
  | .register reg => .ok (.register reg)
  | .integerLiteral val => .ok (.integerLiteral val)
  | .floatLiteral val => .ok (.floatLiteral val)
  | .stringLiteral val => .ok (.stringLiteral val)
  | .dataSize size => .ok (.dataSize size)
  | .binaryOp lhs op rhs span =>
      (match substAux F defs recur lhs with
      | .error e => .error e
      | .ok lhs =>
        match substAux F defs recur rhs with
        | .error e => .error e
        | .ok rhs => foldBinaryOp F op lhs rhs span)

/-- `Preprocessor::substitute_expr` with `fuel` bounding only the
identifier-replacement chain (the source has no bound and would recurse
forever on a cyclic definition; exhaustion is modelled as a panic). -/
def substituteExpr (F : FloatModel) (defs : List (String × Expression)) :
    Nat → Expression → Except PreprocError Expression
  | 0 => substAux F defs (fun _ => .error (.panic "recursion limit"))
  | fuel + 1 => substAux F defs (substituteExpr F defs fuel)

/-! ## Toolkit lemmas on byte buffers -/

theorem length_writeBytesAt (l bs : List Nat) (addr : Nat)
    (h : addr + bs.length ≤ l.length) :
    (writeBytesAt l addr bs).length = l.length := by
  simp only [writeBytesAt, List.length_append, List.length_take, List.length_drop]
  omega

theorem getElem?_writeBytesAt (l bs : List Nat) (addr j : Nat)
    (h : addr + bs.length ≤ l.length) :
    (writeBytesAt l addr bs)[j]? =
      if j < addr then l[j]?
      else if j < addr + bs.length then bs[j - addr]?
      else l[j]? := by
  simp only [writeBytesAt]
  have hA : (List.take addr l).length = addr := by
    simp [List.length_take]; omega
  rcases Nat.lt_or_ge j addr with hj | hj
  · rw [List.getElem?_append_left (by simp [hA]; omega),
      List.getElem?_append_left (by omega : j < (List.take addr l).length),
      List.getElem?_take, if_pos hj, if_pos hj]
  · rcases Nat.lt_or_ge j (addr + bs.length) with hj2 | hj2
    · rw [List.getElem?_append_left (by simp [hA]; omega),
        List.getElem?_append_right (by omega : (List.take addr l).length ≤ j),
        hA, if_neg (by omega), if_pos (by omega)]
    · rw [List.getElem?_append_right (by simp [hA]; omega),
        List.getElem?_drop, if_neg (by omega), if_neg (by omega)]
      congr 1
      simp [hA]
      omega

theorem getElem?_sliceBytes (l : List Nat) (c k j : Nat) :
    (sliceBytes l c k)[j]? = if j < k then l[c + j]? else none := by
  simp [sliceBytes, List.getElem?_take, List.getElem?_drop]

theorem length_sliceBytes (l : List Nat) (c k : Nat) :
    (sliceBytes l c k).length = min k (l.length - c) := by
  simp [sliceBytes]

theorem sliceBytes_append_mid (pre mid suf : List Nat) :
    sliceBytes (pre ++ (mid ++ suf)) pre.length mid.length = mid := by
  simp [sliceBytes, List.drop_left, List.take_left]

theorem sliceBytes_writeBytesAt_self (l bs : List Nat) (addr : Nat)
    (h : addr + bs.length ≤ l.length) :
    sliceBytes (writeBytesAt l addr bs) addr bs.length = bs := by
  apply List.ext_getElem?
  intro j
  rw [getElem?_sliceBytes]
  rcases Nat.lt_or_ge j bs.length with hj | hj
  · rw [if_pos hj, getElem?_writeBytesAt _ _ _ _ h, if_neg (by omega),
      if_pos (by omega)]
    congr 1
    omega
  · rw [if_neg (by omega)]
    exact (List.getElem?_eq_none hj).symm

theorem sliceBytes_writeBytesAt_disjoint (l bs : List Nat) (addr c k : Nat)
    (h : addr + bs.length ≤ l.length)
    (hdisj : c + k ≤ addr ∨ addr + bs.length ≤ c) :
    sliceBytes (writeBytesAt l addr bs) c k = sliceBytes l c k := by
  apply List.ext_getElem?
  intro j
  rw [getElem?_sliceBytes, getElem?_sliceBytes]
  rcases Nat.lt_or_ge j k with hj | hj
  · rw [if_pos hj, if_pos hj, getElem?_writeBytesAt _ _ _ _ h]
    rcases hdisj with hd | hd
    · rw [if_pos (by omega)]
    · rw [if_neg (by omega), if_neg (by omega)]
  · rw [if_neg (by omega), if_neg (by omega)]

theorem getD_writeBytesAt_outside (l bs : List Nat) (addr j : Nat)
    (h : addr + bs.length ≤ l.length)
    (hout : j < addr ∨ addr + bs.length ≤ j) :
    (writeBytesAt l addr bs).getD j 0 = l.getD j 0 := by
  rw [List.getD_eq_getElem?_getD, List.getD_eq_getElem?_getD,
    getElem?_writeBytesAt _ _ _ _ h]
  rcases hout with hj | hj
  · rw [if_pos hj]
  · rw [if_neg (by omega), if_neg (by omega)]

/-! ## Claim theorems -/

theorem not_modguard {a k n : Nat} (h : a + k ≤ n) :
    ¬ (a + k) % 2 ^ 64 > n := by
  have := Nat.mod_le (a + k) (2 ^ 64)
  omega

/-- C10 (amended): with the source's `usize` arithmetic,
`Memory::read`/`Memory::write` succeed exactly when
`addr + k ≤ memory.len()` — a successful write leaves the length and
every byte outside `[addr, addr+k)` unchanged; they return the bounds
error exactly when the wrapped end offset `(addr + k) mod 2^64` exceeds
`memory.len()`, and that error is the same `InstructionPointerOutOfBounds`
kind (with the address as payload) used for instruction fetches, not a
distinct data-access error; but when `addr + k` overflows and the wrapped
end stays within bounds, the guard passes and the access panics — so on
the overflow-free domain `addr + k < 2^64` the original
"error iff `addr + k > len`" holds, and at `addr ≥ 2^64 - k` it fails. -/
theorem memory_rw_bounds (F : FloatModel) (mem : Memory) (addr : Nat)
    (size : DataSize) (value : Immediate) :
    (addr + size.sizeInBytes ≤ mem.storage.length →
      (∃ imm, mem.read addr size = .ok imm)
      ∧ ∃ mem', Memory.write F mem addr value size = .ok mem'
        ∧ mem'.storage.length = mem.storage.length
        ∧ ∀ j, (j < addr ∨ addr + size.sizeInBytes ≤ j) →
            mem'.storage.getD j 0 = mem.storage.getD j 0)
    ∧ ((addr + size.sizeInBytes) % 2 ^ 64 > mem.storage.length →
      mem.read addr size = .error (.instructionPointerOutOfBounds addr)
      ∧ Memory.write F mem addr value size =
          .error (.instructionPointerOutOfBounds addr))
    ∧ ((addr + size.sizeInBytes) % 2 ^ 64 ≤ mem.storage.length →
      addr + size.sizeInBytes > mem.storage.length →
      mem.read addr size = .error (.panic "slice index out of range")
      ∧ Memory.write F mem addr value size =
          .error (.panic "slice index out of range")) := by
  refine ⟨?_, ?_, ?_⟩
  · intro h
    constructor
    · cases size <;>
        simp only [Memory.read, DataSize.sizeInBytes] at h ⊢ <;>
        rw [if_neg (not_modguard (by omega)), if_pos (by omega)] <;>
        exact ⟨_, rfl⟩
    · cases size
      case byte =>
        simp only [Memory.write, DataSize.sizeInBytes] at h ⊢
        rw [if_neg (not_modguard (by omega)), if_pos (by omega)]
        refine ⟨_, rfl, by simp, ?_⟩
        intro j hj
        rw [List.getD_eq_getElem?_getD, List.getD_eq_getElem?_getD,
          List.getElem?_set_ne (by omega)]
      all_goals
        simp only [Memory.write, DataSize.sizeInBytes] at h ⊢
      all_goals rw [if_neg (not_modguard (by omega)), if_pos (by omega)]
      all_goals
        refine ⟨_, rfl, ?_, ?_⟩
      case word.refine_1 | dword.refine_1 | qword.refine_1
        | float.refine_1 | double.refine_1 =>
        exact length_writeBytesAt _ _ _ (by rw [leBytes_length]; omega)
      all_goals
        intro j hj
        exact getD_writeBytesAt_outside _ _ _ _
          (by rw [leBytes_length]; omega) (by rw [leBytes_length]; omega)
  · intro h
    refine ⟨?_, ?_⟩ <;>
      cases size <;>
        simp only [Memory.read, Memory.write, DataSize.sizeInBytes] at h ⊢ <;>
        rw [if_pos h]
  · intro h1 h2
    refine ⟨?_, ?_⟩ <;>
      cases size <;>
        simp only [Memory.read, Memory.write, DataSize.sizeInBytes]
          at h1 h2 ⊢ <;>
        rw [if_neg (by omega), if_neg (by omega)]

/-- C10 counterexample to the original claim: at `addr = 2^64 - 1` (a
valid `usize`) with a byte access on a 1-byte memory, `addr + 1` exceeds
`memory.len()`, yet the access does not return the bounds error: the
wrapped end offset `0` passes the `usize` guard and the slice indexing
panics — in every build profile a crash, not the claimed error. -/
theorem memory_rw_overflow_panic_cex :
    Memory.read ⟨[0]⟩ (2 ^ 64 - 1) .byte
        = .error (.panic "slice index out of range")
    ∧ Memory.write floats0 ⟨[0]⟩ (2 ^ 64 - 1) (.byte 0) .byte
        = .error (.panic "slice index out of range")
    ∧ 2 ^ 64 - 1 + 1 > ([0] : List Nat).length := by
  refine ⟨?_, ?_, by norm_num⟩ <;> rfl

/-- C10 witness: an in-bounds word read succeeds on `[1,2,3]` at address 1
and the (overflow-free) out-of-bounds one at address 2 fails with
`InstructionPointerOutOfBounds 2`. -/
theorem memory_rw_bounds_witness :
    (∃ imm, Memory.read ⟨[1, 2, 3]⟩ 1 .word = .ok imm) ∧
    Memory.read ⟨[1, 2, 3]⟩ 2 .word =
      .error (.instructionPointerOutOfBounds 2) :=
  ⟨((memory_rw_bounds floats0 ⟨[1, 2, 3]⟩ 1 .word (.word 5)).1 (by decide)).1,
   ((memory_rw_bounds floats0 ⟨[1, 2, 3]⟩ 2 .word (.word 5)).2.1
      (by decide)).1⟩

/-- C2: the loader fails with `ProgramTooSmall` iff the image is shorter
than 8 bytes; otherwise, with `code = image[8..]` and the first 8 bytes as
the little-endian entry point, it fails with `InvalidEntryPoint` iff
`entry_point ≥ code.len()`, then with `ProgramTooLarge` iff
`code.len() > mem_size`; on success the memory is `mem_size` bytes — the
code followed by zeroes — with `IP = entry_point`, `SP = mem_size`,
`BP = 0`, flags cleared, `halted = false`. -/
theorem vm_new_loader (program : List Nat) (memSize : Nat) :
    (program.length < 8 →
      VM.new program memSize = .error (.programTooSmall program.length))
    ∧ (8 ≤ program.length →
      (fromLeBytes (program.take 8) ≥ (program.drop 8).length →
        VM.new program memSize =
          .error (.invalidEntryPoint (fromLeBytes (program.take 8))
            (program.drop 8).length))
      ∧ (fromLeBytes (program.take 8) < (program.drop 8).length →
        (program.drop 8).length > memSize →
        VM.new program memSize =
          .error (.programTooLarge (program.drop 8).length memSize))
      ∧ (fromLeBytes (program.take 8) < (program.drop 8).length →
        (program.drop 8).length ≤ memSize →
        ∃ vm, VM.new program memSize = .ok vm
          ∧ vm.mem.storage =
              program.drop 8 ++ List.replicate (memSize - (program.drop 8).length) 0
          ∧ vm.mem.storage.length = memSize
          ∧ vm.regs.ip = fromLeBytes (program.take 8)
          ∧ vm.regs.sp = memSize
          ∧ vm.regs.bp = 0
          ∧ vm.flags = ⟨false, false⟩
          ∧ vm.halted = false)) := by
  refine ⟨?_, fun h8 => ⟨?_, ?_, ?_⟩⟩
  · intro h
    rw [VM.new, if_pos h]
  · intro hep
    rw [VM.new, if_neg (by omega), if_pos (by omega)]
  · intro hep hlarge
    rw [VM.new, if_neg (by omega), if_neg (by omega), if_pos (by omega)]
  · intro hep hfit
    have hnew : VM.new program memSize = .ok
        { regs := ((Registers.new.setSp memSize).setBp 0).setIp
            (fromLeBytes (program.take 8)),
          mem := ⟨program.drop 8 ++
            List.replicate (memSize - (program.drop 8).length) 0⟩,
          flags := Flags.new, halted := false } := by
      rw [VM.new, if_neg (by omega), if_neg (by omega), if_neg (by omega)]
    refine ⟨_, hnew, rfl, ?_, rfl, rfl, rfl, rfl, rfl⟩
    simp only [List.length_append, List.length_replicate]
    omega

/-- C2 witness: loading the 10-byte image `00×8 ‖ Nop Hlt` into 16 bytes of
memory succeeds with the stated register/memory state, and the 3-byte image
fails with `ProgramTooSmall 3`. -/
theorem vm_new_loader_witness :
    (∃ vm, VM.new [0, 0, 0, 0, 0, 0, 0, 0, 0, 50] 16 = .ok vm
      ∧ vm.mem.storage =
          [0, 50] ++ List.replicate 14 0
      ∧ vm.mem.storage.length = 16
      ∧ vm.regs.ip = 0
      ∧ vm.regs.sp = 16
      ∧ vm.regs.bp = 0
      ∧ vm.flags = ⟨false, false⟩
      ∧ vm.halted = false)
    ∧ VM.new [1, 2, 3] 16 = .error (.programTooSmall 3) :=
  ⟨((vm_new_loader [0, 0, 0, 0, 0, 0, 0, 0, 0, 50] 16).2 (by decide)).2.2
      (by decide) (by decide),
   (vm_new_loader [1, 2, 3] 16).1 (by decide)⟩

/-! ### Sub-register merge arithmetic (for C3) -/

theorem land_highMask (slot n : Nat) (hn : n ≤ 64) (hs : slot < 2 ^ 64) :
    slot &&& (2 ^ 64 - 2 ^ n) = slot / 2 ^ n * 2 ^ n := by
  have hmask : (2 ^ 64 - 2 ^ n : Nat) = (2 ^ (64 - n) - 1) <<< n := by
    rw [Nat.shiftLeft_eq, Nat.sub_mul, one_mul, ← Nat.pow_add]
    congr 2
    omega
  have hdm : slot / 2 ^ n * 2 ^ n = (slot >>> n) <<< n := by
    rw [Nat.shiftRight_eq_div_pow, Nat.shiftLeft_eq]
  rw [hmask, hdm]
  apply Nat.eq_of_testBit_eq
  intro i
  rw [Nat.testBit_land, Nat.testBit_shiftLeft, Nat.testBit_shiftLeft,
    Nat.testBit_two_pow_sub_one, Nat.testBit_shiftRight]
  rcases Nat.lt_or_ge i n with hi | hi
  · simp [Nat.not_le.mpr hi]
  · have hni : n + (i - n) = i := by omega
    rcases Nat.lt_or_ge i 64 with hi64 | hi64
    · simp [hi, (by omega : i - n < 64 - n), hni]
    · have hfalse : slot.testBit i = false :=
        Nat.testBit_eq_false_of_lt
          (lt_of_lt_of_le hs (Nat.pow_le_pow_right (by norm_num) hi64))
      simp [hi, (by omega : ¬ i - n < 64 - n), hni, hfalse]

theorem lor_mul_pow_add (b v n : Nat) (hv : v < 2 ^ n) :
    b * 2 ^ n ||| v = b * 2 ^ n + v := by
  have hpos : (0 : Nat) < 2 ^ n := by positivity
  apply Nat.eq_of_testBit_eq
  intro i
  rw [Nat.testBit_lor]
  rcases Nat.lt_or_ge i n with hi | hi
  · have h1 : (b * 2 ^ n).testBit i = false := by
      rw [show b * 2 ^ n = b <<< n from (Nat.shiftLeft_eq b n).symm,
        Nat.testBit_shiftLeft]
      simp [Nat.not_le.mpr hi]
    have hmod : (b * 2 ^ n + v) % 2 ^ n = v := by
      rw [Nat.add_comm, Nat.add_mul_mod_self_right, Nat.mod_eq_of_lt hv]
    have h2 : (b * 2 ^ n + v).testBit i = v.testBit i := by
      have hmt := Nat.testBit_mod_two_pow (b * 2 ^ n + v) n i
      rw [hmod] at hmt
      rw [hmt]
      simp [hi]
    rw [h1, h2, Bool.false_or]
  · have h1 : v.testBit i = false :=
      Nat.testBit_eq_false_of_lt
        (lt_of_lt_of_le hv (Nat.pow_le_pow_right (by norm_num) hi))
    have hdiv : (b * 2 ^ n + v) / 2 ^ n = b := by
      rw [Nat.add_comm, Nat.add_mul_div_right _ _ hpos, Nat.div_eq_of_lt hv,
        Nat.zero_add]
    have ht : ∀ x : Nat, x.testBit i = (x / 2 ^ n).testBit (i - n) := by
      intro x
      rw [← Nat.shiftRight_eq_div_pow, Nat.testBit_shiftRight]
      congr 1
      omega
    have h2 : (b * 2 ^ n + v).testBit i = (b * 2 ^ n).testBit i := by
      rw [ht (b * 2 ^ n + v), ht (b * 2 ^ n), hdiv,
        Nat.mul_div_cancel _ hpos]
    rw [h1, h2, Bool.or_false]

/-- The width bounds the Rust `as uN` saturating float casts guarantee by
type; an instantiation of the abstract float layer is expected to satisfy
them. -/
def FloatModel.CastBounds (F : FloatModel) : Prop :=
  ∀ b w, F.f32castU b w < 2 ^ w ∧ F.f64castU b w < 2 ^ w

theorem floats0_castBounds : floats0.CastBounds := by
  intro b w
  constructor <;> · show 0 < 2 ^ w; positivity

theorem Immediate.asU8_lt (F : FloatModel) (hF : F.CastBounds)
    (imm : Immediate) (h : imm.WF) : imm.asU8 F < 2 ^ 8 := by
  cases imm with
  | byte v => exact h
  | word v => exact Nat.mod_lt _ (by norm_num)
  | dword v => exact Nat.mod_lt _ (by norm_num)
  | qword v => exact Nat.mod_lt _ (by norm_num)
  | float b => exact (hF b 8).1
  | double b => exact (hF b 8).2

theorem Immediate.asU16_lt (F : FloatModel) (hF : F.CastBounds)
    (imm : Immediate) (h : imm.WF) : imm.asU16 F < 2 ^ 16 := by
  cases imm with
  | byte v => exact lt_trans h (by norm_num)
  | word v => exact h
  | dword v => exact Nat.mod_lt _ (by norm_num)
  | qword v => exact Nat.mod_lt _ (by norm_num)
  | float b => exact (hF b 16).1
  | double b => exact (hF b 16).2

theorem Immediate.asU32_lt (F : FloatModel) (hF : F.CastBounds)
    (imm : Immediate) (h : imm.WF) : imm.asU32 F < 2 ^ 32 := by
  cases imm with
  | byte v => exact lt_trans h (by norm_num)
  | word v => exact lt_trans h (by norm_num)
  | dword v => exact h
  | qword v => exact Nat.mod_lt _ (by norm_num)
  | float b => exact (hF b 32).1
  | double b => exact (hF b 32).2

theorem Immediate.asU64_lt (F : FloatModel) (hF : F.CastBounds)
    (imm : Immediate) (h : imm.WF) : imm.asU64 F < 2 ^ 64 := by
  cases imm with
  | byte v => exact lt_trans h (by norm_num)
  | word v => exact lt_trans h (by norm_num)
  | dword v => exact lt_trans h (by norm_num)
  | qword v => exact h
  | float b => exact (hF b 64).1
  | double b => exact (hF b 64).2

/-- Every general-purpose physical index produced by `physical_info` is
below 16 (the `gpr` array length). -/
theorem Register.gp_index_lt (r : Register) (i : Nat) (view : RegisterView)
    (h : r.physicalInfo = (.generalPurpose, i, view)) : i < 16 := by
  cases r <;> simp only [Register.physicalInfo, Prod.mk.injEq] at h <;>
    first
      | (obtain ⟨-, hi, -⟩ := h; omega)
      | exact absurd h.1 (by intro hc; cases hc)

/-- C3: for every general-purpose physical register slot `i` (64-bit value
`slot`, gpr file of the source's length 16) and every well-formed value
written through an architectural view: the Byte view replaces exactly the
low 8 bits (`slot' % 2^8` is the converted value, `slot' / 2^8` is
preserved), the Word view the low 16, the DWord view zero-extends (the
whole slot becomes the 32-bit value), the QWord view replaces all 64 bits;
and a read through each view returns exactly the low bits of the slot. -/
theorem registers_set_get_views (F : FloatModel) (hF : F.CastBounds)
    (regs : Registers) (hlen : regs.gpr.length = 16) (imm : Immediate)
    (hWF : imm.WF) (r : Register) (i : Nat) (view : RegisterView)
    (hinfo : r.physicalInfo = (.generalPurpose, i, view))
    (hslot : regs.gpr.getD i 0 < 2 ^ 64) :
    (view = .byte →
      ((regs.set F r imm).gpr.getD i 0) % 2 ^ 8 = imm.asU8 F
      ∧ ((regs.set F r imm).gpr.getD i 0) / 2 ^ 8 = regs.gpr.getD i 0 / 2 ^ 8
      ∧ regs.get r = .byte (regs.gpr.getD i 0 % 2 ^ 8))
    ∧ (view = .word →
      ((regs.set F r imm).gpr.getD i 0) % 2 ^ 16 = imm.asU16 F
      ∧ ((regs.set F r imm).gpr.getD i 0) / 2 ^ 16 = regs.gpr.getD i 0 / 2 ^ 16
      ∧ regs.get r = .word (regs.gpr.getD i 0 % 2 ^ 16))
    ∧ (view = .dword →
      ((regs.set F r imm).gpr.getD i 0) = imm.asU32 F
      ∧ regs.get r = .dword (regs.gpr.getD i 0 % 2 ^ 32))
    ∧ (view = .qword →
      ((regs.set F r imm).gpr.getD i 0) = imm.asU64 F
      ∧ regs.get r = .qword (regs.gpr.getD i 0)) := by
  have hi : i < regs.gpr.length := by rw [hlen]; exact r.gp_index_lt i view hinfo
  have hset : ∀ v : Nat, (regs.gpr.set i v).getD i 0 = v := by
    intro v
    rw [List.getD_eq_getElem?_getD, List.getElem?_set_eq (by omega)]
    rfl
  refine ⟨?_, ?_, ?_, ?_⟩ <;> rintro rfl
  · have hv := imm.asU8_lt F hF hWF
    have hsetv : (regs.set F r imm).gpr.getD i 0
        = regs.gpr.getD i 0 / 2 ^ 8 * 2 ^ 8 + imm.asU8 F := by
      simp only [Registers.set, hinfo]
      rw [hset, (by norm_num : (0xFFFFFFFFFFFFFF00 : Nat) = 2 ^ 64 - 2 ^ 8),
        land_highMask _ 8 (by norm_num) hslot, lor_mul_pow_add _ _ _ hv]
    refine ⟨?_, ?_, ?_⟩
    · rw [hsetv, Nat.add_comm, Nat.add_mul_mod_self_right, Nat.mod_eq_of_lt hv]
    · rw [hsetv, Nat.add_comm, Nat.add_mul_div_right _ _ (by positivity),
        Nat.div_eq_of_lt hv, Nat.zero_add]
    · simp only [Registers.get, hinfo]
  · have hv := imm.asU16_lt F hF hWF
    have hsetv : (regs.set F r imm).gpr.getD i 0
        = regs.gpr.getD i 0 / 2 ^ 16 * 2 ^ 16 + imm.asU16 F := by
      simp only [Registers.set, hinfo]
      rw [hset, (by norm_num : (0xFFFFFFFFFFFF0000 : Nat) = 2 ^ 64 - 2 ^ 16),
        land_highMask _ 16 (by norm_num) hslot, lor_mul_pow_add _ _ _ hv]
    refine ⟨?_, ?_, ?_⟩
    · rw [hsetv, Nat.add_comm, Nat.add_mul_mod_self_right, Nat.mod_eq_of_lt hv]
    · rw [hsetv, Nat.add_comm, Nat.add_mul_div_right _ _ (by positivity),
        Nat.div_eq_of_lt hv, Nat.zero_add]
    · simp only [Registers.get, hinfo]
  · refine ⟨?_, ?_⟩
    · simp only [Registers.set, hinfo]
      exact hset _
    · simp only [Registers.get, hinfo]
  · refine ⟨?_, ?_⟩
    · simp only [Registers.set, hinfo]
      exact hset _
    · simp only [Registers.get, hinfo]

/-- C3 witness: writing `0xAB` through `B3` onto a slot holding
`0x1122334455667788` merges to low-byte `0xAB` with the upper 56 bits
preserved, and `B3` reads back the low byte. -/
theorem registers_set_get_views_witness :
    (((⟨List.replicate 3 0 ++ 0x1122334455667788 :: List.replicate 12 0,
        List.replicate 32 0, List.replicate 3 0⟩ : Registers).set floats0
        .B3 (.byte 0xAB)).gpr.getD 3 0) % 2 ^ 8 = 0xAB
    ∧ (((⟨List.replicate 3 0 ++ 0x1122334455667788 :: List.replicate 12 0,
        List.replicate 32 0, List.replicate 3 0⟩ : Registers).set floats0
        .B3 (.byte 0xAB)).gpr.getD 3 0) / 2 ^ 8 = 0x11223344556677 := by
  have h := registers_set_get_views floats0 floats0_castBounds
    ⟨List.replicate 3 0 ++ 0x1122334455667788 :: List.replicate 12 0,
      List.replicate 32 0, List.replicate 3 0⟩ (by decide) (.byte 0xAB)
    (by decide) .B3 3 .byte rfl (by decide)
  obtain ⟨h1, h2, -⟩ := h.1 rfl
  refine ⟨h1, ?_⟩
  rw [h2]
  decide

/-! ### Stack and memory round-trip helpers (for C5) -/

theorem Registers.sp_setSp (regs : Registers) (v : Nat)
    (h : 1 < regs.special.length) : (regs.setSp v).sp = v := by
  simp only [Registers.setSp, Registers.sp]
  rw [List.getD_eq_getElem?_getD, List.getElem?_set_self (by omega)]
  rfl

/-- Any error of `Memory::write` is the bounds error at the written
address or the slice-indexing panic of a wrapped-around range. -/
theorem Memory.write_error_kind (F : FloatModel) (mem : Memory) (addr : Nat)
    (value : Immediate) (size : DataSize) (e : VMError)
    (h : Memory.write F mem addr value size = .error e) :
    e = .instructionPointerOutOfBounds addr
      ∨ e = .panic "slice index out of range" := by
  cases size <;> simp only [Memory.write] at h <;> split at h
  all_goals try split at h
  all_goals
    first
      | exact Except.noConfusion h
      | exact Or.inl (Except.error.inj h).symm
      | exact Or.inr (Except.error.inj h).symm

theorem length_write_leBytes (l : List Nat) (addr k v : Nat)
    (h : addr + k ≤ l.length) :
    (writeBytesAt l addr (leBytes k v)).length = l.length :=
  length_writeBytesAt _ _ _ (by rw [leBytes_length]; omega)

theorem sliceBytes_write_leBytes (l : List Nat) (addr k v : Nat)
    (h : addr + k ≤ l.length) :
    sliceBytes (writeBytesAt l addr (leBytes k v)) addr k = leBytes k v := by
  have hb := leBytes_length k v
  calc sliceBytes (writeBytesAt l addr (leBytes k v)) addr k
      = sliceBytes (writeBytesAt l addr (leBytes k v)) addr
          (leBytes k v).length := by rw [hb]
    _ = leBytes k v := sliceBytes_writeBytesAt_self _ _ _ (by rw [hb]; omega)

/-- Writing a well-formed value and reading it back at its own size
returns it bit-for-bit, leaving the length unchanged. -/
theorem Memory.write_read_roundtrip (F : FloatModel) (mem : Memory)
    (addr : Nat) (value : Immediate) (hWF : value.WF)
    (h : addr + value.size.sizeInBytes ≤ mem.storage.length) :
    ∃ mem', Memory.write F mem addr value value.size = .ok mem'
      ∧ mem'.read addr value.size = .ok value
      ∧ mem'.storage.length = mem.storage.length := by
  cases value with
  | byte v =>
      simp only [Immediate.size, DataSize.sizeInBytes] at h ⊢
      refine ⟨⟨mem.storage.set addr v⟩,
        by
          simp only [Memory.write, Immediate.asU8]
          rw [if_neg (not_modguard (by omega)), if_pos (by omega)],
        ?_, by simp⟩
      rw [Memory.read,
        if_neg (by
          simp only [List.length_set]
          exact not_modguard (by omega)),
        if_pos (by simp only [List.length_set]; omega)]
      rw [List.getD_eq_getElem?_getD, List.getElem?_set_self (by omega)]
      rfl
  | word v =>
      simp only [Immediate.size, DataSize.sizeInBytes] at h ⊢
      refine ⟨⟨writeBytesAt mem.storage addr (leBytes 2 v)⟩,
        by
          simp only [Memory.write, Immediate.asU16]
          rw [if_neg (not_modguard (by omega)), if_pos (by omega)],
        ?_, length_write_leBytes _ _ _ _ h⟩
      rw [Memory.read,
        if_neg (by
          rw [length_write_leBytes _ _ _ _ h]
          exact not_modguard (by omega)),
        if_pos (by rw [length_write_leBytes _ _ _ _ h]; omega),
        sliceBytes_write_leBytes _ _ _ _ h, fromLeBytes_leBytes]
      rw [Nat.mod_eq_of_lt (lt_of_lt_of_le hWF (by norm_num))]
  | dword v =>
      simp only [Immediate.size, DataSize.sizeInBytes] at h ⊢
      refine ⟨⟨writeBytesAt mem.storage addr (leBytes 4 v)⟩,
        by
          simp only [Memory.write, Immediate.asU32]
          rw [if_neg (not_modguard (by omega)), if_pos (by omega)],
        ?_, length_write_leBytes _ _ _ _ h⟩
      rw [Memory.read,
        if_neg (by
          rw [length_write_leBytes _ _ _ _ h]
          exact not_modguard (by omega)),
        if_pos (by rw [length_write_leBytes _ _ _ _ h]; omega),
        sliceBytes_write_leBytes _ _ _ _ h, fromLeBytes_leBytes]
      rw [Nat.mod_eq_of_lt (lt_of_lt_of_le hWF (by norm_num))]
  | qword v =>
      simp only [Immediate.size, DataSize.sizeInBytes] at h ⊢
      refine ⟨⟨writeBytesAt mem.storage addr (leBytes 8 v)⟩,
        by
          simp only [Memory.write, Immediate.asU64]
          rw [if_neg (not_modguard (by omega)), if_pos (by omega)],
        ?_, length_write_leBytes _ _ _ _ h⟩
      rw [Memory.read,
        if_neg (by
          rw [length_write_leBytes _ _ _ _ h]
          exact not_modguard (by omega)),
        if_pos (by rw [length_write_leBytes _ _ _ _ h]; omega),
        sliceBytes_write_leBytes _ _ _ _ h, fromLeBytes_leBytes]
      rw [Nat.mod_eq_of_lt (lt_of_lt_of_le hWF (by norm_num))]
  | float b =>
      simp only [Immediate.size, DataSize.sizeInBytes] at h ⊢
      refine ⟨⟨writeBytesAt mem.storage addr (leBytes 4 b)⟩,
        by
          simp only [Memory.write, Immediate.asF32]
          rw [if_neg (not_modguard (by omega)), if_pos (by omega)],
        ?_, length_write_leBytes _ _ _ _ h⟩
      rw [Memory.read,
        if_neg (by
          rw [length_write_leBytes _ _ _ _ h]
          exact not_modguard (by omega)),
        if_pos (by rw [length_write_leBytes _ _ _ _ h]; omega),
        sliceBytes_write_leBytes _ _ _ _ h, fromLeBytes_leBytes]
      rw [Nat.mod_eq_of_lt (lt_of_lt_of_le hWF (by norm_num))]
  | double b =>
      simp only [Immediate.size, DataSize.sizeInBytes] at h ⊢
      refine ⟨⟨writeBytesAt mem.storage addr (leBytes 8 b)⟩,
        by
          simp only [Memory.write, Immediate.asF64]
          rw [if_neg (not_modguard (by omega)), if_pos (by omega)],
        ?_, length_write_leBytes _ _ _ _ h⟩
      rw [Memory.read,
        if_neg (by
          rw [length_write_leBytes _ _ _ _ h]
          exact not_modguard (by omega)),
        if_pos (by rw [length_write_leBytes _ _ _ _ h]; omega),
        sliceBytes_write_leBytes _ _ _ _ h, fromLeBytes_leBytes]
      rw [Nat.mod_eq_of_lt (lt_of_lt_of_le hWF (by norm_num))]

/-- An in-bounds `Memory::read` succeeds. -/
theorem Memory.read_ok (mem : Memory) (addr : Nat) (size : DataSize)
    (h : addr + size.sizeInBytes ≤ mem.storage.length) :
    ∃ imm, mem.read addr size = .ok imm := by
  cases size <;> simp only [Memory.read, DataSize.sizeInBytes] at h ⊢ <;>
    rw [if_neg (not_modguard (by omega)), if_pos (by omega)] <;> exact ⟨_, rfl⟩

/-- C5: `push` fails with `StackOverflow` exactly when `SP` is smaller than
the operand width; `pop` fails with `StackUnderflow` exactly when
`SP + width` passes the end of memory; and whenever `SP ≤ memory.len()` and
the width fits below `SP`, a `push` followed by a `pop` of the same size
succeeds, returns the pushed value bit-for-bit, and restores `SP`. -/
theorem push_pop_roundtrip (F : FloatModel) (vm : VM) (value : Immediate)
    (size : DataSize) (hWF : value.WF) (hsp3 : 1 < vm.regs.special.length) :
    (vm.push F value = .error .stackOverflow ↔
      vm.regs.sp < value.size.sizeInBytes)
    ∧ (vm.pop size = .error .stackUnderflow ↔
      vm.regs.sp + size.sizeInBytes > vm.mem.storage.length)
    ∧ (vm.regs.sp ≤ vm.mem.storage.length →
      value.size.sizeInBytes ≤ vm.regs.sp →
      ∃ vm' vm'', vm.push F value = .ok vm'
        ∧ vm'.regs.sp = vm.regs.sp - value.size.sizeInBytes
        ∧ vm'.pop value.size = .ok (value, vm'')
        ∧ vm''.regs.sp = vm.regs.sp) := by
  refine ⟨⟨?_, ?_⟩, ⟨?_, ?_⟩, ?_⟩
  · intro hpush
    by_contra hnot
    simp only [VM.push] at hpush
    rw [if_neg hnot] at hpush
    cases hw : Memory.write F vm.mem
        (vm.regs.sp - value.size.sizeInBytes) value value.size with
    | ok m => rw [hw] at hpush; simp [Except.map] at hpush
    | error e =>
        rw [hw] at hpush
        rcases Memory.write_error_kind _ _ _ _ _ _ hw with hk | hk <;>
          subst hk <;> simp [Except.map] at hpush
  · intro hlt
    simp only [VM.push]
    rw [if_pos hlt]
  · intro hpop
    by_contra hnot
    simp only [VM.pop] at hpop
    rw [if_neg hnot] at hpop
    obtain ⟨imm, hr⟩ := Memory.read_ok vm.mem vm.regs.sp size (by omega)
    rw [hr] at hpop
    exact Except.noConfusion hpop
  · intro hgt
    simp only [VM.pop]
    rw [if_pos hgt]
  · intro hsp hW
    obtain ⟨mem', hw, hr, hlen⟩ := Memory.write_read_roundtrip F vm.mem
      (vm.regs.sp - value.size.sizeInBytes) value hWF (by omega)
    have hpush : vm.push F value = .ok
        ⟨vm.regs.setSp (vm.regs.sp - value.size.sizeInBytes), mem',
          vm.flags, vm.halted⟩ := by
      simp only [VM.push]
      rw [if_neg (by omega), hw]
      rfl
    have hsp' : (vm.regs.setSp (vm.regs.sp - value.size.sizeInBytes)).sp
        = vm.regs.sp - value.size.sizeInBytes :=
      Registers.sp_setSp _ _ hsp3
    have hpop : (⟨vm.regs.setSp (vm.regs.sp - value.size.sizeInBytes), mem',
          vm.flags, vm.halted⟩ : VM).pop value.size = .ok (value,
        ⟨(vm.regs.setSp (vm.regs.sp - value.size.sizeInBytes)).setSp
            (vm.regs.sp - value.size.sizeInBytes + value.size.sizeInBytes),
          mem', vm.flags, vm.halted⟩) := by
      simp only [VM.pop, hsp']
      rw [if_neg (by rw [hlen]; omega), hr]
      rfl
    refine ⟨_, _, hpush, hsp', hpop, ?_⟩
    have hlen2 : 1 < (vm.regs.setSp
        (vm.regs.sp - value.size.sizeInBytes)).special.length := by
      simp only [Registers.setSp, List.length_set]
      exact hsp3
    show ((vm.regs.setSp (vm.regs.sp - value.size.sizeInBytes)).setSp
        (vm.regs.sp - value.size.sizeInBytes + value.size.sizeInBytes)).sp
      = vm.regs.sp
    rw [Registers.sp_setSp _ _ hlen2]
    omega

/-- C5 witness: pushing the word `0x1234` on an 8-byte memory with
`SP = 8` and popping a word returns the value and restores `SP = 8`. -/
theorem push_pop_roundtrip_witness :
    ∃ vm' vm'',
      VM.push floats0
        ⟨⟨List.replicate 16 0, List.replicate 32 0, [0, 8, 0]⟩,
          ⟨List.replicate 8 0⟩, ⟨false, false⟩, false⟩ (.word 0x1234) = .ok vm'
      ∧ vm'.regs.sp = 6
      ∧ vm'.pop .word = .ok (.word 0x1234, vm'')
      ∧ vm''.regs.sp = 8 :=
  (push_pop_roundtrip floats0
    ⟨⟨List.replicate 16 0, List.replicate 32 0, [0, 8, 0]⟩,
      ⟨List.replicate 8 0⟩, ⟨false, false⟩, false⟩ (.word 0x1234) .word
    (by decide) (by decide)).2.2 (by decide) (by decide)

/-- Unfolding `substitute_expr` on a binary node: substitute both sides at
the same fuel, then fold. -/
theorem substituteExpr_binaryOp_eq (F : FloatModel)
    (defs : List (String × Expression)) (fuel : Nat) (lhs : Expression)
    (op : BinaryOperator) (rhs : Expression) (span : Span) :
    substituteExpr F defs fuel (.binaryOp lhs op rhs span) =
      (match substituteExpr F defs fuel lhs with
      | .error e => .error e
      | .ok lhs' =>
        match substituteExpr F defs fuel rhs with
        | .error e => .error e
        | .ok rhs' => foldBinaryOp F op lhs' rhs' span) := by
  cases fuel <;> rfl

/-- C6 (amended): a binary expression whose two substituted sides are
integer literals folds to one integer literal under wrapping
two's-complement signed 64-bit arithmetic for `+ - * | & ^`; division
folds the truncated quotient but **panics** (a Rust crash, `panic` in the
model — not a surfaced preprocessor error) on a zero divisor and on
`i64::MIN / -1`; two float literals fold only `+ - * /` and any bitwise
operator fails with `InvalidOperatorForFloat`; any other operand pair
re-emits the unfolded node on the substituted sides. -/
theorem substitute_binop_folding (F : FloatModel)
    (defs : List (String × Expression)) (fuel : Nat) (op : BinaryOperator)
    (span : Span) (lhs rhs : Expression) :
    (∀ l r,
      substituteExpr F defs fuel lhs = .ok (.integerLiteral l) →
      substituteExpr F defs fuel rhs = .ok (.integerLiteral r) →
      substituteExpr F defs fuel (.binaryOp lhs op rhs span) =
        (match op with
        | .add => .ok (.integerLiteral (wrap64 (l + r)))
        | .sub => .ok (.integerLiteral (wrap64 (l - r)))
        | .mul => .ok (.integerLiteral (wrap64 (l * r)))
        | .div =>
            if r = 0 then .error (.panic "attempt to divide by zero")
            else if l = -(2 ^ 63) ∧ r = -1 then
              .error (.panic "attempt to divide with overflow")
            else .ok (.integerLiteral (l.tdiv r))
        | .bitOr => .ok (.integerLiteral (i64or l r))
        | .bitAnd => .ok (.integerLiteral (i64and l r))
        | .bitXor => .ok (.integerLiteral (i64xor l r))))
    ∧ (∀ lb rb,
      substituteExpr F defs fuel lhs = .ok (.floatLiteral lb) →
      substituteExpr F defs fuel rhs = .ok (.floatLiteral rb) →
      substituteExpr F defs fuel (.binaryOp lhs op rhs span) =
        (match op with
        | .add => .ok (.floatLiteral (F.f64add lb rb))
        | .sub => .ok (.floatLiteral (F.f64sub lb rb))
        | .mul => .ok (.floatLiteral (F.f64mul lb rb))
        | .div => .ok (.floatLiteral (F.f64div lb rb))
        | _ => .error (.invalidOperatorForFloat op)))
    ∧ (∀ l' r',
      substituteExpr F defs fuel lhs = .ok l' →
      substituteExpr F defs fuel rhs = .ok r' →
      (∀ a b, ¬(l' = .integerLiteral a ∧ r' = .integerLiteral b)) →
      (∀ a b, ¬(l' = .floatLiteral a ∧ r' = .floatLiteral b)) →
      substituteExpr F defs fuel (.binaryOp lhs op rhs span) =
        .ok (.binaryOp l' op r' span)) := by
  refine ⟨?_, ?_, ?_⟩
  · intro l r h1 h2
    rw [substituteExpr_binaryOp_eq, h1, h2]
    cases op <;> rfl
  · intro lb rb h1 h2
    rw [substituteExpr_binaryOp_eq, h1, h2]
    cases op <;> rfl
  · intro l' r' h1 h2 hint hflt
    rw [substituteExpr_binaryOp_eq, h1, h2]
    cases l' <;> cases r' <;> first
      | rfl
      | exact absurd ⟨rfl, rfl⟩ (hint _ _)
      | exact absurd ⟨rfl, rfl⟩ (hflt _ _)

/-- C6 counterexample: folding `1 / 0` is a Rust panic ("attempt to divide
by zero", the `panic` marker in the model), not a surfaced preprocessor
error as the claim states — `substitute_expr` divides with the unchecked
`/` operator. -/
theorem substitute_div_by_zero_panics :
    substituteExpr floats0 [] 1
      (.binaryOp (.integerLiteral 1) .div (.integerLiteral 0) ⟨0, 0⟩) =
      .error (.panic "attempt to divide by zero") := by
  rfl

/-- C6 witness: with `N` defined as 10, `N + 5` folds to the wrapped
integer literal 15. -/
theorem substitute_binop_folding_witness :
    substituteExpr floats0 [("N", .integerLiteral 10)] 1
      (.binaryOp (.identifier "N") .add (.integerLiteral 5) ⟨0, 0⟩) =
      .ok (.integerLiteral (wrap64 (10 + 5))) :=
  (substitute_binop_folding floats0 [("N", .integerLiteral 10)] 1 .add
    ⟨0, 0⟩ (.identifier "N") (.integerLiteral 5)).1 10 5 rfl rfl

/-- Destructuring a successful `Except` bind. -/
theorem bind_ok {ε α β : Type} {x : Except ε α} {f : α → Except ε β}
    {b : β} (h : (x >>= f) = .ok b) : ∃ a, x = .ok a ∧ f a = .ok b := by
  cases hx : x with
  | error e => rw [hx] at h; exact absurd h (by simp [Bind.bind, Except.bind])
  | ok a => rw [hx] at h; exact ⟨a, rfl, h⟩

/-- C7 counterexample: the empty program compiles successfully to the
bare 8-byte zero header, for which the claimed invariant
`u64_le(I[0..8]) < len(I) - 8` reads `0 < 0` and fails.  (The compiler
never checks the entry point against the body; only the VM loader does.) -/
theorem compile_entry_invariant_cex :
    compile floats0 [] = .ok [0, 0, 0, 0, 0, 0, 0, 0]
    ∧ ¬ fromLeBytes ([0, 0, 0, 0, 0, 0, 0, 0].take 8) <
        ([0, 0, 0, 0, 0, 0, 0, 0] : List Nat).length - 8 := by
  constructor
  · rfl
  · decide

/-- C7 (amended): every successfully compiled image is at least 8 bytes —
the 8-byte little-endian entry-point header followed by the code body; the
stronger claimed bound `u64_le(I[0..8]) < len(I) - 8` does not hold in
general and is enforced only by the VM loader. -/
theorem compile_image_min_length (F : FloatModel) (program : List Statement)
    (img : List Nat) (h : compile F program = .ok img) : 8 ≤ img.length := by
  simp only [compile] at h
  obtain ⟨st, -, h⟩ := bind_ok h
  obtain ⟨bc, -, h⟩ := bind_ok h
  obtain ⟨entry, -, h⟩ := bind_ok h
  have himg : img = leBytes 8 entry ++ bc.finalize := (Except.ok.inj h).symm
  rw [himg, List.length_append, leBytes_length]
  omega

/-- C7 witness: compiling the single-statement program `hlt` yields a
9-byte image, which is at least 8 bytes long. -/
theorem compile_image_min_length_witness :
    8 ≤ ([0, 0, 0, 0, 0, 0, 0, 0, 50] : List Nat).length :=
  compile_image_min_length floats0 [.hlt ⟨0, 3⟩] [0, 0, 0, 0, 0, 0, 0, 0, 50]
    rfl

/-- C8 counterexample: loading and running the compiled `nop\nhlt` image
halts with `IP = 2` (the address just past the two opcode bytes, exactly
as the repository's own `vm::tests::nop` test asserts), not `IP = 10` as
the claim states — the 8-byte header is stripped before loading, so `IP`
never includes it. -/
theorem nop_hlt_ip_cex :
    ((VM.new [0, 0, 0, 0, 0, 0, 0, 0, Opcode.Nop.toByte, Opcode.Hlt.toByte]
        16).bind
      (VM.run floats0 (fun _ => none) 3)).map
        (fun vm => (vm.halted, vm.regs.ip)) = .ok (true, 2)
    ∧ (2 : Nat) ≠ 10 :=
  ⟨rfl, by decide⟩

/-- C8 (amended): `nop\nhlt` compiles to the 8-byte zero header followed
by `opcode(Nop)` and `opcode(Hlt)`, and running that image halts with
`IP = 2` (not 10: the header is not part of the loaded code). -/
theorem nop_hlt_end_to_end (F : FloatModel)
    (sys : Nat → Option (VM → Except VMError VM)) (s1 s2 : Span) :
    compile F [.nop s1, .hlt s2] =
      .ok [0, 0, 0, 0, 0, 0, 0, 0, Opcode.Nop.toByte, Opcode.Hlt.toByte]
    ∧ ∃ vm vm',
      VM.new [0, 0, 0, 0, 0, 0, 0, 0, Opcode.Nop.toByte, Opcode.Hlt.toByte]
        16 = .ok vm
      ∧ VM.run F sys 3 vm = .ok vm'
      ∧ vm'.halted = true
      ∧ vm'.regs.ip = 2 :=
  ⟨rfl, _, _, rfl, rfl, rfl, rfl⟩

/-- C8 witness: the end-to-end theorem instantiated at the degenerate
float model, the empty syscall table and zero spans. -/
theorem nop_hlt_end_to_end_witness :
    compile floats0 [.nop ⟨0, 3⟩, .hlt ⟨4, 7⟩] =
      .ok [0, 0, 0, 0, 0, 0, 0, 0, Opcode.Nop.toByte, Opcode.Hlt.toByte]
    ∧ ∃ vm vm',
      VM.new [0, 0, 0, 0, 0, 0, 0, 0, Opcode.Nop.toByte, Opcode.Hlt.toByte]
        16 = .ok vm
      ∧ VM.run floats0 (fun _ => none) 3 vm = .ok vm'
      ∧ vm'.halted = true
      ∧ vm'.regs.ip = 2 :=
  nop_hlt_end_to_end floats0 (fun _ => none) ⟨0, 3⟩ ⟨4, 7⟩

/-! ### Decode and fetch lemmas (for C4) -/

theorem Register.ofByte_toByte (r : Register) :
    Register.ofByte? r.toByte = some r := by
  cases r <;> rfl

theorem Opcode.decode_encode (op : Opcode) :
    Opcode.ofByte? op.toByte = some op := by
  cases op <;> rfl

theorem Registers.ip_setIp (regs : Registers) (v : Nat)
    (h : 0 < regs.special.length) : (regs.setIp v).ip = v := by
  simp only [Registers.setIp, Registers.ip]
  rw [List.getD_eq_getElem?_getD, List.getElem?_set_self (by omega)]
  rfl

theorem Registers.setIp_setIp (regs : Registers) (a b : Nat) :
    (regs.setIp a).setIp b = regs.setIp b := by
  simp [Registers.setIp, List.set_set]

theorem VM.readByte_at (vm : VM) (pre rest : List Nat) (b : Nat)
    (hmem : vm.mem.storage = pre ++ b :: rest)
    (hip : vm.regs.ip = pre.length) :
    vm.readByte =
      .ok (b, { vm with regs := vm.regs.setIp (pre.length + 1) }) := by
  simp only [VM.readByte, hip, hmem]
  rw [if_neg (by simp only [List.length_append, List.length_cons]; omega)]
  have hb : (pre ++ b :: rest).getD pre.length 0 = b := by
    rw [List.getD_eq_getElem?_getD, List.getElem?_append_right (le_refl _)]
    simp
  rw [hb]

theorem VM.readChunk_at (vm : VM) (pre bs suf : List Nat) (k : Nat)
    (hk : bs.length = k)
    (hmem : vm.mem.storage = pre ++ (bs ++ suf))
    (hip : vm.regs.ip = pre.length) :
    vm.readChunk k =
      .ok (fromLeBytes bs,
        { vm with regs := vm.regs.setIp (pre.length + k) }) := by
  simp only [VM.readChunk, hip, hmem]
  rw [if_neg (by simp only [List.length_append]; omega), ← hk,
    sliceBytes_append_mid]

theorem VM.readRegister_at (vm : VM) (pre rest : List Nat) (r : Register)
    (hmem : vm.mem.storage = pre ++ r.toByte :: rest)
    (hip : vm.regs.ip = pre.length) :
    vm.readRegister =
      .ok (r, { vm with regs := vm.regs.setIp (pre.length + 1) }) := by
  simp only [VM.readRegister, VM.readByte_at vm pre rest r.toByte hmem hip,
    Except.bind, Bind.bind, Register.ofByte_toByte]

/-- C4: with the flags record {eq, lt}, a decoded conditional jump
transfers control exactly under the source conditions — `JEQ` iff `eq`,
`JNE` iff `!eq`, `JLT` iff `lt`, `JGT` iff `!lt` (so equal values take the
jump), `JLE` iff `lt || eq`, `JGE` iff `!lt || eq` — in both the
immediate and register forms; a not-taken conditional leaves `IP` just past
the consumed payload (9 bytes for the immediate form, 2 for the register
form, counted from the opcode); `JMP` always jumps.  The register form's
target is the register read through the post-decode register file (the
source reads it after `IP` has advanced). -/
theorem conditional_jumps (F : FloatModel)
    (sys : Nat → Option (VM → Except VMError VM)) (vm : VM)
    (hh : vm.halted = false) (hs3 : vm.regs.special.length = 3) :
    (∀ pre suf addr, addr < 2 ^ 64 →
      vm.mem.storage = pre ++ Opcode.JmpImm.toByte :: (leBytes 8 addr ++ suf) →
      vm.regs.ip = pre.length →
      vm.step F sys = .ok ⟨vm.regs.setIp addr, vm.mem, vm.flags, vm.halted⟩)
    ∧ (∀ pre suf addr, addr < 2 ^ 64 →
      vm.mem.storage = pre ++ Opcode.JeqImm.toByte :: (leBytes 8 addr ++ suf) →
      vm.regs.ip = pre.length →
      vm.step F sys = .ok ⟨vm.regs.setIp (if vm.flags.eq then addr else pre.length + 9), vm.mem, vm.flags, vm.halted⟩)
    ∧ (∀ pre suf addr, addr < 2 ^ 64 →
      vm.mem.storage = pre ++ Opcode.JneImm.toByte :: (leBytes 8 addr ++ suf) →
      vm.regs.ip = pre.length →
      vm.step F sys = .ok ⟨vm.regs.setIp (if !vm.flags.eq then addr else pre.length + 9), vm.mem, vm.flags, vm.halted⟩)
    ∧ (∀ pre suf addr, addr < 2 ^ 64 →
      vm.mem.storage = pre ++ Opcode.JltImm.toByte :: (leBytes 8 addr ++ suf) →
      vm.regs.ip = pre.length →
      vm.step F sys = .ok ⟨vm.regs.setIp (if vm.flags.lt then addr else pre.length + 9), vm.mem, vm.flags, vm.halted⟩)
    ∧ (∀ pre suf addr, addr < 2 ^ 64 →
      vm.mem.storage = pre ++ Opcode.JgtImm.toByte :: (leBytes 8 addr ++ suf) →
      vm.regs.ip = pre.length →
      vm.step F sys = .ok ⟨vm.regs.setIp (if !vm.flags.lt then addr else pre.length + 9), vm.mem, vm.flags, vm.halted⟩)
    ∧ (∀ pre suf addr, addr < 2 ^ 64 →
      vm.mem.storage = pre ++ Opcode.JleImm.toByte :: (leBytes 8 addr ++ suf) →
      vm.regs.ip = pre.length →
      vm.step F sys = .ok ⟨vm.regs.setIp (if vm.flags.lt || vm.flags.eq then addr else pre.length + 9), vm.mem, vm.flags, vm.halted⟩)
    ∧ (∀ pre suf addr, addr < 2 ^ 64 →
      vm.mem.storage = pre ++ Opcode.JgeImm.toByte :: (leBytes 8 addr ++ suf) →
      vm.regs.ip = pre.length →
      vm.step F sys = .ok ⟨vm.regs.setIp (if !vm.flags.lt || vm.flags.eq then addr else pre.length + 9), vm.mem, vm.flags, vm.halted⟩)
    ∧ (∀ pre suf r,
      vm.mem.storage = pre ++ Opcode.JmpReg.toByte :: (r.toByte :: suf) →
      vm.regs.ip = pre.length →
      vm.step F sys = .ok ⟨vm.regs.setIp (((vm.regs.setIp (pre.length + 2)).get r).asUsize F), vm.mem, vm.flags, vm.halted⟩)
    ∧ (∀ pre suf r,
      vm.mem.storage = pre ++ Opcode.JeqReg.toByte :: (r.toByte :: suf) →
      vm.regs.ip = pre.length →
      vm.step F sys = .ok ⟨vm.regs.setIp (if vm.flags.eq then ((vm.regs.setIp (pre.length + 2)).get r).asUsize F else pre.length + 2), vm.mem, vm.flags, vm.halted⟩)
    ∧ (∀ pre suf r,
      vm.mem.storage = pre ++ Opcode.JneReg.toByte :: (r.toByte :: suf) →
      vm.regs.ip = pre.length →
      vm.step F sys = .ok ⟨vm.regs.setIp (if !vm.flags.eq then ((vm.regs.setIp (pre.length + 2)).get r).asUsize F else pre.length + 2), vm.mem, vm.flags, vm.halted⟩)
    ∧ (∀ pre suf r,
      vm.mem.storage = pre ++ Opcode.JltReg.toByte :: (r.toByte :: suf) →
      vm.regs.ip = pre.length →
      vm.step F sys = .ok ⟨vm.regs.setIp (if vm.flags.lt then ((vm.regs.setIp (pre.length + 2)).get r).asUsize F else pre.length + 2), vm.mem, vm.flags, vm.halted⟩)
    ∧ (∀ pre suf r,
      vm.mem.storage = pre ++ Opcode.JgtReg.toByte :: (r.toByte :: suf) →
      vm.regs.ip = pre.length →
      vm.step F sys = .ok ⟨vm.regs.setIp (if !vm.flags.lt then ((vm.regs.setIp (pre.length + 2)).get r).asUsize F else pre.length + 2), vm.mem, vm.flags, vm.halted⟩)
    ∧ (∀ pre suf r,
      vm.mem.storage = pre ++ Opcode.JleReg.toByte :: (r.toByte :: suf) →
      vm.regs.ip = pre.length →
      vm.step F sys = .ok ⟨vm.regs.setIp (if vm.flags.lt || vm.flags.eq then ((vm.regs.setIp (pre.length + 2)).get r).asUsize F else pre.length + 2), vm.mem, vm.flags, vm.halted⟩)
    ∧ (∀ pre suf r,
      vm.mem.storage = pre ++ Opcode.JgeReg.toByte :: (r.toByte :: suf) →
      vm.regs.ip = pre.length →
      vm.step F sys = .ok ⟨vm.regs.setIp (if !vm.flags.lt || vm.flags.eq then ((vm.regs.setIp (pre.length + 2)).get r).asUsize F else pre.length + 2), vm.mem, vm.flags, vm.halted⟩) := by
  refine ⟨?_, ?_, ?_, ?_, ?_, ?_, ?_, ?_, ?_, ?_, ?_, ?_, ?_, ?_⟩
  · intro pre suf addr haddr hmem hip
    have h1 := VM.readByte_at vm pre (leBytes 8 addr ++ suf)
      Opcode.JmpImm.toByte hmem hip
    have hip1 : ({ vm with regs := vm.regs.setIp (pre.length + 1) } : VM).regs.ip
        = (pre ++ [Opcode.JmpImm.toByte]).length := by
      show (vm.regs.setIp (pre.length + 1)).ip = _
      rw [Registers.ip_setIp _ _ (by omega)]
      simp
    have hmem1 : ({ vm with regs := vm.regs.setIp (pre.length + 1) } : VM).mem.storage
        = (pre ++ [Opcode.JmpImm.toByte]) ++ (leBytes 8 addr ++ suf) := by
      simp [hmem]
    have h2 := VM.readChunk_at _ _ _ _ 8 (leBytes_length 8 addr) hmem1 hip1
    simp only [VM.step]
    rw [if_neg (by simp [hh])]
    simp only [h1, Except.bind, Bind.bind, Opcode.decode_encode, h2,
      fromLeBytes_leBytes]
    rw [Nat.mod_eq_of_lt (by norm_num; exact haddr)]
    simp [Registers.setIp_setIp]
  · intro pre suf addr haddr hmem hip
    have h1 := VM.readByte_at vm pre (leBytes 8 addr ++ suf)
      Opcode.JeqImm.toByte hmem hip
    have hip1 : ({ vm with regs := vm.regs.setIp (pre.length + 1) } : VM).regs.ip
        = (pre ++ [Opcode.JeqImm.toByte]).length := by
      show (vm.regs.setIp (pre.length + 1)).ip = _
      rw [Registers.ip_setIp _ _ (by omega)]
      simp
    have hmem1 : ({ vm with regs := vm.regs.setIp (pre.length + 1) } : VM).mem.storage
        = (pre ++ [Opcode.JeqImm.toByte]) ++ (leBytes 8 addr ++ suf) := by
      simp [hmem]
    have h2 := VM.readChunk_at _ _ _ _ 8 (leBytes_length 8 addr) hmem1 hip1
    simp only [VM.step]
    rw [if_neg (by simp [hh])]
    simp only [h1, Except.bind, Bind.bind, Opcode.decode_encode, h2,
      fromLeBytes_leBytes]
    rw [Nat.mod_eq_of_lt (by norm_num; exact haddr)]
    by_cases hc : vm.flags.eq <;> by_cases hl : vm.flags.lt <;>
      simp [hc, hl, Registers.setIp_setIp]
  · intro pre suf addr haddr hmem hip
    have h1 := VM.readByte_at vm pre (leBytes 8 addr ++ suf)
      Opcode.JneImm.toByte hmem hip
    have hip1 : ({ vm with regs := vm.regs.setIp (pre.length + 1) } : VM).regs.ip
        = (pre ++ [Opcode.JneImm.toByte]).length := by
      show (vm.regs.setIp (pre.length + 1)).ip = _
      rw [Registers.ip_setIp _ _ (by omega)]
      simp
    have hmem1 : ({ vm with regs := vm.regs.setIp (pre.length + 1) } : VM).mem.storage
        = (pre ++ [Opcode.JneImm.toByte]) ++ (leBytes 8 addr ++ suf) := by
      simp [hmem]
    have h2 := VM.readChunk_at _ _ _ _ 8 (leBytes_length 8 addr) hmem1 hip1
    simp only [VM.step]
    rw [if_neg (by simp [hh])]
    simp only [h1, Except.bind, Bind.bind, Opcode.decode_encode, h2,
      fromLeBytes_leBytes]
    rw [Nat.mod_eq_of_lt (by norm_num; exact haddr)]
    by_cases hc : vm.flags.eq <;> by_cases hl : vm.flags.lt <;>
      simp [hc, hl, Registers.setIp_setIp]
  · intro pre suf addr haddr hmem hip
    have h1 := VM.readByte_at vm pre (leBytes 8 addr ++ suf)
      Opcode.JltImm.toByte hmem hip
    have hip1 : ({ vm with regs := vm.regs.setIp (pre.length + 1) } : VM).regs.ip
        = (pre ++ [Opcode.JltImm.toByte]).length := by
      show (vm.regs.setIp (pre.length + 1)).ip = _
      rw [Registers.ip_setIp _ _ (by omega)]
      simp
    have hmem1 : ({ vm with regs := vm.regs.setIp (pre.length + 1) } : VM).mem.storage
        = (pre ++ [Opcode.JltImm.toByte]) ++ (leBytes 8 addr ++ suf) := by
      simp [hmem]
    have h2 := VM.readChunk_at _ _ _ _ 8 (leBytes_length 8 addr) hmem1 hip1
    simp only [VM.step]
    rw [if_neg (by simp [hh])]
    simp only [h1, Except.bind, Bind.bind, Opcode.decode_encode, h2,
      fromLeBytes_leBytes]
    rw [Nat.mod_eq_of_lt (by norm_num; exact haddr)]
    by_cases hc : vm.flags.eq <;> by_cases hl : vm.flags.lt <;>
      simp [hc, hl, Registers.setIp_setIp]
  · intro pre suf addr haddr hmem hip
    have h1 := VM.readByte_at vm pre (leBytes 8 addr ++ suf)
      Opcode.JgtImm.toByte hmem hip
    have hip1 : ({ vm with regs := vm.regs.setIp (pre.length + 1) } : VM).regs.ip
        = (pre ++ [Opcode.JgtImm.toByte]).length := by
      show (vm.regs.setIp (pre.length + 1)).ip = _
      rw [Registers.ip_setIp _ _ (by omega)]
      simp
    have hmem1 : ({ vm with regs := vm.regs.setIp (pre.length + 1) } : VM).mem.storage
        = (pre ++ [Opcode.JgtImm.toByte]) ++ (leBytes 8 addr ++ suf) := by
      simp [hmem]
    have h2 := VM.readChunk_at _ _ _ _ 8 (leBytes_length 8 addr) hmem1 hip1
    simp only [VM.step]
    rw [if_neg (by simp [hh])]
    simp only [h1, Except.bind, Bind.bind, Opcode.decode_encode, h2,
      fromLeBytes_leBytes]
    rw [Nat.mod_eq_of_lt (by norm_num; exact haddr)]
    by_cases hc : vm.flags.eq <;> by_cases hl : vm.flags.lt <;>
      simp [hc, hl, Registers.setIp_setIp]
  · intro pre suf addr haddr hmem hip
    have h1 := VM.readByte_at vm pre (leBytes 8 addr ++ suf)
      Opcode.JleImm.toByte hmem hip
    have hip1 : ({ vm with regs := vm.regs.setIp (pre.length + 1) } : VM).regs.ip
        = (pre ++ [Opcode.JleImm.toByte]).length := by
      show (vm.regs.setIp (pre.length + 1)).ip = _
      rw [Registers.ip_setIp _ _ (by omega)]
      simp
    have hmem1 : ({ vm with regs := vm.regs.setIp (pre.length + 1) } : VM).mem.storage
        = (pre ++ [Opcode.JleImm.toByte]) ++ (leBytes 8 addr ++ suf) := by
      simp [hmem]
    have h2 := VM.readChunk_at _ _ _ _ 8 (leBytes_length 8 addr) hmem1 hip1
    simp only [VM.step]
    rw [if_neg (by simp [hh])]
    simp only [h1, Except.bind, Bind.bind, Opcode.decode_encode, h2,
      fromLeBytes_leBytes]
    rw [Nat.mod_eq_of_lt (by norm_num; exact haddr)]
    by_cases hc : vm.flags.eq <;> by_cases hl : vm.flags.lt <;>
      simp [hc, hl, Registers.setIp_setIp]
  · intro pre suf addr haddr hmem hip
    have h1 := VM.readByte_at vm pre (leBytes 8 addr ++ suf)
      Opcode.JgeImm.toByte hmem hip
    have hip1 : ({ vm with regs := vm.regs.setIp (pre.length + 1) } : VM).regs.ip
        = (pre ++ [Opcode.JgeImm.toByte]).length := by
      show (vm.regs.setIp (pre.length + 1)).ip = _
      rw [Registers.ip_setIp _ _ (by omega)]
      simp
    have hmem1 : ({ vm with regs := vm.regs.setIp (pre.length + 1) } : VM).mem.storage
        = (pre ++ [Opcode.JgeImm.toByte]) ++ (leBytes 8 addr ++ suf) := by
      simp [hmem]
    have h2 := VM.readChunk_at _ _ _ _ 8 (leBytes_length 8 addr) hmem1 hip1
    simp only [VM.step]
    rw [if_neg (by simp [hh])]
    simp only [h1, Except.bind, Bind.bind, Opcode.decode_encode, h2,
      fromLeBytes_leBytes]
    rw [Nat.mod_eq_of_lt (by norm_num; exact haddr)]
    by_cases hc : vm.flags.eq <;> by_cases hl : vm.flags.lt <;>
      simp [hc, hl, Registers.setIp_setIp]
  · intro pre suf r hmem hip
    have h1 := VM.readByte_at vm pre (r.toByte :: suf) Opcode.JmpReg.toByte
      hmem hip
    have hip1 : ({ vm with regs := vm.regs.setIp (pre.length + 1) } : VM).regs.ip
        = (pre ++ [Opcode.JmpReg.toByte]).length := by
      show (vm.regs.setIp (pre.length + 1)).ip = _
      rw [Registers.ip_setIp _ _ (by omega)]
      simp
    have hmem1 : ({ vm with regs := vm.regs.setIp (pre.length + 1) } : VM).mem.storage
        = (pre ++ [Opcode.JmpReg.toByte]) ++ (r.toByte :: suf) := by
      simp [hmem]
    have h2 := VM.readRegister_at _ _ _ r hmem1 hip1
    simp only [VM.step]
    rw [if_neg (by simp [hh])]
    simp only [h1, Except.bind, Bind.bind, Opcode.decode_encode, h2]
    simp [Registers.setIp_setIp]
  · intro pre suf r hmem hip
    have h1 := VM.readByte_at vm pre (r.toByte :: suf) Opcode.JeqReg.toByte
      hmem hip
    have hip1 : ({ vm with regs := vm.regs.setIp (pre.length + 1) } : VM).regs.ip
        = (pre ++ [Opcode.JeqReg.toByte]).length := by
      show (vm.regs.setIp (pre.length + 1)).ip = _
      rw [Registers.ip_setIp _ _ (by omega)]
      simp
    have hmem1 : ({ vm with regs := vm.regs.setIp (pre.length + 1) } : VM).mem.storage
        = (pre ++ [Opcode.JeqReg.toByte]) ++ (r.toByte :: suf) := by
      simp [hmem]
    have h2 := VM.readRegister_at _ _ _ r hmem1 hip1
    simp only [VM.step]
    rw [if_neg (by simp [hh])]
    simp only [h1, Except.bind, Bind.bind, Opcode.decode_encode, h2]
    by_cases hc : vm.flags.eq <;> by_cases hl : vm.flags.lt <;>
      simp [hc, hl, Registers.setIp_setIp]
  · intro pre suf r hmem hip
    have h1 := VM.readByte_at vm pre (r.toByte :: suf) Opcode.JneReg.toByte
      hmem hip
    have hip1 : ({ vm with regs := vm.regs.setIp (pre.length + 1) } : VM).regs.ip
        = (pre ++ [Opcode.JneReg.toByte]).length := by
      show (vm.regs.setIp (pre.length + 1)).ip = _
      rw [Registers.ip_setIp _ _ (by omega)]
      simp
    have hmem1 : ({ vm with regs := vm.regs.setIp (pre.length + 1) } : VM).mem.storage
        = (pre ++ [Opcode.JneReg.toByte]) ++ (r.toByte :: suf) := by
      simp [hmem]
    have h2 := VM.readRegister_at _ _ _ r hmem1 hip1
    simp only [VM.step]
    rw [if_neg (by simp [hh])]
    simp only [h1, Except.bind, Bind.bind, Opcode.decode_encode, h2]
    by_cases hc : vm.flags.eq <;> by_cases hl : vm.flags.lt <;>
      simp [hc, hl, Registers.setIp_setIp]
  · intro pre suf r hmem hip
    have h1 := VM.readByte_at vm pre (r.toByte :: suf) Opcode.JltReg.toByte
      hmem hip
    have hip1 : ({ vm with regs := vm.regs.setIp (pre.length + 1) } : VM).regs.ip
        = (pre ++ [Opcode.JltReg.toByte]).length := by
      show (vm.regs.setIp (pre.length + 1)).ip = _
      rw [Registers.ip_setIp _ _ (by omega)]
      simp
    have hmem1 : ({ vm with regs := vm.regs.setIp (pre.length + 1) } : VM).mem.storage
        = (pre ++ [Opcode.JltReg.toByte]) ++ (r.toByte :: suf) := by
      simp [hmem]
    have h2 := VM.readRegister_at _ _ _ r hmem1 hip1
    simp only [VM.step]
    rw [if_neg (by simp [hh])]
    simp only [h1, Except.bind, Bind.bind, Opcode.decode_encode, h2]
    by_cases hc : vm.flags.eq <;> by_cases hl : vm.flags.lt <;>
      simp [hc, hl, Registers.setIp_setIp]
  · intro pre suf r hmem hip
    have h1 := VM.readByte_at vm pre (r.toByte :: suf) Opcode.JgtReg.toByte
      hmem hip
    have hip1 : ({ vm with regs := vm.regs.setIp (pre.length + 1) } : VM).regs.ip
        = (pre ++ [Opcode.JgtReg.toByte]).length := by
      show (vm.regs.setIp (pre.length + 1)).ip = _
      rw [Registers.ip_setIp _ _ (by omega)]
      simp
    have hmem1 : ({ vm with regs := vm.regs.setIp (pre.length + 1) } : VM).mem.storage
        = (pre ++ [Opcode.JgtReg.toByte]) ++ (r.toByte :: suf) := by
      simp [hmem]
    have h2 := VM.readRegister_at _ _ _ r hmem1 hip1
    simp only [VM.step]
    rw [if_neg (by simp [hh])]
    simp only [h1, Except.bind, Bind.bind, Opcode.decode_encode, h2]
    by_cases hc : vm.flags.eq <;> by_cases hl : vm.flags.lt <;>
      simp [hc, hl, Registers.setIp_setIp]
  · intro pre suf r hmem hip
    have h1 := VM.readByte_at vm pre (r.toByte :: suf) Opcode.JleReg.toByte
      hmem hip
    have hip1 : ({ vm with regs := vm.regs.setIp (pre.length + 1) } : VM).regs.ip
        = (pre ++ [Opcode.JleReg.toByte]).length := by
      show (vm.regs.setIp (pre.length + 1)).ip = _
      rw [Registers.ip_setIp _ _ (by omega)]
      simp
    have hmem1 : ({ vm with regs := vm.regs.setIp (pre.length + 1) } : VM).mem.storage
        = (pre ++ [Opcode.JleReg.toByte]) ++ (r.toByte :: suf) := by
      simp [hmem]
    have h2 := VM.readRegister_at _ _ _ r hmem1 hip1
    simp only [VM.step]
    rw [if_neg (by simp [hh])]
    simp only [h1, Except.bind, Bind.bind, Opcode.decode_encode, h2]
    by_cases hc : vm.flags.eq <;> by_cases hl : vm.flags.lt <;>
      simp [hc, hl, Registers.setIp_setIp]
  · intro pre suf r hmem hip
    have h1 := VM.readByte_at vm pre (r.toByte :: suf) Opcode.JgeReg.toByte
      hmem hip
    have hip1 : ({ vm with regs := vm.regs.setIp (pre.length + 1) } : VM).regs.ip
        = (pre ++ [Opcode.JgeReg.toByte]).length := by
      show (vm.regs.setIp (pre.length + 1)).ip = _
      rw [Registers.ip_setIp _ _ (by omega)]
      simp
    have hmem1 : ({ vm with regs := vm.regs.setIp (pre.length + 1) } : VM).mem.storage
        = (pre ++ [Opcode.JgeReg.toByte]) ++ (r.toByte :: suf) := by
      simp [hmem]
    have h2 := VM.readRegister_at _ _ _ r hmem1 hip1
    simp only [VM.step]
    rw [if_neg (by simp [hh])]
    simp only [h1, Except.bind, Bind.bind, Opcode.decode_encode, h2]
    by_cases hc : vm.flags.eq <;> by_cases hl : vm.flags.lt <;>
      simp [hc, hl, Registers.setIp_setIp]

/-- C4 witness: a `JeqImm` with target 3 at address 0, with `eq` set, on a
9-byte memory, jumps to 3. -/
theorem conditional_jumps_witness :
    VM.step floats0 (fun _ => none)
      ⟨⟨List.replicate 16 0, List.replicate 32 0, [0, 0, 0]⟩,
        ⟨[Opcode.JeqImm.toByte, 3, 0, 0, 0, 0, 0, 0, 0]⟩, ⟨true, false⟩,
        false⟩ =
      .ok ⟨(⟨List.replicate 16 0, List.replicate 32 0, [0, 0, 0]⟩ :
            Registers).setIp
          (if (true : Bool) then 3 else ([] : List Nat).length + 9),
        ⟨[Opcode.JeqImm.toByte, 3, 0, 0, 0, 0, 0, 0, 0]⟩, ⟨true, false⟩,
        false⟩ :=
  (conditional_jumps floats0 (fun _ => none)
    ⟨⟨List.replicate 16 0, List.replicate 32 0, [0, 0, 0]⟩,
      ⟨[Opcode.JeqImm.toByte, 3, 0, 0, 0, 0, 0, 0, 0]⟩, ⟨true, false⟩,
      false⟩ rfl rfl).2.1 [] [] 3 (by norm_num) rfl rfl

/-! ### The fixup-emission invariant (for C1 and C9)

During the statement loop every recorded fixup lies inside the bytes
already emitted to its section, and distinct fixups occupy disjoint byte
ranges (each is recorded at the then-current end of its section and
immediately followed by at least `size` emitted bytes). -/

/-- The buffer of a section. -/
def Bytecode.buf (bc : Bytecode) : Section → List Nat
  | .text => bc.text
  | .data => bc.data

/-- Disjointness of two fixups' patch ranges. -/
def Sep (fx fy : Fixup) : Prop :=
  fx.sec ≠ fy.sec ∨ fx.off + fx.size.sizeInBytes ≤ fy.off
    ∨ fy.off + fy.size.sizeInBytes ≤ fx.off

/-- How one compiler arm extends the state: both buffers grow by
appending, fixups grow by appending records that lie between the old and
new ends of their sections and are mutually disjoint, and the labels table
is untouched. -/
structure Ext (st st' : CState) : Prop where
  text : ∃ t, st'.bytecode.text = st.bytecode.text ++ t
  data : ∃ t, st'.bytecode.data = st.bytecode.data ++ t
  fixups : ∃ news, st'.fixups = st.fixups ++ news
      ∧ (∀ fx ∈ news, st.bytecode.len fx.sec ≤ fx.off
          ∧ fx.off + fx.size.sizeInBytes ≤ st'.bytecode.len fx.sec)
      ∧ news.Pairwise Sep
  labelsEq : st'.labels = st.labels

theorem extRefl (st : CState) : Ext st st :=
  ⟨⟨[], by simp⟩, ⟨[], by simp⟩,
    ⟨[], by simp, by simp, List.Pairwise.nil⟩, rfl⟩

theorem Ext.len_le {st st' : CState} (h : Ext st st') (sec : Section) :
    st.bytecode.len sec ≤ st'.bytecode.len sec := by
  cases sec
  · obtain ⟨t, ht⟩ := h.text
    simp [Bytecode.len, ht]
  · obtain ⟨t, ht⟩ := h.data
    simp [Bytecode.len, ht]

theorem Ext.trans {st1 st2 st3 : CState} (h1 : Ext st1 st2)
    (h2 : Ext st2 st3) : Ext st1 st3 := by
  obtain ⟨t1, ht1⟩ := h1.text
  obtain ⟨t2, ht2⟩ := h2.text
  obtain ⟨d1, hd1⟩ := h1.data
  obtain ⟨d2, hd2⟩ := h2.data
  obtain ⟨n1, hn1, hb1, hp1⟩ := h1.fixups
  obtain ⟨n2, hn2, hb2, hp2⟩ := h2.fixups
  refine ⟨⟨t1 ++ t2, by rw [ht2, ht1, List.append_assoc]⟩,
    ⟨d1 ++ d2, by rw [hd2, hd1, List.append_assoc]⟩,
    ⟨n1 ++ n2, by rw [hn2, hn1, List.append_assoc], ?_, ?_⟩,
    h2.labelsEq.trans h1.labelsEq⟩
  · intro fx hfx
    rcases List.mem_append.mp hfx with hfx | hfx
    · exact ⟨(hb1 fx hfx).1, le_trans (hb1 fx hfx).2 (h2.len_le fx.sec)⟩
    · exact ⟨le_trans (h1.len_le fx.sec) (hb2 fx hfx).1, (hb2 fx hfx).2⟩
  · rw [List.pairwise_append]
    refine ⟨hp1, hp2, ?_⟩
    intro fx hfx fy hfy
    by_cases hsec : fx.sec = fy.sec
    · refine Or.inr (Or.inl ?_)
      have hx : fx.off + fx.size.sizeInBytes ≤ st2.bytecode.len fx.sec :=
        (hb1 fx hfx).2
      have hy : st2.bytecode.len fy.sec ≤ fy.off := (hb2 fy hfy).1
      rw [hsec] at hx
      exact le_trans hx hy
    · exact Or.inl hsec

theorem CState.pushB_eq_extendB (st : CState) (b : Nat) :
    st.pushB b = st.extendB [b] := by
  simp only [CState.pushB, CState.extendB, Bytecode.push, Bytecode.extend]

theorem extExtendB (st : CState) (bs : List Nat) : Ext st (st.extendB bs) := by
  refine ⟨?_, ?_, ⟨[], by simp [CState.extendB], by simp, List.Pairwise.nil⟩,
    rfl⟩
  · cases hsec : st.currentSection
    · exact ⟨bs, by simp [CState.extendB, Bytecode.extend, hsec]⟩
    · exact ⟨[], by simp [CState.extendB, Bytecode.extend, hsec]⟩
  · cases hsec : st.currentSection
    · exact ⟨[], by simp [CState.extendB, Bytecode.extend, hsec]⟩
    · exact ⟨bs, by simp [CState.extendB, Bytecode.extend, hsec]⟩

theorem extPushB (st : CState) (b : Nat) : Ext st (st.pushB b) := by
  rw [CState.pushB_eq_extendB]
  exact extExtendB st [b]

theorem CState.len_extendB (st : CState) (bs : List Nat) (sec : Section) :
    (st.extendB bs).bytecode.len sec =
      st.bytecode.len sec + (if sec = st.currentSection then bs.length else 0) := by
  cases hsec : st.currentSection <;> cases sec <;>
    simp [CState.extendB, Bytecode.extend, Bytecode.len, hsec]

theorem extAddFixupExtendB (st : CState) (size : DataSize) (lbl : String)
    (bs : List Nat) (h : size.sizeInBytes ≤ bs.length) :
    Ext st ((st.addFixup size lbl).extendB bs) := by
  refine ⟨?_, ?_, ?_, rfl⟩
  · cases hc : st.currentSection
    · exact ⟨bs, by simp [CState.extendB, CState.addFixup, Bytecode.extend, hc]⟩
    · exact ⟨[], by simp [CState.extendB, CState.addFixup, Bytecode.extend, hc]⟩
  · cases hc : st.currentSection
    · exact ⟨[], by simp [CState.extendB, CState.addFixup, Bytecode.extend, hc]⟩
    · exact ⟨bs, by simp [CState.extendB, CState.addFixup, Bytecode.extend, hc]⟩
  · refine ⟨[⟨st.currentSection, st.curLen, size, lbl⟩], rfl, ?_,
      List.pairwise_singleton _ _⟩
    intro fx hfx
    rw [List.mem_singleton] at hfx
    subst hfx
    refine ⟨Nat.le_refl _, ?_⟩
    cases hc : st.currentSection <;>
      simp [CState.extendB, CState.addFixup, Bytecode.extend, Bytecode.len,
        CState.curLen, hc] <;> omega

theorem DataSize.sizeInBytes_le_eight (s : DataSize) : s.sizeInBytes ≤ 8 := by
  cases s <;> decide

theorem leBytesOfInt_length (k : Nat) (v : Int) :
    (leBytesOfInt k v).length = k := by
  simp [leBytesOfInt, leBytes_length]

theorem eight_le_leBytes_length (v : Nat) : 8 ≤ (leBytes 8 v).length := by
  simp [leBytes_length]

theorem extStepExtendB {st st' : CState} (h : Ext st st') (bs : List Nat) :
    Ext st (st'.extendB bs) :=
  h.trans (extExtendB st' bs)

theorem extStepPushB {st st' : CState} (h : Ext st st') (b : Nat) :
    Ext st (st'.pushB b) :=
  h.trans (extPushB st' b)

theorem extStepAddFixupExtendB {st st' : CState} (h : Ext st st')
    (size : DataSize) (lbl : String) (bs : List Nat)
    (hb : size.sizeInBytes ≤ bs.length) :
    Ext st ((st'.addFixup size lbl).extendB bs) :=
  h.trans (extAddFixupExtendB st' size lbl bs hb)

theorem extStepAddFixupPushB {st st' : CState} (h : Ext st st')
    (size : DataSize) (lbl : String) (b : Nat)
    (hb : size.sizeInBytes ≤ 1) :
    Ext st ((st'.addFixup size lbl).pushB b) := by
  rw [CState.pushB_eq_extendB]
  exact h.trans (extAddFixupExtendB st' size lbl [b] (by simpa using hb))

theorem extSetSection (st : CState) (sec : Section) :
    Ext st { st with currentSection := sec } :=
  ⟨⟨[], by simp⟩, ⟨[], by simp⟩, ⟨[], by simp, by simp, List.Pairwise.nil⟩, rfl⟩

theorem extSetEntry (st : CState) (e : Entry) :
    Ext st { st with entry := e } :=
  ⟨⟨[], by simp⟩, ⟨[], by simp⟩, ⟨[], by simp, by simp, List.Pairwise.nil⟩, rfl⟩

theorem extEmitAddr {st st' : CState} {base : Expression}
    {off : Option Expression} {inst : String}
    (h : CState.emitAddr st base off inst = .ok st') : Ext st st' := by
  unfold CState.emitAddr at h
  split at h
  all_goals try exact Except.noConfusion h
  all_goals injection h with h
  all_goals subst h
  all_goals
    repeat
      first
        | exact extRefl _
        | refine extStepAddFixupExtendB ?_ _ _ _
            (by simp [leBytes_length, leBytesOfInt_length,
              DataSize.sizeInBytes])
        | refine extStepExtendB ?_ _
        | refine extStepPushB ?_ _

theorem extEmitAddrFrom {st0 st st' : CState} {base : Expression}
    {off : Option Expression} {inst : String} (hext : Ext st0 st)
    (h : CState.emitAddr st base off inst = .ok st') : Ext st0 st' :=
  hext.trans (extEmitAddr h)

theorem extCompileMov {F : FloatModel} {st st' : CState} {lhs rhs : Expression}
    (h : compileMov F st lhs rhs = .ok st') : Ext st st' := by
  simp only [compileMov] at h
  repeat' split at h
  all_goals
    first
      | exact Except.noConfusion h
      | (injection h with h; subst h)
      | exact extEmitAddrFrom (by repeat first | exact extRefl _ | refine extStepPushB ?_ _) h
  all_goals
    repeat
      first
        | exact extRefl _
        | (apply extStepAddFixupExtendB; on_goal 2 => first | exact le_trans (DataSize.sizeInBytes_le_eight _) (eight_le_leBytes_length _) | simp_all [leBytes_length, leBytesOfInt_length, DataSize.sizeInBytes])
        | (apply extStepAddFixupPushB; on_goal 2 => simp_all [DataSize.sizeInBytes])
        | refine extStepExtendB ?_ _
        | refine extStepPushB ?_ _

theorem extCompileLdrOrStr {st st' : CState} {lhs rhs : Expression} {opcode : Opcode} {inst : String}
    (h : compileLdrOrStr st lhs rhs opcode inst = .ok st') : Ext st st' := by
  simp only [compileLdrOrStr] at h
  repeat' split at h
  all_goals
    first
      | exact Except.noConfusion h
      | (injection h with h; subst h)
      | exact extEmitAddrFrom (by repeat first | exact extRefl _ | refine extStepPushB ?_ _) h
  all_goals
    repeat
      first
        | exact extRefl _
        | (apply extStepAddFixupExtendB; on_goal 2 => first | exact le_trans (DataSize.sizeInBytes_le_eight _) (eight_le_leBytes_length _) | simp_all [leBytes_length, leBytesOfInt_length, DataSize.sizeInBytes])
        | (apply extStepAddFixupPushB; on_goal 2 => simp_all [DataSize.sizeInBytes])
        | refine extStepExtendB ?_ _
        | refine extStepPushB ?_ _

theorem extCompilePush {F : FloatModel} {st st' : CState} {ds : Option Expression} {expr : Expression}
    (h : compilePush F st ds expr = .ok st') : Ext st st' := by
  simp only [compilePush] at h
  repeat' split at h
  all_goals
    first
      | exact Except.noConfusion h
      | (injection h with h; subst h)
      | exact extEmitAddrFrom (by repeat first | exact extRefl _ | refine extStepPushB ?_ _) h
  all_goals
    repeat
      first
        | exact extRefl _
        | (apply extStepAddFixupExtendB; on_goal 2 => first | exact le_trans (DataSize.sizeInBytes_le_eight _) (eight_le_leBytes_length _) | simp_all [leBytes_length, leBytesOfInt_length, DataSize.sizeInBytes])
        | (apply extStepAddFixupPushB; on_goal 2 => simp_all [DataSize.sizeInBytes])
        | refine extStepExtendB ?_ _
        | refine extStepPushB ?_ _

theorem extCompilePop {st st' : CState} {ds : Option Expression} {expr : Expression}
    (h : compilePop st ds expr = .ok st') : Ext st st' := by
  simp only [compilePop] at h
  repeat' split at h
  all_goals
    first
      | exact Except.noConfusion h
      | (injection h with h; subst h)
      | exact extEmitAddrFrom (by repeat first | exact extRefl _ | refine extStepPushB ?_ _) h
  all_goals
    repeat
      first
        | exact extRefl _
        | (apply extStepAddFixupExtendB; on_goal 2 => first | exact le_trans (DataSize.sizeInBytes_le_eight _) (eight_le_leBytes_length _) | simp_all [leBytes_length, leBytesOfInt_length, DataSize.sizeInBytes])
        | (apply extStepAddFixupPushB; on_goal 2 => simp_all [DataSize.sizeInBytes])
        | refine extStepExtendB ?_ _
        | refine extStepPushB ?_ _

theorem extCompileArithmetic {F : FloatModel} {st st' : CState} {dest lhs rhs : Expression} {opRR opRI : Opcode} {inst : String}
    (h : compileArithmetic F st dest lhs rhs opRR opRI inst = .ok st') : Ext st st' := by
  simp only [compileArithmetic] at h
  repeat' split at h
  all_goals
    first
      | exact Except.noConfusion h
      | (injection h with h; subst h)
      | exact extEmitAddrFrom (by repeat first | exact extRefl _ | refine extStepPushB ?_ _) h
  all_goals
    repeat
      first
        | exact extRefl _
        | (apply extStepAddFixupExtendB; on_goal 2 => first | exact le_trans (DataSize.sizeInBytes_le_eight _) (eight_le_leBytes_length _) | simp_all [leBytes_length, leBytesOfInt_length, DataSize.sizeInBytes])
        | (apply extStepAddFixupPushB; on_goal 2 => simp_all [DataSize.sizeInBytes])
        | refine extStepExtendB ?_ _
        | refine extStepPushB ?_ _

theorem extCompileBitwise {st st' : CState} {dest lhs rhs : Expression} {opRR opRI : Opcode} {inst : String}
    (h : compileBitwise st dest lhs rhs opRR opRI inst = .ok st') : Ext st st' := by
  simp only [compileBitwise] at h
  repeat' split at h
  all_goals
    first
      | exact Except.noConfusion h
      | (injection h with h; subst h)
      | exact extEmitAddrFrom (by repeat first | exact extRefl _ | refine extStepPushB ?_ _) h
  all_goals
    repeat
      first
        | exact extRefl _
        | (apply extStepAddFixupExtendB; on_goal 2 => first | exact le_trans (DataSize.sizeInBytes_le_eight _) (eight_le_leBytes_length _) | simp_all [leBytes_length, leBytesOfInt_length, DataSize.sizeInBytes])
        | (apply extStepAddFixupPushB; on_goal 2 => simp_all [DataSize.sizeInBytes])
        | refine extStepExtendB ?_ _
        | refine extStepPushB ?_ _

theorem extCompileCmp {F : FloatModel} {st st' : CState} {lhs rhs : Expression}
    (h : compileCmp F st lhs rhs = .ok st') : Ext st st' := by
  simp only [compileCmp] at h
  repeat' split at h
  all_goals
    first
      | exact Except.noConfusion h
      | (injection h with h; subst h)
      | exact extEmitAddrFrom (by repeat first | exact extRefl _ | refine extStepPushB ?_ _) h
  all_goals
    repeat
      first
        | exact extRefl _
        | (apply extStepAddFixupExtendB; on_goal 2 => first | exact le_trans (DataSize.sizeInBytes_le_eight _) (eight_le_leBytes_length _) | simp_all [leBytes_length, leBytesOfInt_length, DataSize.sizeInBytes])
        | (apply extStepAddFixupPushB; on_goal 2 => simp_all [DataSize.sizeInBytes])
        | refine extStepExtendB ?_ _
        | refine extStepPushB ?_ _

theorem extCompileJump {st st' : CState} {expr : Expression} {opImm opReg : Opcode} {inst : String}
    (h : compileJump st expr opImm opReg inst = .ok st') : Ext st st' := by
  simp only [compileJump] at h
  repeat' split at h
  all_goals
    first
      | exact Except.noConfusion h
      | (injection h with h; subst h)
      | exact extEmitAddrFrom (by repeat first | exact extRefl _ | refine extStepPushB ?_ _) h
  all_goals
    repeat
      first
        | exact extRefl _
        | (apply extStepAddFixupExtendB; on_goal 2 => first | exact le_trans (DataSize.sizeInBytes_le_eight _) (eight_le_leBytes_length _) | simp_all [leBytes_length, leBytesOfInt_length, DataSize.sizeInBytes])
        | (apply extStepAddFixupPushB; on_goal 2 => simp_all [DataSize.sizeInBytes])
        | refine extStepExtendB ?_ _
        | refine extStepPushB ?_ _

theorem extCompileCall {st st' : CState} {expr : Expression}
    (h : compileCall st expr = .ok st') : Ext st st' := by
  simp only [compileCall] at h
  repeat' split at h
  all_goals
    first
      | exact Except.noConfusion h
      | (injection h with h; subst h)
      | exact extEmitAddrFrom (by repeat first | exact extRefl _ | refine extStepPushB ?_ _) h
  all_goals
    repeat
      first
        | exact extRefl _
        | (apply extStepAddFixupExtendB; on_goal 2 => first | exact le_trans (DataSize.sizeInBytes_le_eight _) (eight_le_leBytes_length _) | simp_all [leBytes_length, leBytesOfInt_length, DataSize.sizeInBytes])
        | (apply extStepAddFixupPushB; on_goal 2 => simp_all [DataSize.sizeInBytes])
        | refine extStepExtendB ?_ _
        | refine extStepPushB ?_ _

theorem extCompileIncOrDec {st st' : CState} {expr : Expression} {opcode : Opcode} {inst : String}
    (h : compileIncOrDec st expr opcode inst = .ok st') : Ext st st' := by
  simp only [compileIncOrDec] at h
  repeat' split at h
  all_goals
    first
      | exact Except.noConfusion h
      | (injection h with h; subst h)
      | exact extEmitAddrFrom (by repeat first | exact extRefl _ | refine extStepPushB ?_ _) h
  all_goals
    repeat
      first
        | exact extRefl _
        | (apply extStepAddFixupExtendB; on_goal 2 => first | exact le_trans (DataSize.sizeInBytes_le_eight _) (eight_le_leBytes_length _) | simp_all [leBytes_length, leBytesOfInt_length, DataSize.sizeInBytes])
        | (apply extStepAddFixupPushB; on_goal 2 => simp_all [DataSize.sizeInBytes])
        | refine extStepExtendB ?_ _
        | refine extStepPushB ?_ _

theorem extDbFold (exprs : List Expression) : ∀ {st st' : CState},
    exprs.foldlM dbStep st = .ok st' → Ext st st' := by
  induction exprs with
  | nil =>
      intro st st' h
      rw [List.foldlM_nil] at h
      cases Except.ok.inj h
      exact extRefl st
  | cons e rest ih =>
      intro st st' h
      rw [List.foldlM_cons] at h
      cases e
      case integerLiteral v =>
        exact Ext.trans (extPushB st (intCast8 v)) (ih h)
      case stringLiteral s =>
        exact Ext.trans (extExtendB st (strBytes s)) (ih h)
      all_goals exact Except.noConfusion h

theorem compileStmt_shape (F : FloatModel) {st st' : CState}
    {stmt : Statement} (h : compileStmt F st stmt = .ok st') :
    (∃ name sp, stmt = .label name sp ∧
      st' = { st with labels := (name, st.currentSection, st.curLen) :: st.labels })
    ∨ Ext st st' := by
  simp only [compileStmt] at h
  repeat' split at h
  all_goals
    first
      | exact Except.noConfusion h
      | exact Or.inr (extCompileMov h)
      | exact Or.inr (extCompileLdrOrStr h)
      | exact Or.inr (extCompilePush h)
      | exact Or.inr (extCompilePop h)
      | exact Or.inr (extCompileArithmetic h)
      | exact Or.inr (extCompileBitwise h)
      | exact Or.inr (extCompileCmp h)
      | exact Or.inr (extCompileJump h)
      | exact Or.inr (extCompileCall h)
      | exact Or.inr (extCompileIncOrDec h)
      | exact Or.inr (extDbFold _ h)
      | (injection h with h; subst h; left; exact ⟨_, _, rfl, rfl⟩)
      | (injection h with h; subst h)
  all_goals
    refine Or.inr ?_
  all_goals
    repeat
      first
        | exact extRefl _
        | exact extSetSection _ _
        | exact extSetEntry _ _
        | refine extStepExtendB ?_ _
        | refine extStepPushB ?_ _

/-! ### Duplicate labels (C9) -/

theorem lookupLabel_cons_self (L : String) (p : Section × Nat)
    (labels : List (String × Section × Nat)) :
    lookupLabel ((L, p) :: labels) L = some p := by
  simp [lookupLabel, List.find?_cons]

theorem lookupLabel_cons_ne (name L : String) (p : Section × Nat)
    (labels : List (String × Section × Nat)) (h : name ≠ L) :
    lookupLabel ((name, p) :: labels) L = lookupLabel labels L := by
  simp [lookupLabel, List.find?_cons, h]

/-- Statements containing no `label L` leave the resolution of `L`
unchanged (a later `label` of a different name shadows nothing, and every
other statement arm leaves the labels table untouched). -/
theorem lookupLabel_foldlM_preserved (F : FloatModel) (L : String)
    (v : Section × Nat) : ∀ (ys : List Statement) {st1 st' : CState},
    (∀ sp', Statement.label L sp' ∉ ys) →
    lookupLabel st1.labels L = some v →
    List.foldlM (compileStmt F) st1 ys = .ok st' →
    lookupLabel st'.labels L = some v := by
  intro ys
  induction ys with
  | nil =>
      intro st1 st' _ hv h
      rw [List.foldlM_nil] at h
      cases Except.ok.inj h
      exact hv
  | cons y rest ih =>
      intro st1 st' hno hv h
      rw [List.foldlM_cons] at h
      cases hstep : compileStmt F st1 y with
      | error e => rw [hstep] at h; exact Except.noConfusion h
      | ok st2 =>
          rw [hstep] at h
          have hrest : List.foldlM (compileStmt F) st2 rest = .ok st' := h
          have hno' : ∀ sp', Statement.label L sp' ∉ rest := by
            intro sp' hmem
            exact hno sp' (List.mem_cons_of_mem _ hmem)
          rcases compileStmt_shape F hstep with ⟨name, sp, hy, hst2⟩ | hext
          · have hne : name ≠ L := by
              intro heq
              subst heq
              exact hno sp (by rw [hy]; exact List.mem_cons_self _ _)
            refine ih hno' ?_ hrest
            rw [hst2]
            exact (lookupLabel_cons_ne name L _ _ hne).trans hv
          · refine ih hno' ?_ hrest
            rw [hext.labelsEq]
            exact hv

/-- C9: a duplicate label is not an error: the `label` arm always
succeeds, prepending (`HashMap::insert` = overwrite) the current
`(section, offset)`; and when the occurrence of `label L` after `xs` is
the last one in the program, `L` thereafter resolves to that occurrence's
position (the position recorded after `xs`), shadowing any earlier
definition of `L` inside `xs`. -/
theorem duplicate_labels_last_wins (F : FloatModel) (xs ys : List Statement)
    (L : String) (sp : Span) (st st' : CState)
    (hxs : pass1 F xs = .ok st)
    (hys : List.foldlM (compileStmt F) st (.label L sp :: ys) = .ok st')
    (hno : ∀ sp', Statement.label L sp' ∉ ys) :
    (∀ (stc : CState) (name : String) (sp' : Span),
        compileStmt F stc (.label name sp') =
          .ok { stc with labels := (name, stc.currentSection, stc.curLen) :: stc.labels })
    ∧ lookupLabel st'.labels L = some (st.currentSection, st.curLen) := by
  refine ⟨fun stc name sp' => rfl, ?_⟩
  rw [List.foldlM_cons] at hys
  have hstep : compileStmt F st (.label L sp) =
      .ok { st with labels := (L, st.currentSection, st.curLen) :: st.labels } := rfl
  rw [hstep] at hys
  have hys' : List.foldlM (compileStmt F)
      { st with labels := (L, st.currentSection, st.curLen) :: st.labels } ys
      = .ok st' := hys
  exact lookupLabel_foldlM_preserved F L _ ys hno
    (lookupLabel_cons_self L _ st.labels) hys'

/-- C9 witness: `label x; nop; label x; nop` — the second `x` (at text
offset 1) wins over the first (at offset 0), and no error is reported. -/
theorem duplicate_labels_last_wins_witness :
    (∀ sp', Statement.label "x" sp' ∉ ([Statement.nop ⟨0, 0⟩] : List Statement))
    ∧ lookupLabel [("x", Section.text, 1), ("x", Section.text, 0)] "x"
        = some (Section.text, 1) := by
  refine ⟨by intro sp' hmem; simp at hmem, ?_⟩
  exact (duplicate_labels_last_wins floats0
    [Statement.label "x" ⟨0, 0⟩, Statement.nop ⟨0, 0⟩]
    [Statement.nop ⟨0, 0⟩] "x" ⟨0, 0⟩
    ⟨⟨[Opcode.Nop.toByte], []⟩, [("x", Section.text, 0)], [], .text, .address 0⟩
    ⟨⟨[Opcode.Nop.toByte, Opcode.Nop.toByte], []⟩,
      [("x", Section.text, 1), ("x", Section.text, 0)], [], .text, .address 0⟩
    rfl rfl (by intro sp' hmem; simp at hmem)).2

/-! ### Fixup resolution (C1) -/

/-- The invariant maintained by the statement loop: every recorded fixup
range lies inside its section's emitted bytes, and distinct fixups'
ranges are disjoint. -/
def FixupsOK (st : CState) : Prop :=
  (∀ fx ∈ st.fixups, fx.off + fx.size.sizeInBytes ≤ st.bytecode.len fx.sec)
    ∧ st.fixups.Pairwise Sep

theorem FixupsOK.of_ext {st st' : CState} (hext : Ext st st')
    (hok : FixupsOK st) : FixupsOK st' := by
  obtain ⟨news, hn, hb, hp⟩ := hext.fixups
  constructor
  · intro fx hfx
    rw [hn] at hfx
    rcases List.mem_append.mp hfx with hfx | hfx
    · exact le_trans (hok.1 fx hfx) (hext.len_le fx.sec)
    · exact (hb fx hfx).2
  · rw [hn, List.pairwise_append]
    refine ⟨hok.2, hp, ?_⟩
    intro fx hfx fy hfy
    by_cases hsec : fx.sec = fy.sec
    · refine Or.inr (Or.inl ?_)
      have hx : fx.off + fx.size.sizeInBytes ≤ st.bytecode.len fx.sec :=
        hok.1 fx hfx
      have hy : st.bytecode.len fy.sec ≤ fy.off := (hb fy hfy).1
      rw [hsec] at hx
      exact le_trans hx hy
    · exact Or.inl hsec

theorem pass1_fixupsOK (F : FloatModel) (program : List Statement)
    {st : CState} (h : pass1 F program = .ok st) : FixupsOK st := by
  unfold pass1 at h
  suffices hgen : ∀ (prog : List Statement) (st0 : CState), FixupsOK st0 →
      ∀ {st1 : CState}, List.foldlM (compileStmt F) st0 prog = .ok st1 →
      FixupsOK st1 by
    exact hgen program initState ⟨by simp [initState], by simp [initState]⟩ h
  intro prog
  induction prog with
  | nil =>
      intro st0 hok st1 h1
      rw [List.foldlM_nil] at h1
      cases Except.ok.inj h1
      exact hok
  | cons y rest ih =>
      intro st0 hok st1 h1
      rw [List.foldlM_cons] at h1
      cases hstep : compileStmt F st0 y with
      | error e => rw [hstep] at h1; exact Except.noConfusion h1
      | ok st2 =>
          rw [hstep] at h1
          refine ih st2 ?_ h1
          rcases compileStmt_shape F hstep with ⟨name, sp, hy, hst2⟩ | hext
          · rw [hst2]
            exact hok
          · exact FixupsOK.of_ext hext hok

/-- The `absolute_pos` computation of the fixup loop: a text-section label
is its offset, a data-section label sits after the final text buffer. -/
def absOf (bc : Bytecode) (lsec : Section) (lpos : Nat) : Nat :=
  match lsec with
  | .text => lpos
  | .data => bc.text.length + lpos

theorem absOf_congr {bc1 bc : Bytecode} (h : bc1.text.length = bc.text.length)
    (lsec : Section) (lpos : Nat) : absOf bc1 lsec lpos = absOf bc lsec lpos := by
  cases lsec <;> simp [absOf, h]

theorem writeLeAt_eq_of_le (bc : Bytecode) (sec : Section) (off k val : Nat)
    (h : off + k ≤ (bc.buf sec).length) :
    ∃ bc', bc.writeLeAt sec off k val = .ok bc'
      ∧ ∀ sec2, bc'.buf sec2 =
          if sec2 = sec then writeBytesAt (bc.buf sec2) off (leBytes k val)
          else bc.buf sec2 := by
  cases sec
  · refine ⟨{ bc with text := writeBytesAt bc.text off (leBytes k val) }, ?_, ?_⟩
    · simp only [Bytecode.writeLeAt]
      rw [if_pos (by simpa [leBytes_length] using h)]
    · intro sec2
      cases sec2 <;> simp [Bytecode.buf]
  · refine ⟨{ bc with data := writeBytesAt bc.data off (leBytes k val) }, ?_, ?_⟩
    · simp only [Bytecode.writeLeAt]
      rw [if_pos (by simpa [leBytes_length] using h)]
    · intro sec2
      cases sec2 <;> simp [Bytecode.buf]

theorem resolveOne_int (labels : List (String × Section × Nat))
    (bc : Bytecode) (fx : Fixup) (lsec : Section) (lpos : Nat)
    (hl : lookupLabel labels fx.label = some (lsec, lpos))
    (hnf : fx.size ≠ DataSize.float) (hnd : fx.size ≠ DataSize.double) :
    resolveOne labels bc fx =
      bc.writeLeAt fx.sec fx.off fx.size.sizeInBytes (absOf bc lsec lpos) := by
  unfold resolveOne
  rw [hl]
  cases hsz : fx.size
  case float => exact absurd hsz hnf
  case double => exact absurd hsz hnd
  all_goals cases lsec <;> rfl

theorem resolveFixups_spec (labels : List (String × Section × Nat))
    (fixups : List Fixup) : ∀ (bc : Bytecode),
    (∀ fx ∈ fixups, fx.off + fx.size.sizeInBytes ≤ (bc.buf fx.sec).length) →
    List.Pairwise Sep fixups →
    (∀ fx ∈ fixups, lookupLabel labels fx.label ≠ none) →
    (∀ fx ∈ fixups, fx.size ≠ DataSize.float ∧ fx.size ≠ DataSize.double) →
    ∃ bc', resolveFixups labels bc fixups = .ok bc'
      ∧ (∀ sec, (bc'.buf sec).length = (bc.buf sec).length)
      ∧ (∀ fx ∈ fixups, ∀ lsec lpos,
          lookupLabel labels fx.label = some (lsec, lpos) →
          sliceBytes (bc'.buf fx.sec) fx.off fx.size.sizeInBytes =
            leBytes fx.size.sizeInBytes (absOf bc lsec lpos))
      ∧ (∀ sec c k,
          (∀ fx ∈ fixups, fx.sec ≠ sec ∨ c + k ≤ fx.off
            ∨ fx.off + fx.size.sizeInBytes ≤ c) →
          sliceBytes (bc'.buf sec) c k = sliceBytes (bc.buf sec) c k) := by
  induction fixups with
  | nil =>
      intro bc _ _ _ _
      exact ⟨bc, rfl, fun sec => rfl, by intro fx hfx; simp at hfx,
        fun sec c k _ => rfl⟩
  | cons fx rest ih =>
      intro bc hbound hsep hdef hsizes
      obtain ⟨hsepHead, hsepTail⟩ := List.pairwise_cons.mp hsep
      have hmemfx : fx ∈ fx :: rest := List.mem_cons_self fx rest
      obtain ⟨hnf, hnd⟩ := hsizes fx hmemfx
      cases hl : lookupLabel labels fx.label with
      | none => exact absurd hl (hdef fx hmemfx)
      | some p =>
          obtain ⟨lsec, lpos⟩ := p
          have hb1 : fx.off + fx.size.sizeInBytes ≤ (bc.buf fx.sec).length :=
            hbound fx hmemfx
          obtain ⟨bc1, hw, hbuf⟩ := writeLeAt_eq_of_le bc fx.sec fx.off
            fx.size.sizeInBytes (absOf bc lsec lpos) hb1
          have hlen1 : ∀ sec2, (bc1.buf sec2).length = (bc.buf sec2).length := by
            intro sec2
            rw [hbuf sec2]
            by_cases hs : sec2 = fx.sec
            · rw [if_pos hs]
              subst hs
              exact length_writeBytesAt _ _ _ (by rw [leBytes_length]; exact hb1)
            · rw [if_neg hs]
          obtain ⟨bc2, hr2, hlen2, hfix2, hframe2⟩ := ih bc1
            (by
              intro fy hfy
              rw [hlen1 fy.sec]
              exact hbound fy (List.mem_cons_of_mem _ hfy))
            hsepTail
            (fun fy hfy => hdef fy (List.mem_cons_of_mem _ hfy))
            (fun fy hfy => hsizes fy (List.mem_cons_of_mem _ hfy))
          have hstep : resolveFixups labels bc (fx :: rest) =
              resolveFixups labels bc1 rest := by
            show List.foldlM (resolveOne labels) bc (fx :: rest) = _
            rw [List.foldlM_cons, resolveOne_int labels bc fx lsec lpos hl hnf hnd,
              hw]
            rfl
          have htl : bc1.text.length = bc.text.length := hlen1 Section.text
          refine ⟨bc2, hstep.trans hr2, fun sec => (hlen2 sec).trans (hlen1 sec),
            ?_, ?_⟩
          · intro fy hfy lsec' lpos' hl'
            rcases List.mem_cons.mp hfy with hfy | hfy
            · subst hfy
              rw [hl] at hl'
              obtain ⟨rfl, rfl⟩ : lsec = lsec' ∧ lpos = lpos' := by
                have := Option.some.inj hl'
                exact ⟨congrArg Prod.fst this, congrArg Prod.snd this⟩
              rw [hframe2 fy.sec fy.off fy.size.sizeInBytes
                (by
                  intro fz hz
                  rcases hsepHead fz hz with h | h | h
                  · exact Or.inl (Ne.symm h)
                  · exact Or.inr (Or.inl h)
                  · exact Or.inr (Or.inr h)),
                hbuf fy.sec, if_pos rfl]
              have hself := sliceBytes_writeBytesAt_self (bc.buf fy.sec)
                (leBytes fy.size.sizeInBytes (absOf bc lsec lpos))
                fy.off (by rw [leBytes_length]; exact hb1)
              rw [leBytes_length] at hself
              exact hself
            · have hthis := hfix2 fy hfy lsec' lpos' hl'
              rw [absOf_congr htl] at hthis
              exact hthis
          · intro sec c k hdis
            rw [hframe2 sec c k
              (fun fz hz => hdis fz (List.mem_cons_of_mem _ hz)), hbuf sec]
            by_cases hs : sec = fx.sec
            · rw [if_pos hs]
              subst hs
              refine sliceBytes_writeBytesAt_disjoint _ _ _ _ _
                (by rw [leBytes_length]; exact hb1) ?_
              rw [leBytes_length]
              rcases hdis fx hmemfx with h | h | h
              · exact absurd rfl h
              · exact Or.inl h
              · exact Or.inr h
            · rw [if_neg hs]

theorem ok_bind {ε α β : Type} (a : α) (f : α → Except ε β) :
    (Except.ok a >>= f) = f a := rfl

theorem error_bind {ε α β : Type} (e : ε) (f : α → Except ε β) :
    ((Except.error e : Except ε α) >>= f) = .error e := rfl

theorem Bytecode.len_eq_buf_length (bc : Bytecode) (sec : Section) :
    bc.len sec = (bc.buf sec).length := by
  cases sec <;> rfl

theorem resolveOne_none (labels : List (String × Section × Nat))
    (bc : Bytecode) (fx : Fixup)
    (hl : lookupLabel labels fx.label = none) :
    resolveOne labels bc fx = .error (.undefinedLabel fx.label) := by
  unfold resolveOne
  rw [hl]

theorem resolveOne_badSize (labels : List (String × Section × Nat))
    (bc : Bytecode) (fx : Fixup) (lsec : Section) (lpos : Nat)
    (hl : lookupLabel labels fx.label = some (lsec, lpos))
    (hsz : fx.size = DataSize.float ∨ fx.size = DataSize.double) :
    resolveOne labels bc fx = .error (.invalidDataSize "FIXUP") := by
  unfold resolveOne
  rw [hl]
  rcases hsz with hsz | hsz <;> rw [hsz]

theorem resolveFixups_cons (labels : List (String × Section × Nat))
    (bc : Bytecode) (fx : Fixup) (rest : List Fixup) :
    resolveFixups labels bc (fx :: rest) =
      resolveOne labels bc fx >>= fun b => resolveFixups labels b rest := by
  show List.foldlM (resolveOne labels) bc (fx :: rest) = _
  rw [List.foldlM_cons]
  rfl

/-- A successful fixup loop implies every fixup's label was defined and
its size was an integer size. -/
theorem resolveFixups_ok_props (labels : List (String × Section × Nat))
    (fixups : List Fixup) : ∀ {bc bc' : Bytecode},
    resolveFixups labels bc fixups = .ok bc' →
    ∀ fx ∈ fixups, lookupLabel labels fx.label ≠ none
      ∧ fx.size ≠ DataSize.float ∧ fx.size ≠ DataSize.double := by
  induction fixups with
  | nil =>
      intro bc bc' _ fx hfx
      simp at hfx
  | cons fx rest ih =>
      intro bc bc' h fy hfy
      rw [resolveFixups_cons] at h
      obtain ⟨bc1, hro, hrest⟩ := bind_ok h
      have hfxprops : lookupLabel labels fx.label ≠ none
          ∧ fx.size ≠ DataSize.float ∧ fx.size ≠ DataSize.double := by
        refine ⟨?_, ?_, ?_⟩
        · intro hnone
          rw [resolveOne_none labels bc fx hnone] at hro
          exact Except.noConfusion hro
        · intro hsz
          cases hl : lookupLabel labels fx.label with
          | none =>
              rw [resolveOne_none labels bc fx hl] at hro
              exact Except.noConfusion hro
          | some p =>
              rw [resolveOne_badSize labels bc fx p.1 p.2 (by rw [hl]) 
                (Or.inl hsz)] at hro
              exact Except.noConfusion hro
        · intro hsz
          cases hl : lookupLabel labels fx.label with
          | none =>
              rw [resolveOne_none labels bc fx hl] at hro
              exact Except.noConfusion hro
          | some p =>
              rw [resolveOne_badSize labels bc fx p.1 p.2 (by rw [hl]) 
                (Or.inr hsz)] at hro
              exact Except.noConfusion hro
      rcases List.mem_cons.mp hfy with hfy | hfy
      · subst hfy
        exact hfxprops
      · exact ih hrest fy hfy

/-- An undefined label surfaces as `UndefinedLabel` (provided the fixups
before it in iteration order succeed, i.e. are in range with integer
sizes). -/
theorem resolveFixups_undefined (labels : List (String × Section × Nat))
    (fixups : List Fixup) : ∀ (bc : Bytecode),
    (∀ fx ∈ fixups, fx.off + fx.size.sizeInBytes ≤ (bc.buf fx.sec).length) →
    (∀ fx ∈ fixups, fx.size ≠ DataSize.float ∧ fx.size ≠ DataSize.double) →
    (∃ fx ∈ fixups, lookupLabel labels fx.label = none) →
    ∃ lbl, resolveFixups labels bc fixups = .error (.undefinedLabel lbl)
      ∧ lookupLabel labels lbl = none := by
  induction fixups with
  | nil =>
      intro bc _ _ hex
      obtain ⟨fx, hfx, _⟩ := hex
      simp at hfx
  | cons fx rest ih =>
      intro bc hbound hsizes hex
      have hmemfx : fx ∈ fx :: rest := List.mem_cons_self fx rest
      cases hl : lookupLabel labels fx.label with
      | none =>
          refine ⟨fx.label, ?_, hl⟩
          rw [resolveFixups_cons, resolveOne_none labels bc fx hl, error_bind]
      | some p =>
          obtain ⟨lsec, lpos⟩ := p
          obtain ⟨hnf, hnd⟩ := hsizes fx hmemfx
          have hb1 : fx.off + fx.size.sizeInBytes ≤ (bc.buf fx.sec).length :=
            hbound fx hmemfx
          obtain ⟨bc1, hw, hbuf⟩ := writeLeAt_eq_of_le bc fx.sec fx.off
            fx.size.sizeInBytes (absOf bc lsec lpos) hb1
          have hlen1 : ∀ sec2, (bc1.buf sec2).length = (bc.buf sec2).length := by
            intro sec2
            rw [hbuf sec2]
            by_cases hs : sec2 = fx.sec
            · rw [if_pos hs]
              subst hs
              exact length_writeBytesAt _ _ _ (by rw [leBytes_length]; exact hb1)
            · rw [if_neg hs]
          have hex' : ∃ fz ∈ rest, lookupLabel labels fz.label = none := by
            obtain ⟨fz, hz, hznone⟩ := hex
            rcases List.mem_cons.mp hz with hz | hz
            · subst hz
              exact absurd hznone (by rw [hl]; exact Option.noConfusion)
            · exact ⟨fz, hz, hznone⟩
          obtain ⟨lbl, herr, hlblnone⟩ := ih bc1
            (by
              intro fy hfy
              rw [hlen1 fy.sec]
              exact hbound fy (List.mem_cons_of_mem _ hfy))
            (fun fy hfy => hsizes fy (List.mem_cons_of_mem _ hfy))
            hex'
          refine ⟨lbl, ?_, hlblnone⟩
          rw [resolveFixups_cons,
            resolveOne_int labels bc fx lsec lpos hl hnf hnd, hw, ok_bind, herr]

/-- A float/double fixup size surfaces as `InvalidDataSize "FIXUP"`
(provided the fixups before it in iteration order succeed). -/
theorem resolveFixups_invalidSize (labels : List (String × Section × Nat))
    (fixups : List Fixup) : ∀ (bc : Bytecode),
    (∀ fx ∈ fixups, fx.off + fx.size.sizeInBytes ≤ (bc.buf fx.sec).length) →
    (∀ fx ∈ fixups, lookupLabel labels fx.label ≠ none) →
    (∃ fx ∈ fixups, fx.size = DataSize.float ∨ fx.size = DataSize.double) →
    resolveFixups labels bc fixups = .error (.invalidDataSize "FIXUP") := by
  induction fixups with
  | nil =>
      intro bc _ _ hex
      obtain ⟨fx, hfx, _⟩ := hex
      simp at hfx
  | cons fx rest ih =>
      intro bc hbound hdef hex
      have hmemfx : fx ∈ fx :: rest := List.mem_cons_self fx rest
      cases hl : lookupLabel labels fx.label with
      | none => exact absurd hl (hdef fx hmemfx)
      | some p =>
          obtain ⟨lsec, lpos⟩ := p
          by_cases hbad : fx.size = DataSize.float ∨ fx.size = DataSize.double
          · rw [resolveFixups_cons,
              resolveOne_badSize labels bc fx lsec lpos hl hbad, error_bind]
          · push_neg at hbad
            obtain ⟨hnf, hnd⟩ := hbad
            have hb1 : fx.off + fx.size.sizeInBytes ≤ (bc.buf fx.sec).length :=
              hbound fx hmemfx
            obtain ⟨bc1, hw, hbuf⟩ := writeLeAt_eq_of_le bc fx.sec fx.off
              fx.size.sizeInBytes (absOf bc lsec lpos) hb1
            have hlen1 : ∀ sec2, (bc1.buf sec2).length = (bc.buf sec2).length := by
              intro sec2
              rw [hbuf sec2]
              by_cases hs : sec2 = fx.sec
              · rw [if_pos hs]
                subst hs
                exact length_writeBytesAt _ _ _
                  (by rw [leBytes_length]; exact hb1)
              · rw [if_neg hs]
            have hex' : ∃ fz ∈ rest,
                fz.size = DataSize.float ∨ fz.size = DataSize.double := by
              obtain ⟨fz, hz, hzbad⟩ := hex
              rcases List.mem_cons.mp hz with hz | hz
              · subst hz
                rcases hzbad with hzbad | hzbad
                · exact absurd hzbad hnf
                · exact absurd hzbad hnd
              · exact ⟨fz, hz, hzbad⟩
            rw [resolveFixups_cons,
              resolveOne_int labels bc fx lsec lpos hl hnf hnd, hw, ok_bind]
            exact ih bc1
              (by
                intro fy hfy
                rw [hlen1 fy.sec]
                exact hbound fy (List.mem_cons_of_mem _ hfy))
              (fun fy hfy => hdef fy (List.mem_cons_of_mem _ hfy))
              hex'

/-- C1: fixup resolution.  After the statement loop (`pass1`), (1) when
the fixup loop succeeds, each recorded fixup's `size` bytes at its
recorded offset in its recorded section's buffer hold, little-endian, the
label's absolute address (`offset` for a text label, `text.len() + offset`
for a data label), buffer lengths are unchanged, and a successful
`compile` produces `entry_u64_le || text || data` with the data-section
patches applied before concatenation; (2) if every size is an integer
size and some label is undefined, `compile` fails with `UndefinedLabel`;
(3) if every label is defined and some size is float/double, `compile`
fails with `InvalidDataSize "FIXUP"`. -/
theorem fixup_resolution (F : FloatModel) (program : List Statement)
    (st : CState) (hp : pass1 F program = .ok st) :
    (∀ bc', resolveFixups st.labels st.bytecode st.fixups = .ok bc' →
        (∀ sec, (bc'.buf sec).length = (st.bytecode.buf sec).length)
        ∧ (∀ fx ∈ st.fixups, ∀ lsec lpos,
            lookupLabel st.labels fx.label = some (lsec, lpos) →
            sliceBytes (bc'.buf fx.sec) fx.off fx.size.sizeInBytes =
              leBytes fx.size.sizeInBytes (absOf st.bytecode lsec lpos))
        ∧ ∀ entry, resolveEntry st.labels bc' st.entry = .ok entry →
            compile F program = .ok (leBytes 8 entry ++ (bc'.text ++ bc'.data)))
    ∧ ((∀ fx ∈ st.fixups, fx.size ≠ DataSize.float ∧ fx.size ≠ DataSize.double) →
       (∃ fx ∈ st.fixups, lookupLabel st.labels fx.label = none) →
       ∃ lbl, compile F program = .error (.undefinedLabel lbl)
         ∧ lookupLabel st.labels lbl = none)
    ∧ ((∀ fx ∈ st.fixups, lookupLabel st.labels fx.label ≠ none) →
       (∃ fx ∈ st.fixups, fx.size = DataSize.float ∨ fx.size = DataSize.double) →
       compile F program = .error (.invalidDataSize "FIXUP")) := by
  have hok : FixupsOK st := pass1_fixupsOK F program hp
  have hbound : ∀ fx ∈ st.fixups,
      fx.off + fx.size.sizeInBytes ≤ (st.bytecode.buf fx.sec).length := by
    intro fx hfx
    rw [← Bytecode.len_eq_buf_length]
    exact hok.1 fx hfx
  refine ⟨?_, ?_, ?_⟩
  · intro bc' hres
    have hprops := resolveFixups_ok_props st.labels st.fixups hres
    obtain ⟨bc'', hres'', hlen, hfix, _⟩ :=
      resolveFixups_spec st.labels st.fixups st.bytecode hbound hok.2
        (fun fx hfx => (hprops fx hfx).1)
        (fun fx hfx => (hprops fx hfx).2)
    cases Except.ok.inj (hres''.symm.trans hres)
    refine ⟨hlen, hfix, ?_⟩
    intro entry hent
    unfold compile
    rw [hp, ok_bind, hres, ok_bind, hent, ok_bind]
    rfl
  · intro hsizes hex
    obtain ⟨lbl, herr, hnone⟩ :=
      resolveFixups_undefined st.labels st.fixups st.bytecode hbound hsizes hex
    refine ⟨lbl, ?_, hnone⟩
    unfold compile
    rw [hp, ok_bind, herr, error_bind]
  · intro hdef hex
    have herr :=
      resolveFixups_invalidSize st.labels st.fixups st.bytecode hbound hdef hex
    unfold compile
    rw [hp, ok_bind, herr, error_bind]

/-- C1 witness: `jmp x; x: hlt` — the QWord fixup at text offset 1 is
patched with the little-endian absolute address 9 of the label, and the
compiled image is the zero entry header followed by the patched text. -/
theorem fixup_resolution_witness :
    sliceBytes
        (Bytecode.buf ⟨[Opcode.JmpImm.toByte, 9, 0, 0, 0, 0, 0, 0, 0,
          Opcode.Hlt.toByte], []⟩ Section.text) 1 8
      = leBytes 8 (absOf
          ⟨[Opcode.JmpImm.toByte, 0, 0, 0, 0, 0, 0, 0, 0,
            Opcode.Hlt.toByte], []⟩ Section.text 9)
    ∧ compile floats0
        [Statement.jmp (Expression.identifier "x") ⟨0, 0⟩,
         Statement.label "x" ⟨0, 0⟩, Statement.hlt ⟨0, 0⟩]
      = .ok (leBytes 8 0 ++ ([Opcode.JmpImm.toByte, 9, 0, 0, 0, 0, 0, 0, 0,
          Opcode.Hlt.toByte] ++ [])) := by
  have h := fixup_resolution floats0
    [Statement.jmp (Expression.identifier "x") ⟨0, 0⟩,
     Statement.label "x" ⟨0, 0⟩, Statement.hlt ⟨0, 0⟩]
    ⟨⟨[Opcode.JmpImm.toByte, 0, 0, 0, 0, 0, 0, 0, 0, Opcode.Hlt.toByte], []⟩,
      [("x", Section.text, 9)], [⟨Section.text, 1, DataSize.qword, "x"⟩],
      Section.text, Entry.address 0⟩
    rfl
  have h1 := h.1
    ⟨[Opcode.JmpImm.toByte, 9, 0, 0, 0, 0, 0, 0, 0, Opcode.Hlt.toByte], []⟩
    rfl
  refine ⟨?_, h1.2.2 0 rfl⟩
  exact h1.2.1 ⟨Section.text, 1, DataSize.qword, "x"⟩
    (List.mem_singleton_self _) Section.text 9 rfl

end Nyx
